import Mathlib

/-!
Verification of the core of an archetype-based ECS runtime: generational
entity handles, column-oriented archetype storage, structural migration,
cached signature queries, deferred command flush, in-place permutation sort,
and a snapshot codec.

The definitions are a value-level shallow embedding of the C++ headers
(entity.hpp, component.hpp, archetype.hpp, world.hpp, command_buffer.hpp,
serialization.hpp): std::vector becomes List, a raw column becomes the list of
its live component values (count = length; element size, capacity and the
backing buffer are memory-layout details with no value content), an archetype
pointer becomes the archetype type set (the key of the archetypes map;
archetypes never move and never die, and an archetype never changes its id
set, so the type set is a stable identity), and an ECS_ASSERT failure (abort)
becomes an Option none result.  The uint32_t generation counter keeps its
wrap at 2^32 where it is incremented.  Lifecycle hooks are observed through an
event log: every hook fire point appends one event; the callbacks themselves
are opaque user code outside the value model (the contract forbids them to
change the iterated entity).  The per-archetype add/remove edge cache and the
column factory registry only memoize lookups whose results never change, so
they carry no value-level state.
-/

namespace ECS

/-- Component values, abstracted to naturals (the storage is type-erased). -/
abbrev Val := Nat

/-- Dense component type id (component.hpp: ComponentTypeID = uint32_t). -/
abbrev ComponentTypeID := Nat

/-- The modulus of uint32_t arithmetic. -/
def UINT32_MOD : Nat := 4294967296

/-- The per-process id counter of next_component_id (component.hpp):
returns the current counter value and the incremented counter.  There is no
bounds check. -/
def nextComponentId (counter : Nat) : Nat × Nat := (counter, counter + 1)

/-- Ids handed out by the first n distinct component_id calls, starting from
counter state c (each first-seen type draws one fresh id). -/
def assignIds (c : Nat) : Nat → List Nat
  | 0 => []
  | n + 1 =>
    let p := nextComponentId c
    p.1 :: assignIds p.2 n

/-- Insert into an ascending list; building block of the std::sort calls on
small id vectors (make_typeset, find_add_target). -/
def insertAsc (x : Nat) : List Nat → List Nat
  | [] => [x]
  | y :: ys => if x ≤ y then x :: y :: ys else y :: insertAsc x ys

/-- Ascending sort of a component id list (std::sort on a TypeSet). -/
def sortIds (l : List Nat) : List Nat := l.foldr insertAsc []

/-- Pairwise distinctness of a list. -/
def allDistinct {α : Type} [DecidableEq α] : List α → Bool
  | [] => true
  | x :: xs => !(xs.contains x) && allDistinct xs

/-- Strictly ascending check; a valid TypeSet is sorted and duplicate free. -/
def strictAsc : List Nat → Bool
  | [] => true
  | [_] => true
  | a :: b :: rest => decide (a < b) && strictAsc (b :: rest)

/-- Enumerate a list with positions starting at a given offset. -/
def enumFrom {α : Type} (start : Nat) : List α → List (Nat × α)
  | [] => []
  | x :: xs => (start, x) :: enumFrom (start + 1) xs

/-- Entity handle (entity.hpp): index and generation, both uint32_t;
equality compares both fields. -/
structure Entity where
  index : Nat
  generation : Nat
deriving DecidableEq, Repr

/-- The all-zeros invalid handle (entity.hpp: INVALID_ENTITY). -/
def INVALID_ENTITY : Entity := ⟨0, 0⟩

/-- The live values of one ComponentColumn (component.hpp), in row order. -/
abbrev Column := List Val

/-- ComponentColumn::swap_remove: destroy the element at row, move the last
element into the hole when row was not last, pop the last slot. -/
def colSwapRemove (vs : Column) (row : Nat) : Column :=
  (if row + 1 < vs.length then vs.set row (vs.getLastD 0) else vs).dropLast

/-- Mutate (find_column style: the first column whose id matches) through a
column transformer; when no column matches nothing happens (the callers
guarantee presence, and assert_parity catches a mismatch). -/
def editCol (cid : ComponentTypeID) (f : Column → Column) :
    List (ComponentTypeID × Column) → List (ComponentTypeID × Column)
  | [] => []
  | cv :: rest =>
    if cv.1 == cid then (cv.1, f cv.2) :: rest else cv :: editCol cid f rest

/-- find_column(cid)->push_raw(src): append one value to the column. -/
def pushCol (cid : ComponentTypeID) (v : Val)
    (cs : List (ComponentTypeID × Column)) : List (ComponentTypeID × Column) :=
  editCol cid (fun vs => vs ++ [v]) cs

/-- Overwrite the value at row of the column for cid.  This is the
add-over-existing path: the typed World::add assigns over the slot, the
type-erased World::add_raw runs destroy_fn then move_fn on the slot — both
leave the slot holding the new value. -/
def setCol (cid : ComponentTypeID) (row : Nat) (v : Val)
    (cs : List (ComponentTypeID × Column)) : List (ComponentTypeID × Column) :=
  editCol cid (fun vs => vs.set row v) cs

/-- Archetype (archetype.hpp): sorted type set, columns keyed by component id
in type-set order, and the entity row list parallel to every column.  The
256-bit inclusion bitset is derived from the type set (bitsOf below), and the
add/remove edge cache is a memoization with no value content. -/
structure Archetype where
  type_set : List ComponentTypeID
  columns : List (ComponentTypeID × Column)
  entities : List Entity
deriving DecidableEq, Repr

namespace Archetype

/-- Archetype::count. -/
def count (a : Archetype) : Nat := a.entities.length

/-- Archetype::has_component. -/
def hasComponent (a : Archetype) (cid : ComponentTypeID) : Bool :=
  a.columns.any (fun cv => cv.1 == cid)

/-- Archetype::find_column composed with ComponentColumn::get: the value at
row of the first column with the given id, none when the column is absent. -/
def getValue (a : Archetype) (cid : ComponentTypeID) (row : Nat) : Option Val :=
  (a.columns.find? (fun cv => cv.1 == cid)).map (fun cv => cv.2.getD row 0)

/-- Push a value into the column for cid. -/
def pushRawInto (a : Archetype) (cid : ComponentTypeID) (v : Val) : Archetype :=
  { a with columns := pushCol cid v a.columns }

/-- Archetype::push_entity (ensure_capacity has no value-level effect). -/
def pushEntity (a : Archetype) (e : Entity) : Archetype :=
  { a with entities := a.entities ++ [e] }

/-- Archetype::swap_remove: returns the updated archetype and the entity that
was moved into the hole (INVALID_ENTITY when row was already last). -/
def swapRemove (a : Archetype) (row : Nat) : Archetype × Entity :=
  let swapped :=
    if row + 1 < a.entities.length then a.entities.getLastD INVALID_ENTITY
    else INVALID_ENTITY
  (⟨a.type_set,
    a.columns.map (fun cv => (cv.1, colSwapRemove cv.2 row)),
    (if row + 1 < a.entities.length then
        a.entities.set row (a.entities.getLastD INVALID_ENTITY)
      else a.entities).dropLast⟩,
   swapped)

/-- Archetype::assert_parity as a boolean: every column count equals the
entity row count. -/
def parity (a : Archetype) : Bool :=
  a.columns.all (fun cv => cv.2.length == a.entities.length)

end Archetype

/-- Bit mask of a component id list (std::bitset<256>; modeled on Nat — ids
stay below 256 in intended use). -/
def bitsOf (l : List ComponentTypeID) : Nat :=
  l.foldl (fun m c => m ||| (1 <<< c)) 0

/-- World::archetype_matches: inclusion bits contain the include mask and are
disjoint from the exclude mask. -/
def archetypeMatches (archBits includeMask excludeMask : Nat) : Bool :=
  (archBits &&& includeMask == includeMask) && (archBits &&& excludeMask == 0)

/-- EntityRecord (world.hpp): the location of an entity — owning archetype
(none = null pointer) and row. -/
structure EntityRecord where
  archetype : Option (List ComponentTypeID)
  row : Nat
deriving DecidableEq, Repr

/-- The default-constructed record (null archetype, row 0). -/
def nilRecord : EntityRecord := ⟨none, 0⟩

/-- One observable hook firing (on-add or on-remove of a component id on an
entity). -/
inductive HookEvent where
  | addH (cid : ComponentTypeID) (e : Entity)
  | removeH (cid : ComponentTypeID) (e : Entity)
deriving DecidableEq, Repr

/-- Query cache key: include ids and exclude ids in the order given (each call
sites pass them in template-pack order). -/
structure QueryKey where
  include_ids : List ComponentTypeID
  exclude_ids : List ComponentTypeID
deriving DecidableEq, Repr

/-- One query cache entry: matched archetypes (by type set) and the archetype
set generation observed when the entry was built. -/
structure QueryCacheEntry where
  archetypes : List (List ComponentTypeID)
  generation : Nat
deriving DecidableEq, Repr

/-- Deferred commands (command_buffer.hpp).  The Add and CreateWith payload
bytes carry the component value; move_fn and destroy_fn are the lifecycle
functions of the recorded type. -/
inductive Cmd where
  | destroyCmd (e : Entity)
  | addCmd (e : Entity) (cid : ComponentTypeID) (v : Val)
  | removeCmd (e : Entity) (cid : ComponentTypeID)
  | createWithCmd (comps : List (ComponentTypeID × Val))
deriving DecidableEq, Repr

/-- World (world.hpp): entity table, archetypes, query cache, iteration guard
and the hook-event log. -/
structure World where
  generations : List Nat
  records : List EntityRecord
  free_list : List Nat
  archetypes : List Archetype
  archetype_generation : Nat
  query_cache : List (QueryKey × QueryCacheEntry)
  iterating : Nat
  events : List HookEvent
deriving DecidableEq, Repr

namespace World

/-- The freshly constructed world: index 0 is reserved with generation 1 so
the all-zeros handle is never live. -/
def init : World :=
  { generations := [1], records := [nilRecord], free_list := [], archetypes := [],
    archetype_generation := 0, query_cache := [], iterating := 0, events := [] }

/-- records_[i] (default record when out of range). -/
def recordOf (w : World) (i : Nat) : EntityRecord := w.records.getD i nilRecord

/-- generations_[i] (0 when out of range). -/
def genOf (w : World) (i : Nat) : Nat := w.generations.getD i 0

/-- Look up the archetype with the given type set (archetypes_.find). -/
def findArchetype (w : World) (ts : List ComponentTypeID) : Option Archetype :=
  w.archetypes.find? (fun a => a.type_set == ts)

/-- Dereference an archetype pointer (the callers guarantee presence). -/
def archetypeGet (w : World) (ts : List ComponentTypeID) : Archetype :=
  (w.findArchetype ts).getD ⟨ts, [], []⟩

/-- Mutate the archetype with the given type set in place. -/
def updateArch (w : World) (ts : List ComponentTypeID) (f : Archetype → Archetype) : World :=
  { w with archetypes := w.archetypes.map (fun a => if a.type_set == ts then f a else a) }

/-- records_[i] = r. -/
def setRecord (w : World) (i : Nat) (r : EntityRecord) : World :=
  { w with records := w.records.set i r }

/-- records_[i].row = row (the archetype pointer is untouched). -/
def setRecordRow (w : World) (i row : Nat) : World :=
  w.setRecord i ⟨(w.recordOf i).archetype, row⟩

/-- Fire point of the on-add hooks for cid on e (fire_hooks with
on_add_hooks_): appends one observable event. -/
def fireAdd (w : World) (cid : ComponentTypeID) (e : Entity) : World :=
  { w with events := w.events ++ [HookEvent.addH cid e] }

/-- Fire point of the on-remove hooks for cid on e. -/
def fireRemove (w : World) (cid : ComponentTypeID) (e : Entity) : World :=
  { w with events := w.events ++ [HookEvent.removeH cid e] }

/-- World::alive. -/
def alive (w : World) (e : Entity) : Bool :=
  decide (e.index < w.generations.length) && (w.genOf e.index == e.generation) &&
    (w.recordOf e.index).archetype.isSome

/-- World::count (total number of living entities). -/
def count (w : World) : Nat := (w.archetypes.map Archetype.count).sum

/-- World::get_or_create_archetype: a fresh archetype gets one empty column
per id of the type set, in order, and bumps the archetype set generation. -/
def getOrCreateArchetype (w : World) (ts : List ComponentTypeID) : World :=
  match w.findArchetype ts with
  | some _ => w
  | none =>
    { w with
      archetypes := w.archetypes ++ [⟨ts, ts.map (fun c => (c, [])), []⟩],
      archetype_generation := w.archetype_generation + 1 }

/-- Entity index allocation shared by create / create_with / create_with_raw:
pop the back of the free list, else append a fresh slot. -/
def allocIndex (w : World) : World × Nat :=
  match w.free_list with
  | [] =>
    ({ w with generations := w.generations ++ [0], records := w.records ++ [nilRecord] },
     w.generations.length)
  | _ :: _ => ({ w with free_list := w.free_list.dropLast }, w.free_list.getLastD 0)

/-- World::create: place a fresh entity in the empty archetype. -/
def create (w : World) : Option (World × Entity) :=
  if w.iterating ≠ 0 then none else
  let p := w.allocIndex
  let idx := p.2
  let e : Entity := ⟨idx, p.1.genOf idx⟩
  let w2 := p.1.getOrCreateArchetype []
  let row := (w2.archetypeGet []).count
  let w3 := w2.updateArch [] (fun a => a.pushEntity e)
  some (w3.setRecord idx ⟨some [], row⟩, e)

/-- World::create_with and World::create_with_raw (identical value-level
behavior): sort the id list, get or create the archetype, allocate the index,
push the entity row, push each component value in the order given, check
parity (ECS_ASSERT), set the record, then fire on-add per component in
order. -/
def create_with (w : World) (comps : List (ComponentTypeID × Val)) :
    Option (World × Entity) :=
  if w.iterating ≠ 0 then none else
  let ts := sortIds (comps.map Prod.fst)
  let w1 := w.getOrCreateArchetype ts
  let p := w1.allocIndex
  let idx := p.2
  let e : Entity := ⟨idx, p.1.genOf idx⟩
  let w3 := p.1.updateArch ts (fun a => a.pushEntity e)
  let row := (p.1.archetypeGet ts).count
  let w4 := comps.foldl (fun wa cv => wa.updateArch ts (fun a => a.pushRawInto cv.1 cv.2)) w3
  if (w4.archetypeGet ts).parity then
    let w5 := w4.setRecord idx ⟨some ts, row⟩
    some (comps.foldl (fun wa cv => wa.fireAdd cv.1 e) w5, e)
  else none

/-- World::destroy: fire on-remove per column, swap-remove the row, fix the
moved-in record, null the record, bump the generation (uint32_t), push the
index on the free list.  Destroying a dead entity is a no-op. -/
def destroy (w : World) (e : Entity) : Option World :=
  if w.iterating ≠ 0 then none else
  if !(w.alive e) then some w else
  let r0 := w.recordOf e.index
  let ts := r0.archetype.getD []
  let arch := w.archetypeGet ts
  let w1 := arch.columns.foldl (fun wa cv => wa.fireRemove cv.1 e) w
  let pr := arch.swapRemove r0.row
  let w2 := w1.updateArch ts (fun _ => pr.1)
  let w3 := if pr.2 ≠ INVALID_ENTITY then w2.setRecordRow pr.2.index r0.row else w2
  let w4 := w3.setRecord e.index nilRecord
  some { w4 with
    generations := w4.generations.set e.index ((w4.genOf e.index + 1) % UINT32_MOD),
    free_list := w4.free_list ++ [e.index] }

/-- Destination type set of find_add_target: push the id, sort.  The edge
cache only memoizes this lookup (archetypes are immortal), so it has no
value-level effect. -/
def addTargetTs (oldTs : List ComponentTypeID) (cid : ComponentTypeID) :
    List ComponentTypeID :=
  sortIds (oldTs ++ [cid])

/-- Destination type set of find_remove_target: drop the id. -/
def removeTargetTs (oldTs : List ComponentTypeID) (cid : ComponentTypeID) :
    List ComponentTypeID :=
  oldTs.filter (fun c => c ≠ cid)

/-- World::migrate_entity and World::migrate_entity_removing (the two bodies
are identical): move every column value shared between source and destination
(append into the destination), append the entity row, swap-remove the source
row, fix the moved-in record, update the record of e.  The destination column
of an added component is pushed by the caller afterwards. -/
def migrateEntity (w : World) (e : Entity) (oldTs newTs : List ComponentTypeID)
    (oldRow : Nat) : World :=
  let oldArch := w.archetypeGet oldTs
  let w1 := w.updateArch newTs (fun na =>
    { na with columns := na.columns.map (fun cv =>
        match oldArch.getValue cv.1 oldRow with
        | some v => (cv.1, cv.2 ++ [v])
        | none => cv) })
  let w2 := w1.updateArch newTs (fun a => a.pushEntity e)
  let newRow := (w2.archetypeGet newTs).count - 1
  let pr := (w2.archetypeGet oldTs).swapRemove oldRow
  let w3 := w2.updateArch oldTs (fun _ => pr.1)
  let w4 := if pr.2 ≠ INVALID_ENTITY then w3.setRecordRow pr.2.index oldRow else w3
  w4.setRecord e.index ⟨some newTs, newRow⟩

/-- World::add (typed): overwrite in place when the archetype already has the
component (no migration, no on-add), otherwise migrate to the add target, push
the value, fire on-add. -/
def add (w : World) (e : Entity) (cid : ComponentTypeID) (v : Val) : Option World :=
  if w.iterating ≠ 0 then none else
  if !(w.alive e) then some w else
  let r0 := w.recordOf e.index
  let oldTs := r0.archetype.getD []
  if (w.archetypeGet oldTs).hasComponent cid then
    some (w.updateArch oldTs (fun a => { a with columns := setCol cid r0.row v a.columns }))
  else
    let newTs := addTargetTs oldTs cid
    let w1 := w.getOrCreateArchetype newTs
    let w2 := w1.migrateEntity e oldTs newTs r0.row
    let w3 := w2.updateArch newTs (fun a => a.pushRawInto cid v)
    some (w3.fireAdd cid e)

/-- World::add_raw (type-erased, the path taken by command flush): same
structure as the typed add; the Bool reports whether the payload was consumed
by a move (true on both live paths — overwrite runs destroy_fn then move_fn
on the slot, migration runs push_raw — false when the entity was dead and the
call returned without touching the payload). -/
def add_raw (w : World) (e : Entity) (cid : ComponentTypeID) (v : Val) :
    Option (World × Bool) :=
  if w.iterating ≠ 0 then none else
  if !(w.alive e) then some (w, false) else
  let r0 := w.recordOf e.index
  let oldTs := r0.archetype.getD []
  if (w.archetypeGet oldTs).hasComponent cid then
    some (w.updateArch oldTs (fun a => { a with columns := setCol cid r0.row v a.columns }),
          true)
  else
    let newTs := addTargetTs oldTs cid
    let w1 := w.getOrCreateArchetype newTs
    let w2 := w1.migrateEntity e oldTs newTs r0.row
    let w3 := w2.updateArch newTs (fun a => a.pushRawInto cid v)
    some (w3.fireAdd cid e, true)

/-- World::remove and World::remove_raw (identical value-level behavior):
locate the remove target, fire on-remove before the data is destroyed, then
migrate.  Removing an absent component or from a dead entity is a no-op. -/
def remove (w : World) (e : Entity) (cid : ComponentTypeID) : Option World :=
  if w.iterating ≠ 0 then none else
  if !(w.alive e) then some w else
  let r0 := w.recordOf e.index
  let oldTs := r0.archetype.getD []
  if !((w.archetypeGet oldTs).hasComponent cid) then some w else
  let newTs := removeTargetTs oldTs cid
  let w1 := w.getOrCreateArchetype newTs
  let w2 := w1.fireRemove cid e
  some (w2.migrateEntity e oldTs newTs r0.row)

/-- World::has. -/
def has (w : World) (e : Entity) (cid : ComponentTypeID) : Bool :=
  w.alive e && ((w.archetypeGet ((w.recordOf e.index).archetype.getD [])).hasComponent cid)

/-- World::get (none models the two ECS_ASSERT panics: dead entity, missing
component). -/
def get (w : World) (e : Entity) (cid : ComponentTypeID) : Option Val :=
  if !(w.alive e) then none else
  if !(w.has e cid) then none else
  (w.archetypeGet ((w.recordOf e.index).archetype.getD [])).getValue cid
    (w.recordOf e.index).row

/-- Tail loop of World::destroy_all inside one archetype: destroy the last
row n times (back to front; the swap-remove of the last row never moves
another row). -/
def destroyRowsGo (w : World) (ts : List ComponentTypeID) : Nat → World
  | 0 => w
  | n + 1 =>
    let arch := w.archetypeGet ts
    if arch.count == 0 then w else
    let row := arch.count - 1
    let e := arch.entities.getLastD INVALID_ENTITY
    let w1 := arch.columns.foldl (fun wa cv => wa.fireRemove cv.1 e) w
    let pr := arch.swapRemove row
    let w2 := w1.updateArch ts (fun _ => pr.1)
    let w3 := w2.setRecord e.index nilRecord
    let w4 := { w3 with
      generations := w3.generations.set e.index ((w3.genOf e.index + 1) % UINT32_MOD),
      free_list := w3.free_list ++ [e.index] }
    destroyRowsGo w4 ts n

/-- World::destroy_all: destroy every entity of every archetype containing
cid, per archetype back to front. -/
def destroy_all (w : World) (cid : ComponentTypeID) : Option World :=
  if w.iterating ≠ 0 then none else
  let hits := (w.archetypes.filter (fun a => a.hasComponent cid)).map (fun a => a.type_set)
  some (hits.foldl (fun wa ts => wa.destroyRowsGo ts (wa.archetypeGet ts).count) w)

/-- Store a query cache entry (operator[] insertion or overwrite). -/
def setCacheEntry (w : World) (key : QueryKey) (entry : QueryCacheEntry) : World :=
  { w with query_cache :=
      if w.query_cache.any (fun p => p.1 == key) then
        w.query_cache.map (fun p => if p.1 == key then (key, entry) else p)
      else w.query_cache ++ [(key, entry)] }

/-- The full archetype scan for a query key: every archetype whose inclusion
bits contain the include mask and are disjoint from the exclude mask. -/
def scanMatches (w : World) (inc exc : List ComponentTypeID) :
    List (List ComponentTypeID) :=
  (w.archetypes.filter (fun a =>
    archetypeMatches (bitsOf a.type_set) (bitsOf inc) (bitsOf exc))).map
      (fun a => a.type_set)

/-- World::cached_query: default-insert the entry for the key; when its stored
generation differs from the current archetype set generation, rebuild it by
scanning every archetype with archetype_matches.  Returns the updated world
and the matched archetype list.  none models the MAX_QUERY_TERMS (16)
assertions of the QueryKey constructor. -/
def cachedQuery (w : World) (inc exc : List ComponentTypeID) :
    Option (World × List (List ComponentTypeID)) :=
  if inc.length > 16 ∨ exc.length > 16 then none else
  let key : QueryKey := ⟨inc, exc⟩
  let entry := ((w.query_cache.find? (fun p => p.1 == key)).map Prod.snd).getD ⟨[], 0⟩
  if entry.generation ≠ w.archetype_generation then
    let matched := w.scanMatches inc exc
    some (w.setCacheEntry key ⟨matched, w.archetype_generation⟩, matched)
  else
    some (w.setCacheEntry key entry, entry.archetypes)

/-- Query-cache soundness: every entry was built at a generation not beyond
the current one, and an entry whose generation is current holds exactly the
scan result for its key. -/
def cacheOKb (w : World) : Bool :=
  w.query_cache.all (fun p =>
    decide (p.2.generation ≤ w.archetype_generation) &&
    (p.2.generation != w.archetype_generation ||
      (p.2.archetypes == w.scanMatches p.1.include_ids p.1.exclude_ids)))

/-- Number of observed on-add firings for cid on e. -/
def addEvents (w : World) (cid : ComponentTypeID) (e : Entity) : Nat :=
  (w.events.filter (fun ev => ev == HookEvent.addH cid e)).length

/-- The iteration guard shared by each / each_no_entity: increment iterating
on entry, run the body, decrement on exit.  The body yields the world plus a
normal-completion flag; the decrement is a scoped release and runs on both the
normal and the unwinding path. -/
def eachWrap (w : World) (body : World → World × Bool) : World × Bool :=
  let w1 := { w with iterating := w.iterating + 1 }
  let p := body w1
  ({ p.1 with iterating := p.1.iterating - 1 }, p.2)

/-- Row-index comparison sort used by World::sort: insert index i into an
index list ordered by cmp on the key column. -/
def insertIdx (cmp : Val → Val → Bool) (col : Column) (i : Nat) :
    List Nat → List Nat
  | [] => [i]
  | j :: js =>
    if cmp (col.getD i 0) (col.getD j 0) then i :: j :: js else j :: insertIdx cmp col i js

/-- The permutation built by std::sort on [0..n): perm[k] is the source row
for destination k (a comparison sort determinizes the unspecified std::sort
order among tied keys). -/
def sortIndices (cmp : Val → Val → Bool) (col : Column) (l : List Nat) : List Nat :=
  l.foldr (insertIdx cmp col) []

/-- Apply a gather permutation: destination k receives source perm[k].  This
is the net effect of the invert-then-cycle-chase scatter loop of
World::sort. -/
def applyPerm {α : Type} (dflt : α) (l : List α) (perm : List Nat) : List α :=
  perm.map (fun i => l.getD i dflt)

/-- World::sort on one archetype: skip archetypes without the key component
or with at most one row; otherwise permute the entity row list and every
column by the sort permutation, then update record rows to match. -/
def sortStep (w : World) (ts : List ComponentTypeID) (cid : ComponentTypeID)
    (cmp : Val → Val → Bool) : World :=
  let a := w.archetypeGet ts
  if a.hasComponent cid = true ∧ 1 < a.count then
    let colT := (((a.columns.find? (fun cv => cv.1 == cid)).map Prod.snd).getD [])
    let perm := sortIndices cmp colT (List.range a.count)
    let a2 : Archetype :=
      ⟨a.type_set,
       a.columns.map (fun cv => (cv.1, applyPerm 0 cv.2 perm)),
       applyPerm INVALID_ENTITY a.entities perm⟩
    let w1 := w.updateArch ts (fun _ => a2)
    (enumFrom 0 a2.entities).foldl (fun wa p => wa.setRecordRow p.2.index p.1) w1
  else w

/-- World::sort: permute every archetype containing cid. -/
def sort (w : World) (cid : ComponentTypeID) (cmp : Val → Val → Bool) :
    Option World :=
  if w.iterating ≠ 0 then none else
  some ((w.archetypes.map (fun a => a.type_set)).foldl
    (fun wa ts => wa.sortStep ts cid cmp) w)

/-- One dispatch step of CommandBuffer::flush.  The Nat counts the
invocations of destroy_fn on the payload of this command by the flush driver:
the Add case runs it when the target is found not alive after add_raw
returned, so that an unconsumed payload is not leaked. -/
def flushOne (w : World) : Cmd → Option (World × Nat)
  | .destroyCmd e => (w.destroy e).map (fun w1 => (w1, 0))
  | .addCmd e cid v =>
    match w.add_raw e cid v with
    | none => none
    | some (w1, _) => some (w1, if w1.alive e then 0 else 1)
  | .removeCmd e cid => (w.remove e cid).map (fun w1 => (w1, 0))
  | .createWithCmd comps => (w.create_with comps).map (fun p => (p.1, 0))

/-- Linear walk of the taken-out buffer (CommandBuffer::flush). -/
def flushGo (w : World) : List Cmd → Option World
  | [] => some w
  | c :: rest =>
    match w.flushOne c with
    | none => none
    | some (w1, _) => flushGo w1 rest

/-- World::flush_deferred composed with CommandBuffer::flush: assert no
iteration is in progress, then run the recorded commands in order (the buffer
content is the command list). -/
def flushDeferred (w : World) (cmds : List Cmd) : Option World :=
  if w.iterating ≠ 0 then none else w.flushGo cmds

/-- Record soundness at index i: a live record points into an existing
archetype, at a row holding exactly the handle (i, generations_[i]). -/
def recOKb (w : World) (i : Nat) : Bool :=
  match (w.recordOf i).archetype with
  | none => true
  | some ts =>
    match w.findArchetype ts with
    | none => false
    | some a =>
      decide ((w.recordOf i).row < a.entities.length) &&
      (a.entities.getD (w.recordOf i).row INVALID_ENTITY == ⟨i, w.genOf i⟩)

/-- Archetype soundness: columns keyed exactly by the sorted duplicate-free
type set, column/row parity, and every stored entity has a matching record
and generation. -/
def archOKb (w : World) (a : Archetype) : Bool :=
  (a.columns.map Prod.fst == a.type_set) &&
  strictAsc a.type_set &&
  a.parity &&
  (List.range a.entities.length).all (fun r =>
    decide ((a.entities.getD r INVALID_ENTITY).index < w.records.length) &&
    (w.recordOf (a.entities.getD r INVALID_ENTITY).index == ⟨some a.type_set, r⟩) &&
    (w.genOf (a.entities.getD r INVALID_ENTITY).index ==
      (a.entities.getD r INVALID_ENTITY).generation))

/-- Free-list entry soundness: an in-range slot whose record is null. -/
def freeOKb (w : World) (i : Nat) : Bool :=
  decide (i < w.records.length) && ((w.recordOf i).archetype == none)

/-- The world invariant (the data-model invariants of the ECS core): all of
the above, plus table-length agreement, pairwise distinct archetype type sets,
a duplicate-free free list, and the reserved slot 0 (generation at least 1,
null record, never recycled — so the all-zeros INVALID_ENTITY handle is never
stored anywhere). -/
def WFb (w : World) : Bool :=
  (w.records.length == w.generations.length) &&
  (List.range w.records.length).all (w.recOKb) &&
  w.archetypes.all (w.archOKb) &&
  allDistinct (w.archetypes.map (fun a => a.type_set)) &&
  w.free_list.all (w.freeOKb) &&
  allDistinct w.free_list &&
  decide (0 < w.genOf 0) &&
  ((w.recordOf 0).archetype == none) &&
  !(w.free_list.contains 0)

/-- Worlds reachable from the fresh world by the public structural surface:
create, create_with, destroy, add (typed or raw — the two agree, see the
refinement theorem), remove, sort, a flush of deferred commands, and the
query-cache refresh taken by each (the only world mutation an each call makes
besides the iteration counter). -/
inductive Reachable : World → Prop where
  | init : Reachable World.init
  | create {w w' : World} {e : Entity} :
      Reachable w → w.create = some (w', e) → Reachable w'
  | create_with {w w' : World} {comps : List (ComponentTypeID × Val)} {e : Entity} :
      Reachable w → w.create_with comps = some (w', e) → Reachable w'
  | destroy {w w' : World} {e : Entity} :
      Reachable w → w.destroy e = some w' → Reachable w'
  | add {w w' : World} {e : Entity} {cid : ComponentTypeID} {v : Val} :
      Reachable w → w.add e cid v = some w' → Reachable w'
  | remove {w w' : World} {e : Entity} {cid : ComponentTypeID} :
      Reachable w → w.remove e cid = some w' → Reachable w'
  | sort {w w' : World} {cid : ComponentTypeID} {cmp : Val → Val → Bool} :
      Reachable w → w.sort cid cmp = some w' → Reachable w'
  | flush {w w' : World} {cmds : List Cmd} :
      Reachable w → w.flushDeferred cmds = some w' → Reachable w'
  | query {w w' : World} {inc exc : List ComponentTypeID}
      {res : List (List ComponentTypeID)} :
      Reachable w → w.cachedQuery inc exc = some (w', res) → Reachable w'

end World

/-- Stable-name registry (component.hpp): the pair of maps kept consistent by
register_component, associating component ids with stable names (names are
modeled as naturals; per-type serialize/deserialize functions are identity at
value level). -/
abbrev Registry := List (ComponentTypeID × Nat)

/-- component_name: the stable name of an id (none models the assert on an
unregistered id; serialize only calls it after component_registered holds). -/
def nameOf (reg : Registry) (c : ComponentTypeID) : Option Nat :=
  (reg.find? (fun p => p.1 == c)).map Prod.snd

/-- component_id_by_name (none models the unregistered-name assert). -/
def idOfName (reg : Registry) (nm : Nat) : Option ComponentTypeID :=
  (reg.find? (fun p => p.2 == nm)).map Prod.fst

/-- Registry consistency: ids and names are each registered at most once
(register_component rejects a conflicting re-registration). -/
def regOKb (reg : Registry) : Bool :=
  allDistinct (reg.map Prod.fst) && allDistinct (reg.map Prod.snd)

/-- Serialize precondition of serialization.hpp: every component type of
every non-empty archetype is registered by name. -/
def allRegisteredb (reg : Registry) (w : World) : Bool :=
  w.archetypes.all (fun a =>
    (a.count == 0) || a.columns.all (fun cv => (nameOf reg cv.1).isSome))

/-- One ArchetypeBlock of the snapshot stream: the component headers (stable
names, in column order), the per-column serialized data in the same order,
and the entity row list.  The entity_count field of the stream equals the
length of the entity list (the writer emits both from the same count);
elem_size fields are memory-layout data with no value content. -/
structure ArchBlock where
  headers : List Nat
  colData : List Column
  ents : List Entity
deriving DecidableEq, Repr

/-- The snapshot stream: magic, version, and counts are fixed framing; the
payload is the non-empty archetype blocks, the generation table, and the free
list. -/
structure Snapshot where
  blocks : List ArchBlock
  slotGens : List Nat
  freeList : List Nat
deriving DecidableEq, Repr

/-- Writer of one ArchetypeBlock: the names of the columns (none when a
component is unregistered — the writer asserts), the column data (count
elements each, equal to the whole column by parity), the entity list. -/
def serializeArch (reg : Registry) (a : Archetype) : Option ArchBlock :=
  (a.columns.mapM (fun cv => nameOf reg cv.1)).map (fun nms =>
    ⟨nms, a.columns.map Prod.snd, a.entities⟩)

/-- serialize (serialization.hpp): write every non-empty archetype, then the
entity table (generations and free list). -/
def serialize (reg : Registry) (w : World) : Option Snapshot :=
  ((w.archetypes.filter (fun a => !(a.count == 0))).mapM (serializeArch reg)).map
    (fun bs => ⟨bs, w.generations, w.free_list⟩)

/-- Reader side of one column: overwrite the values of the first column with
the given id and set its count to the entity count. -/
def setColData (cid : ComponentTypeID) (vs : Column)
    (cs : List (ComponentTypeID × Column)) : List (ComponentTypeID × Column) :=
  editCol cid (fun _ => vs) cs

/-- Reader of one ArchetypeBlock: map every header name back to the local id
(none models the unregistered-name assert), sort the ids into the type set,
get or create the archetype, deserialize entity_count elements into the
column of each id in header order, then install the entity list. -/
def deserializeBlock (reg : Registry) (w : World) (b : ArchBlock) : Option World :=
  match b.headers.mapM (idOfName reg) with
  | none => none
  | some cids =>
    let ts := sortIds cids
    let w1 := w.getOrCreateArchetype ts
    let n := b.ents.length
    let w2 := (enumFrom 0 cids).foldl (fun wa p =>
      wa.updateArch ts (fun a =>
        { a with columns := setColData p.2 ((b.colData.getD p.1 []).take n) a.columns }))
      w1
    some (w2.updateArch ts (fun a => { a with entities := b.ents }))

/-- Sequential block restore of the reader. -/
def deserializeGo (reg : Registry) (w : World) : List ArchBlock → Option World
  | [] => some w
  | b :: rest =>
    match deserializeBlock reg w b with
    | none => none
    | some w1 => deserializeGo reg w1 rest

/-- Record table rebuild of the reader: null every slot, then scan every
restored archetype and point each stored entity at its row. -/
def rebuildRecords (archetypes : List Archetype) (slots : Nat) : List EntityRecord :=
  archetypes.foldl (fun rs a =>
    (enumFrom 0 a.entities).foldl
      (fun rs2 p => rs2.set p.2.index ⟨some a.type_set, p.1⟩) rs)
    (List.replicate slots nilRecord)

/-- deserialize (serialization.hpp): requires an empty target world; restore
every block, then install the generation table and the free list, and rebuild
the records from the archetype entity lists. -/
def deserialize (reg : Registry) (w : World) (s : Snapshot) : Option World :=
  if w.count ≠ 0 then none else
  match deserializeGo reg w s.blocks with
  | none => none
  | some w1 =>
    some { w1 with
      generations := s.slotGens,
      free_list := s.freeList,
      records := rebuildRecords w1.archetypes s.slotGens.length }

example : World.WFb World.init = true := by decide

example :
    (World.init.create.bind (fun p => p.1.create)).map (fun p => p.2) =
      some ⟨2, 0⟩ := by decide

example :
    (World.init.create_with [(3, 7)]).map (fun p => (p.2, p.1.get p.2 3)) =
      some (⟨1, 0⟩, some 7) := by decide

example : (World.init.create_with [(0, 1), (0, 2)]) = none := by decide

/-! ### List helper lemmas -/

theorem getD_oob {α : Type} (l : List α) (i : Nat) (d : α) (h : l.length ≤ i) :
    l.getD i d = d := by
  simp [List.getD_eq_getElem?_getD, List.getElem?_eq_none h]

theorem getD_set_self {α : Type} (l : List α) (i : Nat) (x d : α) (h : i < l.length) :
    (l.set i x).getD i d = x := by
  simp [List.getD_eq_getElem?_getD, List.getElem?_set_self', List.getElem?_eq_getElem h]

theorem getD_set_ne {α : Type} (l : List α) (i j : Nat) (x d : α) (h : i ≠ j) :
    (l.set i x).getD j d = l.getD j d := by
  simp [List.getD_eq_getElem?_getD, List.getElem?_set_ne h]

theorem getD_append_lt {α : Type} (l m : List α) (i : Nat) (d : α) (h : i < l.length) :
    (l ++ m).getD i d = l.getD i d := by
  rw [List.getD_eq_getElem?_getD, List.getD_eq_getElem?_getD, List.getElem?_append]
  simp [h]

theorem getD_append_len {α : Type} (l : List α) (x d : α) :
    (l ++ [x]).getD l.length d = x := by
  simp [List.getD_eq_getElem?_getD]

theorem getD_dropLast {α : Type} (l : List α) (i : Nat) (d : α) (h : i < l.length - 1) :
    l.dropLast.getD i d = l.getD i d := by
  have h2 : i < l.length := by omega
  simp [List.getD_eq_getElem?_getD, List.getElem?_dropLast, h, List.getElem?_eq_getElem h2]

theorem getLastD_eq_getD {α : Type} (l : List α) (d : α) :
    l.getLastD d = l.getD (l.length - 1) d := by
  simp [List.getLastD_eq_getLast?, List.getLast?_eq_getElem?, List.getD_eq_getElem?_getD]

theorem getD_map {α β : Type} (f : α → β) (l : List α) (i : Nat) (d : β) (d0 : α)
    (h : i < l.length) : (l.map f).getD i d = f (l.getD i d0) := by
  simp [List.getD_eq_getElem?_getD, List.getElem?_eq_getElem h]

theorem getD_range (n i d : Nat) (h : i < n) : (List.range n).getD i d = i := by
  simp [List.getD_eq_getElem?_getD, List.getElem?_range h]

theorem mem_getD {α : Type} (l : List α) (i : Nat) (d : α) (h : i < l.length) :
    l.getD i d ∈ l := by
  rw [List.getD_eq_getElem?_getD, List.getElem?_eq_getElem h]
  exact List.getElem_mem h

theorem getD_take {α : Type} (l : List α) (n i : Nat) (d : α) (h : i < n) :
    (l.take n).getD i d = l.getD i d := by
  rcases Nat.lt_or_ge i l.length with h2 | h2
  · have h3 : i < (l.take n).length := by simp; omega
    rw [List.getD_eq_getElem?_getD, List.getD_eq_getElem?_getD,
      List.getElem?_eq_getElem h3, List.getElem?_eq_getElem h2]
    simp [List.getElem_take]
  · have h3 : (l.take n).length ≤ i := by simp; omega
    rw [getD_oob _ _ _ h2, getD_oob _ _ _ h3]

theorem allDistinct_iff {α : Type} [DecidableEq α] (l : List α) :
    allDistinct l = true ↔ l.Nodup := by
  induction l with
  | nil => simp [allDistinct]
  | cons a t ih => simp [allDistinct, ih, List.nodup_cons]

theorem strictAsc_iff (l : List Nat) : strictAsc l = true ↔ l.Chain' (· < ·) := by
  match l with
  | [] => simp [strictAsc]
  | [a] => simp [strictAsc]
  | a :: b :: rest =>
    rw [strictAsc, List.chain'_cons]
    simp [strictAsc_iff (b :: rest)]

theorem strictAsc_iff_pairwise (l : List Nat) :
    strictAsc l = true ↔ l.Pairwise (· < ·) := by
  rw [strictAsc_iff, List.chain'_iff_pairwise]

theorem strictAsc_nodup (l : List Nat) (h : strictAsc l = true) : l.Nodup := by
  rw [strictAsc_iff_pairwise] at h
  exact h.imp Nat.ne_of_lt

theorem insertAsc_perm (x : Nat) (l : List Nat) : (insertAsc x l).Perm (x :: l) := by
  induction l with
  | nil => simp [insertAsc]
  | cons y ys ih =>
    rw [insertAsc]
    split
    · exact List.Perm.refl _
    · exact ((ih.cons y).trans (List.Perm.swap x y ys))

theorem sortIds_perm (l : List Nat) : (sortIds l).Perm l := by
  induction l with
  | nil => simp [sortIds]
  | cons a t ih =>
    have : sortIds (a :: t) = insertAsc a (sortIds t) := rfl
    rw [this]
    exact (insertAsc_perm a (sortIds t)).trans (ih.cons a)

theorem mem_sortIds (x : Nat) (l : List Nat) : x ∈ sortIds l ↔ x ∈ l :=
  (sortIds_perm l).mem_iff

theorem insertAsc_sorted (x : Nat) (l : List Nat) (h : l.Pairwise (· ≤ ·)) :
    (insertAsc x l).Pairwise (· ≤ ·) := by
  induction l with
  | nil => simp [insertAsc]
  | cons y ys ih =>
    rcases List.pairwise_cons.mp h with ⟨hy, hys⟩
    by_cases hxy : x ≤ y
    · rw [insertAsc, if_pos hxy]
      refine List.pairwise_cons.mpr ⟨?_, h⟩
      intro b hb
      rcases List.mem_cons.mp hb with rfl | hb2
      · exact hxy
      · exact le_trans hxy (hy b hb2)
    · rw [insertAsc, if_neg hxy]
      refine List.pairwise_cons.mpr ⟨?_, ih hys⟩
      intro b hb
      rcases List.mem_cons.mp ((insertAsc_perm x ys).mem_iff.mp hb) with rfl | hb2
      · omega
      · exact hy b hb2

theorem sortIds_sorted (l : List Nat) : (sortIds l).Pairwise (· ≤ ·) := by
  induction l with
  | nil => simp [sortIds]
  | cons a t ih => exact insertAsc_sorted a (sortIds t) ih

theorem sortIds_strictAsc (l : List Nat) (h : l.Nodup) :
    strictAsc (sortIds l) = true := by
  rw [strictAsc_iff_pairwise]
  have hnd : (sortIds l).Nodup := (sortIds_perm l).nodup_iff.mpr h
  have hs := sortIds_sorted l
  exact (hs.and hnd).imp (fun hab => Nat.lt_of_le_of_ne hab.1 hab.2)

theorem insertAsc_of_le (x : Nat) (l : List Nat) (hx : ∀ y ∈ l, x ≤ y) :
    insertAsc x l = x :: l := by
  cases l with
  | nil => rfl
  | cons y ys => rw [insertAsc, if_pos (hx y (by simp))]

theorem sortIds_of_sorted (l : List Nat) (h : l.Pairwise (· ≤ ·)) : sortIds l = l := by
  induction l with
  | nil => rfl
  | cons a t ih =>
    rcases List.pairwise_cons.mp h with ⟨ha, ht⟩
    have : sortIds (a :: t) = insertAsc a (sortIds t) := rfl
    rw [this, ih ht]
    exact insertAsc_of_le a t ha

theorem sortIds_of_strictAsc (l : List Nat) (h : strictAsc l = true) : sortIds l = l :=
  sortIds_of_sorted l ((strictAsc_iff_pairwise l).mp h |>.imp Nat.le_of_lt)

/-! ### Column association list lemmas -/

theorem editCol_keys (cid : ComponentTypeID) (f : Column → Column)
    (cs : List (ComponentTypeID × Column)) :
    (editCol cid f cs).map Prod.fst = cs.map Prod.fst := by
  induction cs with
  | nil => rfl
  | cons cv rest ih =>
    rw [editCol]
    split
    · simp
    · simp [ih]

theorem map_fst_of_keyfix (g : (ComponentTypeID × Column) → (ComponentTypeID × Column))
    (hg : ∀ cv, (g cv).1 = cv.1) (cs : List (ComponentTypeID × Column)) :
    (cs.map g).map Prod.fst = cs.map Prod.fst := by
  induction cs with
  | nil => rfl
  | cons cv rest ih => simp [ih, hg]

theorem editCol_eq_map (cid : ComponentTypeID) (f : Column → Column)
    (cs : List (ComponentTypeID × Column)) (h : (cs.map Prod.fst).Nodup) :
    editCol cid f cs = cs.map (fun cv => if cv.1 == cid then (cv.1, f cv.2) else cv) := by
  induction cs with
  | nil => rfl
  | cons cv rest ih =>
    rw [List.map_cons] at h
    have h1 := List.nodup_cons.mp h
    rw [editCol, List.map_cons]
    by_cases hc : cv.1 = cid
    · simp only [hc, beq_self_eq_true, if_true]
      congr 1
      have hrest : ∀ p ∈ rest, (fun q => if q.1 == cid then (q.1, f q.2) else q) p = id p := by
        intro p hp
        have hne : p.1 ≠ cid := by
          intro hpc
          exact h1.1 (by rw [hc, ← hpc]; exact List.mem_map_of_mem Prod.fst hp)
        simp [hne]
      rw [List.map_congr_left hrest, List.map_id]
    · have hc2 : (cv.1 == cid) = false := by simp [hc]
      rw [if_neg (by simp [hc]), if_neg (by simp [hc2])]
      rw [ih h1.2]

theorem find?_entry {cs : List (ComponentTypeID × Column)} {c : ComponentTypeID}
    {cv : ComponentTypeID × Column} (h : cs.find? (fun p => p.1 == c) = some cv) :
    cv ∈ cs ∧ cv.1 = c :=
  ⟨List.mem_of_find?_eq_some h, by simpa using List.find?_some h⟩

theorem find?_none_iff {cs : List (ComponentTypeID × Column)} {c : ComponentTypeID} :
    cs.find? (fun p => p.1 == c) = none ↔ c ∉ cs.map Prod.fst := by
  rw [List.find?_eq_none]
  constructor
  · intro h hmem
    rcases List.mem_map.mp hmem with ⟨p, hp, hpc⟩
    exact h p hp (by simp [hpc])
  · intro h p hp hpc
    exact h (by rw [← show p.1 = c by simpa using hpc]; exact List.mem_map_of_mem Prod.fst hp)

theorem find?_isSome_iff {cs : List (ComponentTypeID × Column)} {c : ComponentTypeID} :
    (cs.find? (fun p => p.1 == c)).isSome = true ↔ c ∈ cs.map Prod.fst := by
  rcases hf : cs.find? (fun p => p.1 == c) with _ | cv
  · rw [hf]
    refine iff_of_false (by simp) ((find?_none_iff).mp hf)
  · rw [hf]
    rcases find?_entry hf with ⟨hmem, hkey⟩
    refine iff_of_true rfl ?_
    rw [← hkey]
    exact List.mem_map_of_mem Prod.fst hmem

theorem hasComponent_iff (a : Archetype) (cid : ComponentTypeID) :
    a.hasComponent cid = true ↔ cid ∈ a.columns.map Prod.fst := by
  rw [Archetype.hasComponent, List.any_eq_true]
  constructor
  · intro ⟨p, hp, hpc⟩
    rw [← show p.1 = cid by simpa using hpc]
    exact List.mem_map_of_mem Prod.fst hp
  · intro h
    rcases List.mem_map.mp h with ⟨p, hp, hpc⟩
    exact ⟨p, hp, by simp [hpc]⟩

theorem find?_editCol_self (cid : ComponentTypeID) (f : Column → Column)
    (cs : List (ComponentTypeID × Column)) :
    (editCol cid f cs).find? (fun p => p.1 == cid) =
      (cs.find? (fun p => p.1 == cid)).map (fun cv => (cv.1, f cv.2)) := by
  induction cs with
  | nil => rfl
  | cons cv rest ih =>
    rw [editCol]
    by_cases hc : cv.1 = cid
    · rw [if_pos (by simp [hc])]
      rw [List.find?_cons_of_pos _ (by simp [hc]), List.find?_cons_of_pos _ (by simp [hc])]
      rfl
    · rw [if_neg (by simp [hc])]
      rw [List.find?_cons_of_neg _ (by simp [hc]), List.find?_cons_of_neg _ (by simp [hc])]
      exact ih

theorem find?_editCol_ne (cid c2 : ComponentTypeID) (f : Column → Column)
    (cs : List (ComponentTypeID × Column)) (h : c2 ≠ cid) :
    (editCol cid f cs).find? (fun p => p.1 == c2) = cs.find? (fun p => p.1 == c2) := by
  induction cs with
  | nil => rfl
  | cons cv rest ih =>
    rw [editCol]
    by_cases hc : cv.1 = cid
    · rw [if_pos (by simp [hc])]
      rw [List.find?_cons_of_neg _ (by simp [hc, Ne.symm h]),
        List.find?_cons_of_neg _ (by simp [hc, Ne.symm h])]
    · rw [if_neg (by simp [hc])]
      by_cases hc2 : cv.1 = c2
      · rw [List.find?_cons_of_pos _ (by simp [hc2]), List.find?_cons_of_pos _ (by simp [hc2])]
      · rw [List.find?_cons_of_neg _ (by simp [hc2]), List.find?_cons_of_neg _ (by simp [hc2])]
        exact ih

/-! ### World field lemmas -/

@[simp] theorem updateArch_generations (w : World) (ts) (f) :
    (w.updateArch ts f).generations = w.generations := rfl
@[simp] theorem updateArch_records (w : World) (ts) (f) :
    (w.updateArch ts f).records = w.records := rfl
@[simp] theorem updateArch_free_list (w : World) (ts) (f) :
    (w.updateArch ts f).free_list = w.free_list := rfl
@[simp] theorem updateArch_archgen (w : World) (ts) (f) :
    (w.updateArch ts f).archetype_generation = w.archetype_generation := rfl
@[simp] theorem updateArch_cache (w : World) (ts) (f) :
    (w.updateArch ts f).query_cache = w.query_cache := rfl
@[simp] theorem updateArch_iterating (w : World) (ts) (f) :
    (w.updateArch ts f).iterating = w.iterating := rfl
@[simp] theorem updateArch_events (w : World) (ts) (f) :
    (w.updateArch ts f).events = w.events := rfl
theorem updateArch_archetypes (w : World) (ts) (f) :
    (w.updateArch ts f).archetypes =
      w.archetypes.map (fun a => if a.type_set == ts then f a else a) := rfl

@[simp] theorem setRecord_generations (w : World) (i) (r) :
    (w.setRecord i r).generations = w.generations := rfl
@[simp] theorem setRecord_records (w : World) (i) (r) :
    (w.setRecord i r).records = w.records.set i r := rfl
@[simp] theorem setRecord_free_list (w : World) (i) (r) :
    (w.setRecord i r).free_list = w.free_list := rfl
@[simp] theorem setRecord_archetypes (w : World) (i) (r) :
    (w.setRecord i r).archetypes = w.archetypes := rfl
@[simp] theorem setRecord_archgen (w : World) (i) (r) :
    (w.setRecord i r).archetype_generation = w.archetype_generation := rfl
@[simp] theorem setRecord_cache (w : World) (i) (r) :
    (w.setRecord i r).query_cache = w.query_cache := rfl
@[simp] theorem setRecord_iterating (w : World) (i) (r) :
    (w.setRecord i r).iterating = w.iterating := rfl
@[simp] theorem setRecord_events (w : World) (i) (r) :
    (w.setRecord i r).events = w.events := rfl

@[simp] theorem fireAdd_generations (w : World) (c) (e) :
    (w.fireAdd c e).generations = w.generations := rfl
@[simp] theorem fireAdd_records (w : World) (c) (e) :
    (w.fireAdd c e).records = w.records := rfl
@[simp] theorem fireAdd_free_list (w : World) (c) (e) :
    (w.fireAdd c e).free_list = w.free_list := rfl
@[simp] theorem fireAdd_archetypes (w : World) (c) (e) :
    (w.fireAdd c e).archetypes = w.archetypes := rfl
@[simp] theorem fireAdd_archgen (w : World) (c) (e) :
    (w.fireAdd c e).archetype_generation = w.archetype_generation := rfl
@[simp] theorem fireAdd_cache (w : World) (c) (e) :
    (w.fireAdd c e).query_cache = w.query_cache := rfl
@[simp] theorem fireAdd_iterating (w : World) (c) (e) :
    (w.fireAdd c e).iterating = w.iterating := rfl
@[simp] theorem fireAdd_events (w : World) (c) (e) :
    (w.fireAdd c e).events = w.events ++ [HookEvent.addH c e] := rfl

@[simp] theorem fireRemove_generations (w : World) (c) (e) :
    (w.fireRemove c e).generations = w.generations := rfl
@[simp] theorem fireRemove_records (w : World) (c) (e) :
    (w.fireRemove c e).records = w.records := rfl
@[simp] theorem fireRemove_free_list (w : World) (c) (e) :
    (w.fireRemove c e).free_list = w.free_list := rfl
@[simp] theorem fireRemove_archetypes (w : World) (c) (e) :
    (w.fireRemove c e).archetypes = w.archetypes := rfl
@[simp] theorem fireRemove_archgen (w : World) (c) (e) :
    (w.fireRemove c e).archetype_generation = w.archetype_generation := rfl
@[simp] theorem fireRemove_cache (w : World) (c) (e) :
    (w.fireRemove c e).query_cache = w.query_cache := rfl
@[simp] theorem fireRemove_iterating (w : World) (c) (e) :
    (w.fireRemove c e).iterating = w.iterating := rfl
@[simp] theorem fireRemove_events (w : World) (c) (e) :
    (w.fireRemove c e).events = w.events ++ [HookEvent.removeH c e] := rfl

theorem fireRemoveFold_eq (cs : List (ComponentTypeID × Column)) (e : Entity)
    (w : World) :
    cs.foldl (fun wa cv => wa.fireRemove cv.1 e) w =
      { w with events := w.events ++ cs.map (fun cv => HookEvent.removeH cv.1 e) } := by
  induction cs generalizing w with
  | nil => simp
  | cons cv rest ih =>
    rw [List.foldl_cons, ih]
    simp [World.fireRemove]

theorem fireAddFold_eq (comps : List (ComponentTypeID × Val)) (e : Entity)
    (w : World) :
    comps.foldl (fun wa cv => wa.fireAdd cv.1 e) w =
      { w with events := w.events ++ comps.map (fun cv => HookEvent.addH cv.1 e) } := by
  induction comps generalizing w with
  | nil => simp
  | cons cv rest ih =>
    rw [List.foldl_cons, ih]
    simp [World.fireAdd]

/-! ### Archetype lookup lemmas -/

theorem findArchetype_some {w : World} {ts : List ComponentTypeID} {a : Archetype}
    (h : w.findArchetype ts = some a) : a ∈ w.archetypes ∧ a.type_set = ts :=
  ⟨List.mem_of_find?_eq_some h, by simpa using List.find?_some h⟩

theorem findArchetype_none {w : World} {ts : List ComponentTypeID}
    (h : w.findArchetype ts = none) : ∀ a ∈ w.archetypes, a.type_set ≠ ts := by
  intro a ha
  simpa using List.find?_eq_none.mp h a ha

theorem findArchetype_of_mem {w : World} {a : Archetype} (h : a ∈ w.archetypes) :
    ∃ b, w.findArchetype a.type_set = some b :=
  Option.isSome_iff_exists.mp (List.find?_isSome.mpr ⟨a, h, by simp⟩)

theorem archetypeGet_eq {w : World} {ts : List ComponentTypeID} {a : Archetype}
    (h : w.findArchetype ts = some a) : w.archetypeGet ts = a := by
  rw [World.archetypeGet, h]
  rfl

theorem findArchetype_unique {w : World} {ts : List ComponentTypeID} {a b : Archetype}
    (hdist : (w.archetypes.map (fun x => x.type_set)).Nodup)
    (ha : w.findArchetype ts = some a) (hb : b ∈ w.archetypes)
    (hbts : b.type_set = ts) : b = a := by
  rcases findArchetype_some ha with ⟨hamem, hats⟩
  exact List.inj_on_of_nodup_map hdist hb hamem (by rw [hbts, hats])

theorem find?_update_list (l : List Archetype) (ts ts2 : List ComponentTypeID)
    (f : Archetype → Archetype)
    (hf : ∀ x, x.type_set = ts → (f x).type_set = x.type_set) :
    (l.map (fun a => if a.type_set == ts then f a else a)).find?
        (fun a => a.type_set == ts2) =
      (l.find? (fun a => a.type_set == ts2)).map
        (fun a => if a.type_set == ts then f a else a) := by
  have hpred : ((fun a : Archetype => a.type_set == ts2) ∘
      (fun a => if a.type_set == ts then f a else a)) =
        (fun a : Archetype => a.type_set == ts2) := by
    funext a
    by_cases h : a.type_set = ts
    · simp [Function.comp, h, hf a h]
    · simp [Function.comp, h]
  rw [List.find?_map, hpred]

theorem map_typeset_update (l : List Archetype) (ts : List ComponentTypeID)
    (f : Archetype → Archetype)
    (hf : ∀ x, x.type_set = ts → (f x).type_set = x.type_set) :
    (l.map (fun a => if a.type_set == ts then f a else a)).map
        (fun a => a.type_set) = l.map (fun a => a.type_set) := by
  rw [List.map_map]
  apply List.map_congr_left
  intro a _
  by_cases h : a.type_set = ts
  · simp [Function.comp, h, hf a h]
  · simp [Function.comp, h]

theorem findArchetype_updateArch (w : World) (ts ts2 : List ComponentTypeID)
    (f : Archetype → Archetype)
    (hf : ∀ x, x.type_set = ts → (f x).type_set = x.type_set) :
    (w.updateArch ts f).findArchetype ts2 =
      (w.findArchetype ts2).map (fun a => if a.type_set == ts then f a else a) := by
  rw [World.findArchetype, updateArch_archetypes, find?_update_list _ _ _ _ hf,
    World.findArchetype]

theorem findArchetype_updateArch_self {w : World} {ts : List ComponentTypeID}
    {a : Archetype} (f : Archetype → Archetype)
    (hf : ∀ x, x.type_set = ts → (f x).type_set = x.type_set)
    (h : w.findArchetype ts = some a) :
    (w.updateArch ts f).findArchetype ts = some (f a) := by
  rw [findArchetype_updateArch w ts ts f hf, h]
  rcases findArchetype_some h with ⟨_, hts⟩
  simp [hts]

theorem findArchetype_updateArch_other {w : World} {ts ts2 : List ComponentTypeID}
    (f : Archetype → Archetype)
    (hf : ∀ x, x.type_set = ts → (f x).type_set = x.type_set)
    (h : ts2 ≠ ts) :
    (w.updateArch ts f).findArchetype ts2 = w.findArchetype ts2 := by
  rw [findArchetype_updateArch w ts ts2 f hf]
  rcases hfind : w.findArchetype ts2 with _ | a
  · rfl
  · rcases findArchetype_some hfind with ⟨_, hts⟩
    have : a.type_set ≠ ts := by rw [hts]; exact h
    simp [this]

theorem nodup_append_singleton {α : Type} [DecidableEq α] (l : List α) (x : α) :
    (l ++ [x]).Nodup ↔ l.Nodup ∧ x ∉ l := by
  simp [List.nodup_append]

theorem getOrCreate_found {w : World} {ts : List ComponentTypeID} {a : Archetype}
    (h : w.findArchetype ts = some a) : w.getOrCreateArchetype ts = w := by
  rw [World.getOrCreateArchetype, h]

theorem getOrCreate_new {w : World} {ts : List ComponentTypeID}
    (h : w.findArchetype ts = none) :
    w.getOrCreateArchetype ts =
      { w with archetypes := w.archetypes ++ [⟨ts, ts.map (fun c => (c, [])), []⟩],
               archetype_generation := w.archetype_generation + 1 } := by
  rw [World.getOrCreateArchetype, h]

theorem findArchetype_getOrCreate_self (w : World) (ts : List ComponentTypeID) :
    (w.getOrCreateArchetype ts).findArchetype ts =
      some ((w.findArchetype ts).getD ⟨ts, ts.map (fun c => (c, [])), []⟩) := by
  rcases hfind : w.findArchetype ts with _ | a
  · rw [getOrCreate_new hfind, World.findArchetype]
    show (w.archetypes ++ [_]).find? _ = _
    rw [List.find?_append]
    have h0 : List.find? (fun a => a.type_set == ts) w.archetypes = none := hfind
    rw [h0]
    simp
  · rw [getOrCreate_found hfind, hfind]
    simp

theorem findArchetype_getOrCreate_other (w : World) (ts ts2 : List ComponentTypeID)
    (h : ts2 ≠ ts) :
    (w.getOrCreateArchetype ts).findArchetype ts2 = w.findArchetype ts2 := by
  rcases hfind : w.findArchetype ts with _ | a
  · rw [getOrCreate_new hfind, World.findArchetype]
    show (w.archetypes ++ [_]).find? _ = _
    rw [List.find?_append]
    have h1 : List.find? (fun a => a.type_set == ts2)
        [(⟨ts, ts.map (fun c => (c, [])), []⟩ : Archetype)] = none := by
      rw [List.find?_cons_of_neg _ (by simp [Ne.symm h])]
      rfl
    rw [h1, World.findArchetype]
    simp
  · rw [getOrCreate_found hfind]

theorem getOrCreate_generations (w : World) (ts : List ComponentTypeID) :
    (w.getOrCreateArchetype ts).generations = w.generations := by
  rcases hfind : w.findArchetype ts with _ | a
  · rw [getOrCreate_new hfind]
  · rw [getOrCreate_found hfind]

theorem getOrCreate_records (w : World) (ts : List ComponentTypeID) :
    (w.getOrCreateArchetype ts).records = w.records := by
  rcases hfind : w.findArchetype ts with _ | a
  · rw [getOrCreate_new hfind]
  · rw [getOrCreate_found hfind]

theorem getOrCreate_free_list (w : World) (ts : List ComponentTypeID) :
    (w.getOrCreateArchetype ts).free_list = w.free_list := by
  rcases hfind : w.findArchetype ts with _ | a
  · rw [getOrCreate_new hfind]
  · rw [getOrCreate_found hfind]

theorem getOrCreate_iterating (w : World) (ts : List ComponentTypeID) :
    (w.getOrCreateArchetype ts).iterating = w.iterating := by
  rcases hfind : w.findArchetype ts with _ | a
  · rw [getOrCreate_new hfind]
  · rw [getOrCreate_found hfind]

theorem getOrCreate_events (w : World) (ts : List ComponentTypeID) :
    (w.getOrCreateArchetype ts).events = w.events := by
  rcases hfind : w.findArchetype ts with _ | a
  · rw [getOrCreate_new hfind]
  · rw [getOrCreate_found hfind]

theorem getOrCreate_cache (w : World) (ts : List ComponentTypeID) :
    (w.getOrCreateArchetype ts).query_cache = w.query_cache := by
  rcases hfind : w.findArchetype ts with _ | a
  · rw [getOrCreate_new hfind]
  · rw [getOrCreate_found hfind]

/-! ### Invariant unfolding lemmas -/

theorem not_contains_iff {α : Type} [DecidableEq α] (l : List α) (x : α) :
    (!(l.contains x)) = true ↔ x ∉ l := by
  simp [List.contains_iff_exists_mem_beq]

theorem alive_iff {w : World} {e : Entity} :
    w.alive e = true ↔
      e.index < w.generations.length ∧ w.genOf e.index = e.generation ∧
        ∃ ts, (w.recordOf e.index).archetype = some ts := by
  rw [World.alive]
  simp [Bool.and_eq_true, Option.isSome_iff_exists, and_assoc]

set_option maxRecDepth 8000 in
theorem WFb_iff (w : World) : w.WFb = true ↔
    w.records.length = w.generations.length ∧
    (∀ i, i < w.records.length → w.recOKb i = true) ∧
    (∀ a ∈ w.archetypes, w.archOKb a = true) ∧
    (w.archetypes.map (fun a => a.type_set)).Nodup ∧
    (∀ i ∈ w.free_list, w.freeOKb i = true) ∧
    w.free_list.Nodup ∧
    0 < w.genOf 0 ∧
    (w.recordOf 0).archetype = none ∧
    0 ∉ w.free_list := by
  rw [World.WFb]
  simp only [Bool.and_eq_true, and_assoc]
  refine and_congr (by simp) (and_congr (by simp [List.all_eq_true])
    (and_congr (by simp [List.all_eq_true])
      (and_congr (allDistinct_iff _)
        (and_congr (by simp [List.all_eq_true])
          (and_congr (allDistinct_iff _)
            (and_congr (by simp) (and_congr (by simp) (not_contains_iff _ _))))))))

theorem recOKb_eq_some {w : World} {i : Nat} {ts : List ComponentTypeID}
    (hr : (w.recordOf i).archetype = some ts) :
    w.recOKb i = (match w.findArchetype ts with
      | none => false
      | some a =>
        decide ((w.recordOf i).row < a.entities.length) &&
          (a.entities.getD (w.recordOf i).row INVALID_ENTITY ==
            ⟨i, w.genOf i⟩)) := by
  unfold World.recOKb
  rw [hr]

theorem recOKb_live {w : World} {i : Nat} {ts : List ComponentTypeID}
    (h : w.recOKb i = true) (hr : (w.recordOf i).archetype = some ts) :
    ∃ a, w.findArchetype ts = some a ∧ (w.recordOf i).row < a.entities.length ∧
      a.entities.getD (w.recordOf i).row INVALID_ENTITY = ⟨i, w.genOf i⟩ := by
  rw [recOKb_eq_some hr] at h
  rcases hfind : w.findArchetype ts with _ | a
  · rw [hfind] at h
    exact absurd h (by simp)
  · rw [hfind] at h
    simp only [Bool.and_eq_true, decide_eq_true_eq, beq_iff_eq] at h
    exact ⟨a, rfl, h.1, h.2⟩

theorem recOKb_none {w : World} {i : Nat} (hr : (w.recordOf i).archetype = none) :
    w.recOKb i = true := by
  unfold World.recOKb
  rw [hr]

theorem recOKb_some {w : World} {i : Nat} {ts : List ComponentTypeID} {a : Archetype}
    (hr : (w.recordOf i).archetype = some ts) (hfind : w.findArchetype ts = some a)
    (hrow : (w.recordOf i).row < a.entities.length)
    (hent : a.entities.getD (w.recordOf i).row INVALID_ENTITY = ⟨i, w.genOf i⟩) :
    w.recOKb i = true := by
  rw [recOKb_eq_some hr, hfind]
  simp only [Bool.and_eq_true, decide_eq_true_eq, beq_iff_eq]
  exact ⟨hrow, hent⟩

theorem archOKb_iff (w : World) (a : Archetype) : w.archOKb a = true ↔
    a.columns.map Prod.fst = a.type_set ∧ strictAsc a.type_set = true ∧
    (∀ cv ∈ a.columns, cv.2.length = a.entities.length) ∧
    (∀ r, r < a.entities.length →
      (a.entities.getD r INVALID_ENTITY).index < w.records.length ∧
      w.recordOf (a.entities.getD r INVALID_ENTITY).index = ⟨some a.type_set, r⟩ ∧
      w.genOf (a.entities.getD r INVALID_ENTITY).index =
        (a.entities.getD r INVALID_ENTITY).generation) := by
  rw [World.archOKb, Archetype.parity]
  simp [List.all_eq_true, List.mem_range, and_assoc]

theorem freeOKb_iff (w : World) (i : Nat) : w.freeOKb i = true ↔
    i < w.records.length ∧ (w.recordOf i).archetype = none := by
  rw [World.freeOKb]
  simp

/-! ### Record access lemmas -/

theorem recordOf_setRecord_self (w : World) (i : Nat) (r : EntityRecord)
    (h : i < w.records.length) : (w.setRecord i r).recordOf i = r := by
  rw [World.recordOf, setRecord_records]
  exact getD_set_self _ _ _ _ h

theorem recordOf_setRecord_ne (w : World) (i j : Nat) (r : EntityRecord)
    (h : i ≠ j) : (w.setRecord i r).recordOf j = w.recordOf j := by
  rw [World.recordOf, setRecord_records, getD_set_ne _ _ _ _ _ h]
  rfl

@[simp] theorem genOf_setRecord (w : World) (i : Nat) (r : EntityRecord) (j : Nat) :
    (w.setRecord i r).genOf j = w.genOf j := rfl
@[simp] theorem genOf_updateArch (w : World) (ts) (f) (j : Nat) :
    (w.updateArch ts f).genOf j = w.genOf j := rfl
@[simp] theorem genOf_fireAdd (w : World) (c) (e) (j : Nat) :
    (w.fireAdd c e).genOf j = w.genOf j := rfl
@[simp] theorem genOf_fireRemove (w : World) (c) (e) (j : Nat) :
    (w.fireRemove c e).genOf j = w.genOf j := rfl
@[simp] theorem recordOf_updateArch (w : World) (ts) (f) (j : Nat) :
    (w.updateArch ts f).recordOf j = w.recordOf j := rfl
@[simp] theorem recordOf_fireAdd (w : World) (c) (e) (j : Nat) :
    (w.fireAdd c e).recordOf j = w.recordOf j := rfl
@[simp] theorem recordOf_fireRemove (w : World) (c) (e) (j : Nat) :
    (w.fireRemove c e).recordOf j = w.recordOf j := rfl
@[simp] theorem findArchetype_setRecord (w : World) (i) (r) (ts) :
    (w.setRecord i r).findArchetype ts = w.findArchetype ts := rfl
@[simp] theorem findArchetype_fireAdd (w : World) (c) (e) (ts) :
    (w.fireAdd c e).findArchetype ts = w.findArchetype ts := rfl
@[simp] theorem findArchetype_fireRemove (w : World) (c) (e) (ts) :
    (w.fireRemove c e).findArchetype ts = w.findArchetype ts := rfl

/-! ### Swap-remove lemmas -/

theorem colSwapRemove_length (vs : Column) (row : Nat) :
    (colSwapRemove vs row).length = vs.length - 1 := by
  rw [colSwapRemove]
  split <;> simp

theorem swapRemove_type_set (a : Archetype) (row : Nat) :
    (a.swapRemove row).1.type_set = a.type_set := rfl

theorem swapRemove_columns (a : Archetype) (row : Nat) :
    (a.swapRemove row).1.columns =
      a.columns.map (fun cv => (cv.1, colSwapRemove cv.2 row)) := rfl

theorem swapRemove_entities_eq (a : Archetype) (row : Nat) :
    (a.swapRemove row).1.entities =
      (if row + 1 < a.entities.length then
        a.entities.set row (a.entities.getLastD INVALID_ENTITY)
      else a.entities).dropLast := rfl

theorem swapRemove_snd_eq (a : Archetype) (row : Nat) :
    (a.swapRemove row).2 =
      (if row + 1 < a.entities.length then a.entities.getLastD INVALID_ENTITY
       else INVALID_ENTITY) := rfl

theorem swapRemove_entities_length (a : Archetype) (row : Nat) :
    (a.swapRemove row).1.entities.length = a.entities.length - 1 := by
  rw [swapRemove_entities_eq, List.length_dropLast]
  split <;> simp

theorem swapRemove_entities_getD_ne (a : Archetype) (row r : Nat)
    (hr : r < a.entities.length - 1) (hne : r ≠ row) :
    (a.swapRemove row).1.entities.getD r INVALID_ENTITY =
      a.entities.getD r INVALID_ENTITY := by
  rw [swapRemove_entities_eq]
  split
  · rw [getD_dropLast _ _ _ (by simpa using hr),
      getD_set_ne _ _ _ _ _ (fun hh => hne hh.symm)]
  · rw [getD_dropLast _ _ _ (by simpa using hr)]

theorem swapRemove_entities_getD_row (a : Archetype) (row : Nat)
    (hlt : row + 1 < a.entities.length) :
    (a.swapRemove row).1.entities.getD row INVALID_ENTITY =
      a.entities.getD (a.entities.length - 1) INVALID_ENTITY := by
  rw [swapRemove_entities_eq, if_pos hlt]
  rw [getD_dropLast _ _ _ (by simp; omega), getD_set_self _ _ _ _ (by omega),
    getLastD_eq_getD]

theorem swapRemove_swapped_lt (a : Archetype) (row : Nat)
    (hlt : row + 1 < a.entities.length) :
    (a.swapRemove row).2 = a.entities.getD (a.entities.length - 1) INVALID_ENTITY := by
  rw [swapRemove_snd_eq, if_pos hlt, getLastD_eq_getD]

theorem swapRemove_swapped_last (a : Archetype) (row : Nat)
    (hge : ¬ (row + 1 < a.entities.length)) :
    (a.swapRemove row).2 = INVALID_ENTITY := by
  rw [swapRemove_snd_eq, if_neg hge]

/-! ### Invariant access pack -/

theorem WF_live {w : World} {e : Entity} (hWF : w.WFb = true)
    (ha : w.alive e = true) :
    ∃ ts a, (w.recordOf e.index).archetype = some ts ∧
      w.findArchetype ts = some a ∧ a ∈ w.archetypes ∧ a.type_set = ts ∧
      (w.recordOf e.index).row < a.entities.length ∧
      a.entities.getD (w.recordOf e.index).row INVALID_ENTITY = e ∧
      e.index < w.records.length ∧ w.genOf e.index = e.generation := by
  rcases alive_iff.mp ha with ⟨hlen, hgen, ts, hts⟩
  rcases (WFb_iff w).mp hWF with ⟨hrg, hrec, _⟩
  have hi : e.index < w.records.length := by rw [hrg]; exact hlen
  rcases recOKb_live (hrec e.index hi) hts with ⟨a, hfind, hrow, hent⟩
  have he : a.entities.getD (w.recordOf e.index).row INVALID_ENTITY = e := by
    rw [hent, hgen]
  rcases findArchetype_some hfind with ⟨hmem, hats⟩
  exact ⟨ts, a, hts, hfind, hmem, hats, hrow, he, hi, hgen⟩

theorem WF_arch_row {w : World} {a : Archetype} (hWF : w.WFb = true)
    (hmem : a ∈ w.archetypes) {r : Nat} (hr : r < a.entities.length) :
    (a.entities.getD r INVALID_ENTITY).index < w.records.length ∧
    w.recordOf (a.entities.getD r INVALID_ENTITY).index = ⟨some a.type_set, r⟩ ∧
    w.genOf (a.entities.getD r INVALID_ENTITY).index =
      (a.entities.getD r INVALID_ENTITY).generation := by
  rcases (WFb_iff w).mp hWF with ⟨_, _, harch, _⟩
  exact ((archOKb_iff w a).mp (harch a hmem)).2.2.2 r hr

theorem WF_arch_parts {w : World} {a : Archetype} (hWF : w.WFb = true)
    (hmem : a ∈ w.archetypes) :
    a.columns.map Prod.fst = a.type_set ∧ strictAsc a.type_set = true ∧
    (∀ cv ∈ a.columns, cv.2.length = a.entities.length) := by
  rcases (WFb_iff w).mp hWF with ⟨_, _, harch, _⟩
  rcases (archOKb_iff w a).mp (harch a hmem) with ⟨h1, h2, h3, _⟩
  exact ⟨h1, h2, h3⟩

theorem WF_stored_index_pos {w : World} {a : Archetype} (hWF : w.WFb = true)
    (hmem : a ∈ w.archetypes) {r : Nat} (hr : r < a.entities.length) :
    0 < (a.entities.getD r INVALID_ENTITY).index := by
  rcases WF_arch_row hWF hmem hr with ⟨_, hrec, _⟩
  rcases (WFb_iff w).mp hWF with ⟨_, _, _, _, _, _, _, h0, _⟩
  rcases Nat.eq_zero_or_pos (a.entities.getD r INVALID_ENTITY).index with hz | hp
  · rw [hz] at hrec
    rw [hrec] at h0
    exact absurd h0 (by simp)
  · exact hp

theorem WF_stored_ne_invalid {w : World} {a : Archetype} (hWF : w.WFb = true)
    (hmem : a ∈ w.archetypes) {r : Nat} (hr : r < a.entities.length) :
    a.entities.getD r INVALID_ENTITY ≠ INVALID_ENTITY := by
  intro hinv
  have := WF_stored_index_pos hWF hmem hr
  rw [hinv] at this
  simp [INVALID_ENTITY] at this

@[simp] theorem recordOf_withEvents (w : World) (E : List HookEvent) (j : Nat) :
    ({ w with events := E } : World).recordOf j = w.recordOf j := rfl
@[simp] theorem genOf_withEvents (w : World) (E : List HookEvent) (j : Nat) :
    ({ w with events := E } : World).genOf j = w.genOf j := rfl
@[simp] theorem findArchetype_withEvents (w : World) (E : List HookEvent) (ts) :
    ({ w with events := E } : World).findArchetype ts = w.findArchetype ts := rfl

theorem WF_index_unique {w : World} {a b : Archetype} (hWF : w.WFb = true)
    (ha : a ∈ w.archetypes) (hb : b ∈ w.archetypes) {r1 r2 : Nat}
    (hr1 : r1 < a.entities.length) (hr2 : r2 < b.entities.length)
    (hidx : (a.entities.getD r1 INVALID_ENTITY).index =
      (b.entities.getD r2 INVALID_ENTITY).index) :
    a = b ∧ r1 = r2 := by
  rcases WF_arch_row hWF ha hr1 with ⟨_, hrec1, _⟩
  rcases WF_arch_row hWF hb hr2 with ⟨_, hrec2, _⟩
  rw [hidx, hrec2] at hrec1
  have hts : a.type_set = b.type_set := by
    have := congrArg EntityRecord.archetype hrec1
    simpa using this.symm
  have hr : r1 = r2 := by
    have := congrArg EntityRecord.row hrec1
    simpa using this.symm
  rcases (WFb_iff w).mp hWF with ⟨_, _, _, hnd, _⟩
  exact ⟨List.inj_on_of_nodup_map hnd ha hb hts, hr⟩

/-! ### Invariant is blind to events, cache, and the iteration counter -/

theorem WFb_fireAdd (w : World) (c : ComponentTypeID) (e : Entity) :
    (w.fireAdd c e).WFb = w.WFb := rfl

theorem WFb_fireRemove (w : World) (c : ComponentTypeID) (e : Entity) :
    (w.fireRemove c e).WFb = w.WFb := rfl

theorem WFb_setCacheEntry (w : World) (k : QueryKey) (v : QueryCacheEntry) :
    (w.setCacheEntry k v).WFb = w.WFb := rfl

/-! ### updateArch algebra -/

theorem setRecord_updateArch (w : World) (ts) (f) (i) (r) :
    (w.updateArch ts f).setRecord i r = (w.setRecord i r).updateArch ts f := rfl

theorem updateArch_compose (w : World) (ts : List ComponentTypeID)
    (f g : Archetype → Archetype)
    (hg : ∀ x, x.type_set = ts → (g x).type_set = x.type_set) :
    (w.updateArch ts g).updateArch ts f = w.updateArch ts (fun x => f (g x)) := by
  simp only [World.updateArch, List.map_map]
  congr 1
  apply List.map_congr_left
  intro a _
  by_cases h : a.type_set = ts
  · simp [Function.comp, h, hg a h]
  · simp [Function.comp, h]

theorem updateArch_swap_ne (w : World) (ts1 ts2 : List ComponentTypeID)
    (f g : Archetype → Archetype)
    (hne : ts1 ≠ ts2)
    (hf : ∀ x, x.type_set = ts1 → (f x).type_set = x.type_set)
    (hg : ∀ x, x.type_set = ts2 → (g x).type_set = x.type_set) :
    (w.updateArch ts1 f).updateArch ts2 g = (w.updateArch ts2 g).updateArch ts1 f := by
  simp only [World.updateArch, List.map_map]
  congr 1
  apply List.map_congr_left
  intro a _
  by_cases h1 : a.type_set = ts1
  · have h2 : a.type_set ≠ ts2 := by rw [h1]; exact hne
    have h3 : (f a).type_set ≠ ts2 := by rw [hf a h1, h1]; exact hne
    simp [Function.comp, h1, h2, h3, hne]
  · by_cases h2 : a.type_set = ts2
    · have h3 : (g a).type_set ≠ ts1 := by rw [hg a h2, h2]; exact Ne.symm hne
      simp [Function.comp, h1, h2, h3, Ne.symm hne]
    · simp [Function.comp, h1, h2]

/-! ### Preservation of the invariant by the public operations -/

theorem WF_destroy {w w' : World} {e : Entity} (hWF : w.WFb = true)
    (hd : w.destroy e = some w') : w'.WFb = true := by
  by_cases hit : w.iterating = 0
  case neg =>
    rw [World.destroy, if_pos hit] at hd
    exact absurd hd (by simp)
  by_cases ha : w.alive e = true
  case neg =>
    have ha2 : w.alive e = false := by revert ha; cases w.alive e <;> simp
    rw [World.destroy, if_neg (by simp [hit]), if_pos (by simp [ha2])] at hd
    simp only [Option.some.injEq] at hd
    exact hd ▸ hWF
  rcases WF_live hWF ha with ⟨ts, a, hts, hfind, hmem, hats, hrow, hent, hidx, hgen⟩
  rcases (WFb_iff w).mp hWF with ⟨hrg, hrec, harch, hnd, hfree, hfnd, hg0, hr0, hf0⟩
  have hreci : w.recordOf e.index = ⟨some ts, (w.recordOf e.index).row⟩ := by
    rw [← hts]
  have hipos : 0 < e.index := by
    have := WF_stored_index_pos hWF hmem hrow
    rwa [hent] at this
  have hefree : e.index ∉ w.free_list := by
    intro hmem2
    have := ((freeOKb_iff w e.index).mp (hfree e.index hmem2)).2
    rw [hts] at this
    cases this
  have hfgen : ∀ x : Archetype, x.type_set = ts →
      ((a.swapRemove (w.recordOf e.index).row).1).type_set = x.type_set := by
    intro x hx
    rw [swapRemove_type_set, hats, hx]
  rw [World.destroy, if_neg (by simp [hit]), if_neg (by simp [ha])] at hd
  simp only [hts, Option.getD_some, archetypeGet_eq hfind, World.setRecordRow,
    fireRemoveFold_eq, recordOf_withEvents, genOf_withEvents, recordOf_updateArch] at hd
  by_cases hsw : (w.recordOf e.index).row + 1 < a.entities.length
  case pos =>
    -- the removed row was not last: the previously last entity s moves into it
    have hn1 : a.entities.length - 1 < a.entities.length := by omega
    have hsinv : (a.swapRemove (w.recordOf e.index).row).2 ≠ INVALID_ENTITY := by
      rw [swapRemove_swapped_lt _ _ hsw]
      exact WF_stored_ne_invalid hWF hmem hn1
    rw [if_pos hsinv, swapRemove_swapped_lt _ _ hsw] at hd
    simp only [Option.some.injEq] at hd
    rcases WF_arch_row hWF hmem hn1 with ⟨hsidx, hsrec0, hsgen⟩
    rw [hats] at hsrec0
    have hspos : 0 < (a.entities.getD (a.entities.length - 1) INVALID_ENTITY).index :=
      WF_stored_index_pos hWF hmem hn1
    have hsne : (a.entities.getD (a.entities.length - 1) INVALID_ENTITY).index ≠ e.index := by
      intro heq
      have hx : (a.entities.getD (w.recordOf e.index).row INVALID_ENTITY).index =
          (a.entities.getD (a.entities.length - 1) INVALID_ENTITY).index := by
        rw [hent, heq]
      have := (WF_index_unique hWF hmem hmem hrow hn1 hx).2
      omega
    have hsfree : (a.entities.getD (a.entities.length - 1) INVALID_ENTITY).index ∉
        w.free_list := by
      intro hmem2
      have := ((freeOKb_iff w _).mp (hfree _ hmem2)).2
      rw [hsrec0] at this
      cases this
    -- field projections of the destroyed world
    have hgens2 : w'.generations =
        w.generations.set e.index ((w.genOf e.index + 1) % UINT32_MOD) := by
      rw [← hd]
      rfl
    have hrecs2 : w'.records =
        (w.records.set (a.entities.getD (a.entities.length - 1) INVALID_ENTITY).index
          ⟨some ts, (w.recordOf e.index).row⟩).set e.index nilRecord := by
      rw [← hd]
      rw [show w.recordOf (a.entities.getD (a.entities.length - 1) INVALID_ENTITY).index =
        (⟨some ts, a.entities.length - 1⟩ : EntityRecord) from hsrec0]
      rfl
    have hfree2 : w'.free_list = w.free_list ++ [e.index] := by
      rw [← hd]
      rfl
    have harch2 : w'.archetypes = w.archetypes.map
        (fun x => if x.type_set == ts then (a.swapRemove (w.recordOf e.index).row).1
          else x) := by
      rw [← hd]
      rfl
    have hlenr : w'.records.length = w.records.length := by rw [hrecs2]; simp
    have hleng : w'.generations.length = w.generations.length := by rw [hgens2]; simp
    have hTrec : ∀ j, j ≠ e.index →
        j ≠ (a.entities.getD (a.entities.length - 1) INVALID_ENTITY).index →
        w'.recordOf j = w.recordOf j := by
      intro j hj1 hj2
      rw [World.recordOf, hrecs2, getD_set_ne _ _ _ _ _ (fun hh => hj1 hh.symm),
        getD_set_ne _ _ _ _ _ (fun hh => hj2 hh.symm)]
      rfl
    have hTrece : w'.recordOf e.index = nilRecord := by
      rw [World.recordOf, hrecs2, getD_set_self _ _ _ _ (by simpa using hidx)]
    have hTrecs : w'.recordOf (a.entities.getD (a.entities.length - 1) INVALID_ENTITY).index =
        ⟨some ts, (w.recordOf e.index).row⟩ := by
      rw [World.recordOf, hrecs2, getD_set_ne _ _ _ _ _ (Ne.symm hsne),
        getD_set_self _ _ _ _ hsidx]
    have hTgen : ∀ j, j ≠ e.index → w'.genOf j = w.genOf j := by
      intro j hj
      rw [World.genOf, hgens2, getD_set_ne _ _ _ _ _ (fun hh => hj hh.symm)]
      rfl
    have hTfind : ∀ ts2, w'.findArchetype ts2 =
        (w.findArchetype ts2).map
          (fun x => if x.type_set == ts then (a.swapRemove (w.recordOf e.index).row).1
            else x) := by
      intro ts2
      rw [World.findArchetype, harch2, find?_update_list _ _ _ _ hfgen, World.findArchetype]
    have hTfind_ts : w'.findArchetype ts = some (a.swapRemove (w.recordOf e.index).row).1 := by
      rw [hTfind, hfind]
      simp [hats]
    have hTfind_ne : ∀ ts2, ts2 ≠ ts → w'.findArchetype ts2 = w.findArchetype ts2 := by
      intro ts2 hne
      rw [hTfind]
      rcases hb : w.findArchetype ts2 with _ | b
      · rfl
      · rcases findArchetype_some hb with ⟨_, hbts⟩
        have : b.type_set ≠ ts := by rw [hbts]; exact hne
        simp [this]
    apply (WFb_iff w').mpr
    refine ⟨?_, ?_, ?_, ?_, ?_, ?_, ?_, ?_, ?_⟩
    · rw [hlenr, hleng, hrg]
    · intro j hj
      rw [hlenr] at hj
      by_cases hje : j = e.index
      · subst hje
        exact recOKb_none (by rw [hTrece]; rfl)
      by_cases hjs : j = (a.entities.getD (a.entities.length - 1) INVALID_ENTITY).index
      · subst hjs
        have hr9 : (w'.recordOf
            (a.entities.getD (a.entities.length - 1) INVALID_ENTITY).index).archetype =
              some ts := by simp only [hTrecs]
        refine recOKb_some hr9 hTfind_ts ?_ ?_
        · simp only [hTrecs, swapRemove_entities_length]
          omega
        · simp only [hTrecs]
          rw [swapRemove_entities_getD_row _ _ hsw, hTgen _ hsne, hsgen]
      · have hrj := hTrec j hje hjs
        rcases harchj : (w.recordOf j).archetype with _ | ts2
        · exact recOKb_none (by rw [hrj, harchj])
        · rcases recOKb_live (hrec j hj) harchj with ⟨b, hfindb, hrowb, hentb⟩
          by_cases hts2 : ts2 = ts
          · rw [hts2] at harchj hfindb
            rw [hfind] at hfindb
            injection hfindb with hba
            subst b
            have hne_row : (w.recordOf j).row ≠ (w.recordOf e.index).row := by
              intro heq
              apply hje
              have h1 : (⟨j, w.genOf j⟩ : Entity) = e := by rw [← hentb, heq, hent]
              exact (congrArg Entity.index h1)
            have hne_last : (w.recordOf j).row ≠ a.entities.length - 1 := by
              intro heq
              apply hjs
              have h1 : (⟨j, w.genOf j⟩ : Entity) =
                  a.entities.getD (a.entities.length - 1) INVALID_ENTITY := by
                rw [← hentb, heq]
              exact (congrArg Entity.index h1)
            have hrow2 : (w.recordOf j).row < a.entities.length - 1 := by omega
            refine recOKb_some (show (w'.recordOf j).archetype = some ts by
              rw [hrj, harchj]) hTfind_ts ?_ ?_
            · rw [hrj, swapRemove_entities_length]
              exact hrow2
            · rw [hrj, swapRemove_entities_getD_ne _ _ _ hrow2 hne_row, hentb,
                hTgen j hje]
          · refine recOKb_some (show (w'.recordOf j).archetype = some ts2 by
              rw [hrj, harchj]) (by rw [hTfind_ne ts2 hts2]; exact hfindb) ?_ ?_
            · rw [hrj]
              exact hrowb
            · rw [hrj, hentb, hTgen j hje]
    · intro b' hb'
      rw [harch2] at hb'
      rcases List.mem_map.mp hb' with ⟨b, hbmem, hbeq⟩
      by_cases hbts : b.type_set = ts
      · have hba : a = b :=
          (List.inj_on_of_nodup_map hnd hbmem hmem (by rw [hbts, hats])).symm
        subst hba
        rw [if_pos (by simp [hbts])] at hbeq
        subst hbeq
        apply (archOKb_iff w' _).mpr
        refine ⟨?_, ?_, ?_, ?_⟩
        · rw [swapRemove_columns,
            map_fst_of_keyfix
              (fun cv => (cv.1, colSwapRemove cv.2 ((w.recordOf e.index).row)))
              (fun cv => rfl), swapRemove_type_set]
          exact (WF_arch_parts hWF hmem).1
        · rw [swapRemove_type_set]
          exact (WF_arch_parts hWF hmem).2.1
        · intro cv hcv
          rw [swapRemove_columns] at hcv
          rcases List.mem_map.mp hcv with ⟨cv0, hcv0, hcveq⟩
          rw [← hcveq]
          show (colSwapRemove cv0.2 _).length = _
          rw [colSwapRemove_length, swapRemove_entities_length,
            (WF_arch_parts hWF hmem).2.2 cv0 hcv0]
        · intro r hrlt
          rw [swapRemove_entities_length] at hrlt
          by_cases hr_row : r = (w.recordOf e.index).row
          · subst hr_row
            rw [swapRemove_entities_getD_row _ _ hsw]
            refine ⟨?_, ?_, ?_⟩
            · rw [hlenr]
              exact hsidx
            · simp only [hTrecs, swapRemove_type_set, hats]
            · rw [hTgen _ hsne]
              exact hsgen
          · rw [swapRemove_entities_getD_ne _ _ _ hrlt hr_row]
            have hrn : r < a.entities.length := by omega
            rcases WF_arch_row hWF hmem hrn with ⟨hjlen, hjrec, hjgen⟩
            have hjne : (a.entities.getD r INVALID_ENTITY).index ≠ e.index := by
              intro heq
              have hx : (a.entities.getD r INVALID_ENTITY).index =
                  (a.entities.getD (w.recordOf e.index).row INVALID_ENTITY).index := by
                rw [hent, heq]
              exact hr_row (WF_index_unique hWF hmem hmem hrn hrow hx).2
            have hjns : (a.entities.getD r INVALID_ENTITY).index ≠
                (a.entities.getD (a.entities.length - 1) INVALID_ENTITY).index := by
              intro heq
              have := (WF_index_unique hWF hmem hmem hrn hn1 heq).2
              omega
            refine ⟨?_, ?_, ?_⟩
            · rw [hlenr]
              exact hjlen
            · rw [hTrec _ hjne hjns, swapRemove_type_set]
              rw [hats] at hjrec ⊢
              exact hjrec
            · rw [hTgen _ hjne]
              exact hjgen
      · rw [if_neg (by simp [hbts])] at hbeq
        subst hbeq
        apply (archOKb_iff w' _).mpr
        have hold := (archOKb_iff w b).mp (harch b hbmem)
        refine ⟨hold.1, hold.2.1, hold.2.2.1, ?_⟩
        intro r hrlt
        rcases hold.2.2.2 r hrlt with ⟨hjlen, hjrec, hjgen⟩
        have hjne : (b.entities.getD r INVALID_ENTITY).index ≠ e.index := by
          intro heq
          apply hbts
          have h2 := hjrec
          rw [heq, hreci] at h2
          have h3 := congrArg EntityRecord.archetype h2
          simpa using h3.symm
        have hjns : (b.entities.getD r INVALID_ENTITY).index ≠
            (a.entities.getD (a.entities.length - 1) INVALID_ENTITY).index := by
          intro heq
          apply hbts
          have h2 := hjrec
          rw [heq, hsrec0] at h2
          have h3 := congrArg EntityRecord.archetype h2
          simpa using h3.symm
        refine ⟨by rw [hlenr]; exact hjlen, ?_, by rw [hTgen _ hjne]; exact hjgen⟩
        rw [hTrec _ hjne hjns]
        exact hjrec
    · rw [harch2, map_typeset_update _ _ _ hfgen]
      exact hnd
    · intro j hjmem
      rw [hfree2] at hjmem
      rcases List.mem_append.mp hjmem with hjo | hjn
      · have hofree := (freeOKb_iff w j).mp (hfree j hjo)
        have hjne : j ≠ e.index := by
          intro hh
          rw [hh, hts] at hofree
          cases hofree.2
        have hjns : j ≠ (a.entities.getD (a.entities.length - 1) INVALID_ENTITY).index := by
          intro hh
          rw [hh, hsrec0] at hofree
          cases hofree.2
        apply (freeOKb_iff w' j).mpr
        exact ⟨by rw [hlenr]; exact hofree.1, by rw [hTrec _ hjne hjns]; exact hofree.2⟩
      · have hj : j = e.index := by simpa using hjn
        subst hj
        apply (freeOKb_iff w' _).mpr
        exact ⟨by rw [hlenr]; exact hidx, by rw [hTrece]; rfl⟩
    · rw [hfree2]
      exact (nodup_append_singleton _ _).mpr ⟨hfnd, hefree⟩
    · rw [show w'.genOf 0 = w.genOf 0 from hTgen 0 (by omega)]
      exact hg0
    · rw [hTrec 0 (by omega) (by omega)]
      exact hr0
    · rw [hfree2]
      intro hmem0
      rcases List.mem_append.mp hmem0 with h | h
      · exact hf0 h
      · have : (0 : Nat) = e.index := by simpa using h
        omega
  case neg =>
    -- the removed row was the last one: nothing moves
    have hrlast : (w.recordOf e.index).row = a.entities.length - 1 := by omega
    have hsinv : ¬ ((a.swapRemove (w.recordOf e.index).row).2 ≠ INVALID_ENTITY) := by
      rw [swapRemove_swapped_last _ _ hsw]
      simp
    rw [if_neg hsinv] at hd
    simp only [Option.some.injEq] at hd
    have hgens2 : w'.generations =
        w.generations.set e.index ((w.genOf e.index + 1) % UINT32_MOD) := by
      rw [← hd]
      rfl
    have hrecs2 : w'.records = w.records.set e.index nilRecord := by
      rw [← hd]
      rfl
    have hfree2 : w'.free_list = w.free_list ++ [e.index] := by
      rw [← hd]
      rfl
    have harch2 : w'.archetypes = w.archetypes.map
        (fun x => if x.type_set == ts then (a.swapRemove (w.recordOf e.index).row).1
          else x) := by
      rw [← hd]
      rfl
    have hlenr : w'.records.length = w.records.length := by rw [hrecs2]; simp
    have hleng : w'.generations.length = w.generations.length := by rw [hgens2]; simp
    have hTrec : ∀ j, j ≠ e.index → w'.recordOf j = w.recordOf j := by
      intro j hj1
      rw [World.recordOf, hrecs2, getD_set_ne _ _ _ _ _ (fun hh => hj1 hh.symm)]
      rfl
    have hTrece : w'.recordOf e.index = nilRecord := by
      rw [World.recordOf, hrecs2, getD_set_self _ _ _ _ hidx]
    have hTgen : ∀ j, j ≠ e.index → w'.genOf j = w.genOf j := by
      intro j hj
      rw [World.genOf, hgens2, getD_set_ne _ _ _ _ _ (fun hh => hj hh.symm)]
      rfl
    have hTfind : ∀ ts2, w'.findArchetype ts2 =
        (w.findArchetype ts2).map
          (fun x => if x.type_set == ts then (a.swapRemove (w.recordOf e.index).row).1
            else x) := by
      intro ts2
      rw [World.findArchetype, harch2, find?_update_list _ _ _ _ hfgen, World.findArchetype]
    have hTfind_ts : w'.findArchetype ts = some (a.swapRemove (w.recordOf e.index).row).1 := by
      rw [hTfind, hfind]
      simp [hats]
    have hTfind_ne : ∀ ts2, ts2 ≠ ts → w'.findArchetype ts2 = w.findArchetype ts2 := by
      intro ts2 hne
      rw [hTfind]
      rcases hb : w.findArchetype ts2 with _ | b
      · rfl
      · rcases findArchetype_some hb with ⟨_, hbts⟩
        have : b.type_set ≠ ts := by rw [hbts]; exact hne
        simp [this]
    apply (WFb_iff w').mpr
    refine ⟨?_, ?_, ?_, ?_, ?_, ?_, ?_, ?_, ?_⟩
    · rw [hlenr, hleng, hrg]
    · intro j hj
      rw [hlenr] at hj
      by_cases hje : j = e.index
      · subst hje
        exact recOKb_none (by rw [hTrece]; rfl)
      · have hrj := hTrec j hje
        rcases harchj : (w.recordOf j).archetype with _ | ts2
        · exact recOKb_none (by rw [hrj, harchj])
        · rcases recOKb_live (hrec j hj) harchj with ⟨b, hfindb, hrowb, hentb⟩
          by_cases hts2 : ts2 = ts
          · rw [hts2] at harchj hfindb
            rw [hfind] at hfindb
            injection hfindb with hba
            subst b
            have hne_row : (w.recordOf j).row ≠ (w.recordOf e.index).row := by
              intro heq
              apply hje
              have h1 : (⟨j, w.genOf j⟩ : Entity) = e := by rw [← hentb, heq, hent]
              exact (congrArg Entity.index h1)
            have hrow2 : (w.recordOf j).row < a.entities.length - 1 := by omega
            refine recOKb_some (show (w'.recordOf j).archetype = some ts by
              rw [hrj, harchj]) hTfind_ts ?_ ?_
            · rw [hrj, swapRemove_entities_length]
              exact hrow2
            · rw [hrj, swapRemove_entities_getD_ne _ _ _ hrow2 hne_row, hentb,
                hTgen j hje]
          · refine recOKb_some (show (w'.recordOf j).archetype = some ts2 by
              rw [hrj, harchj]) (by rw [hTfind_ne ts2 hts2]; exact hfindb) ?_ ?_
            · rw [hrj]
              exact hrowb
            · rw [hrj, hentb, hTgen j hje]
    · intro b' hb'
      rw [harch2] at hb'
      rcases List.mem_map.mp hb' with ⟨b, hbmem, hbeq⟩
      by_cases hbts : b.type_set = ts
      · have hba : a = b :=
          (List.inj_on_of_nodup_map hnd hbmem hmem (by rw [hbts, hats])).symm
        subst hba
        rw [if_pos (by simp [hbts])] at hbeq
        subst hbeq
        apply (archOKb_iff w' _).mpr
        refine ⟨?_, ?_, ?_, ?_⟩
        · rw [swapRemove_columns,
            map_fst_of_keyfix
              (fun cv => (cv.1, colSwapRemove cv.2 ((w.recordOf e.index).row)))
              (fun cv => rfl), swapRemove_type_set]
          exact (WF_arch_parts hWF hmem).1
        · rw [swapRemove_type_set]
          exact (WF_arch_parts hWF hmem).2.1
        · intro cv hcv
          rw [swapRemove_columns] at hcv
          rcases List.mem_map.mp hcv with ⟨cv0, hcv0, hcveq⟩
          rw [← hcveq]
          show (colSwapRemove cv0.2 _).length = _
          rw [colSwapRemove_length, swapRemove_entities_length,
            (WF_arch_parts hWF hmem).2.2 cv0 hcv0]
        · intro r hrlt
          rw [swapRemove_entities_length] at hrlt
          have hr_row : r ≠ (w.recordOf e.index).row := by omega
          rw [swapRemove_entities_getD_ne _ _ _ hrlt hr_row]
          have hrn : r < a.entities.length := by omega
          rcases WF_arch_row hWF hmem hrn with ⟨hjlen, hjrec, hjgen⟩
          have hjne : (a.entities.getD r INVALID_ENTITY).index ≠ e.index := by
            intro heq
            have hx : (a.entities.getD r INVALID_ENTITY).index =
                (a.entities.getD (w.recordOf e.index).row INVALID_ENTITY).index := by
              rw [hent, heq]
            exact hr_row (WF_index_unique hWF hmem hmem hrn hrow hx).2
          refine ⟨?_, ?_, ?_⟩
          · rw [hlenr]
            exact hjlen
          · rw [hTrec _ hjne, swapRemove_type_set]
            rw [hats] at hjrec ⊢
            exact hjrec
          · rw [hTgen _ hjne]
            exact hjgen
      · rw [if_neg (by simp [hbts])] at hbeq
        subst hbeq
        apply (archOKb_iff w' _).mpr
        have hold := (archOKb_iff w b).mp (harch b hbmem)
        refine ⟨hold.1, hold.2.1, hold.2.2.1, ?_⟩
        intro r hrlt
        rcases hold.2.2.2 r hrlt with ⟨hjlen, hjrec, hjgen⟩
        have hjne : (b.entities.getD r INVALID_ENTITY).index ≠ e.index := by
          intro heq
          apply hbts
          have h2 := hjrec
          rw [heq, hreci] at h2
          have h3 := congrArg EntityRecord.archetype h2
          simpa using h3.symm
        refine ⟨by rw [hlenr]; exact hjlen, ?_, by rw [hTgen _ hjne]; exact hjgen⟩
        rw [hTrec _ hjne]
        exact hjrec
    · rw [harch2, map_typeset_update _ _ _ hfgen]
      exact hnd
    · intro j hjmem
      rw [hfree2] at hjmem
      rcases List.mem_append.mp hjmem with hjo | hjn
      · have hofree := (freeOKb_iff w j).mp (hfree j hjo)
        have hjne : j ≠ e.index := by
          intro hh
          rw [hh, hts] at hofree
          cases hofree.2
        apply (freeOKb_iff w' j).mpr
        exact ⟨by rw [hlenr]; exact hofree.1, by rw [hTrec _ hjne]; exact hofree.2⟩
      · have hj : j = e.index := by simpa using hjn
        subst hj
        apply (freeOKb_iff w' _).mpr
        exact ⟨by rw [hlenr]; exact hidx, by rw [hTrece]; rfl⟩
    · rw [hfree2]
      exact (nodup_append_singleton _ _).mpr ⟨hfnd, hefree⟩
    · rw [show w'.genOf 0 = w.genOf 0 from hTgen 0 (by omega)]
      exact hg0
    · rw [hTrec 0 (by omega)]
      exact hr0
    · rw [hfree2]
      intro hmem0
      rcases List.mem_append.mp hmem0 with h | h
      · exact hf0 h
      · have : (0 : Nat) = e.index := by simpa using h
        omega

/-! ### get_or_create_archetype preserves the invariant -/

theorem WF_getOrCreate {w : World} {ts : List ComponentTypeID} (hWF : w.WFb = true)
    (hAsc : strictAsc ts = true) :
    (w.getOrCreateArchetype ts).WFb = true := by
  rcases hfind : w.findArchetype ts with _ | a
  · rw [getOrCreate_new hfind]
    rcases (WFb_iff w).mp hWF with ⟨hlen, hrec, harch, hnd, hfree, hfnd, hg0, hr0, hf0⟩
    apply (WFb_iff _).mpr
    refine ⟨hlen, ?_, ?_, ?_, hfree, hfnd, hg0, hr0, hf0⟩
    · intro i hi
      rcases hr : (w.recordOf i).archetype with _ | ts2
      · exact recOKb_none hr
      · rcases recOKb_live (hrec i hi) hr with ⟨b, hfb, hrow, hent⟩
        have hfb2 : ({ w with
            archetypes := w.archetypes ++ [⟨ts, ts.map (fun c => (c, [])), []⟩],
            archetype_generation := w.archetype_generation + 1 } : World).findArchetype
              ts2 = some b := by
          show (w.archetypes ++ [_]).find? _ = _
          rw [List.find?_append]
          have h0 : List.find? (fun a => a.type_set == ts2) w.archetypes = some b := hfb
          rw [h0]
          rfl
        exact recOKb_some hr hfb2 hrow hent
    · intro b hb
      rcases List.mem_append.mp hb with hbo | hbn
      · exact harch b hbo
      · have hb' : b = ⟨ts, ts.map (fun c => (c, [])), []⟩ := by simpa using hbn
        subst hb'
        apply (archOKb_iff _ _).mpr
        refine ⟨by rw [List.map_map]; exact List.map_id ts, hAsc, ?_, ?_⟩
        · intro cv hcv
          rcases List.mem_map.mp hcv with ⟨c, _, hcve⟩
          simp [← hcve]
        · intro r hr
          simp at hr
    · show ((w.archetypes ++
          [(⟨ts, ts.map (fun c => (c, [])), []⟩ : Archetype)]).map
            (fun a => a.type_set)).Nodup
      rw [List.map_append]
      apply (nodup_append_singleton _ _).mpr
      refine ⟨hnd, ?_⟩
      intro hmem
      rcases List.mem_map.mp hmem with ⟨b, hbmem, hbts⟩
      exact findArchetype_none hfind b hbmem (by simpa using hbts)
  · rw [getOrCreate_found hfind]
    exact hWF

/-! ### Index allocation preserves the invariant and yields a dead slot -/

theorem allocIndex_nil {w : World} (h : w.free_list = []) :
    w.allocIndex = ({ w with generations := w.generations ++ [0],
                             records := w.records ++ [nilRecord] },
      w.generations.length) := by
  rw [World.allocIndex, h]

theorem allocIndex_cons {w : World} {x : Nat} {xs : List Nat}
    (h : w.free_list = x :: xs) :
    w.allocIndex =
      ({ w with free_list := (x :: xs).dropLast }, (x :: xs).getLastD 0) := by
  rw [World.allocIndex, h]

theorem getLastD_not_mem_dropLast {α : Type} [DecidableEq α] (l : List α)
    (h : l.Nodup) (d : α) (hne : l ≠ []) : l.getLastD d ∉ l.dropLast := by
  have hsp := List.dropLast_append_getLast hne
  have hD : l.getLastD d = l.getLast hne := by
    rw [List.getLastD_eq_getLast?, List.getLast?_eq_getLast l hne]
    rfl
  rw [hD]
  intro hmem
  rw [← hsp] at h
  exact ((nodup_append_singleton _ _).mp h).2 hmem

theorem WF_allocIndex {w : World} (hWF : w.WFb = true) :
    (w.allocIndex).1.WFb = true ∧
    (w.allocIndex).2 < (w.allocIndex).1.records.length ∧
    ((w.allocIndex).1.recordOf (w.allocIndex).2).archetype = none ∧
    (w.allocIndex).2 ∉ (w.allocIndex).1.free_list ∧
    0 < (w.allocIndex).2 ∧
    (w.allocIndex).1.archetypes = w.archetypes := by
  rcases (WFb_iff w).mp hWF with ⟨hlen, hrec, harch, hnd, hfree, hfnd, hg0, hr0, hf0⟩
  have hglen : 0 < w.generations.length := by
    by_contra hcon
    push_neg at hcon
    rw [World.genOf, getD_oob _ _ _ (by omega)] at hg0
    omega
  rcases hfl : w.free_list with _ | ⟨x, xs⟩
  · rw [allocIndex_nil hfl]
    have hrecsame : ∀ j, j < w.records.length →
        ({ w with generations := w.generations ++ [0],
                  records := w.records ++ [nilRecord] } : World).recordOf j
          = w.recordOf j := by
      intro j hj
      rw [World.recordOf, World.recordOf]
      exact getD_append_lt _ _ _ _ hj
    have hgensame : ∀ j, j < w.generations.length →
        ({ w with generations := w.generations ++ [0],
                  records := w.records ++ [nilRecord] } : World).genOf j
          = w.genOf j := by
      intro j hj
      rw [World.genOf, World.genOf]
      exact getD_append_lt _ _ _ _ hj
    refine ⟨?_, ?_, ?_, ?_, ?_, rfl⟩
    · apply (WFb_iff _).mpr
      refine ⟨by simp [hlen], ?_, ?_, hnd, ?_, hfnd, ?_, ?_, ?_⟩
      · intro i hi
        have hi' : i < w.records.length + 1 := by simpa using hi
        rcases Nat.lt_or_ge i w.records.length with hlt | hge
        · rcases hr : (w.recordOf i).archetype with _ | ts2
          · exact recOKb_none (by rw [hrecsame i hlt]; exact hr)
          · rcases recOKb_live (hrec i hlt) hr with ⟨b, hfb, hrow, hent⟩
            refine recOKb_some (by rw [hrecsame i hlt]; exact hr) hfb ?_ ?_
            · rw [hrecsame i hlt]
              exact hrow
            · rw [hrecsame i hlt, hgensame i (by omega)]
              exact hent
        · have hieq : i = w.records.length := by omega
          refine recOKb_none ?_
          rw [hieq, World.recordOf]
          show ((w.records ++ [nilRecord]).getD w.records.length nilRecord).archetype
            = none
          rw [getD_append_len]
          rfl
      · intro b hb
        rcases (archOKb_iff w b).mp (harch b hb) with ⟨h1, h2, h3, h4⟩
        apply (archOKb_iff _ _).mpr
        refine ⟨h1, h2, h3, ?_⟩
        intro r hr
        rcases h4 r hr with ⟨hlt, hrec', hgen'⟩
        refine ⟨by simp only [List.length_append, List.length_singleton]; omega, ?_, ?_⟩
        · rw [hrecsame _ hlt]
          exact hrec'
        · rw [hgensame _ (by omega)]
          exact hgen'
      · intro i hi
        rw [show ({ w with generations := w.generations ++ [0],
                           records := w.records ++ [nilRecord] } : World).free_list
          = w.free_list from rfl, hfl] at hi
        cases hi
      · rw [hgensame 0 hglen]
        exact hg0
      · rw [hrecsame 0 (by omega)]
        exact hr0
      · rw [show ({ w with generations := w.generations ++ [0],
                           records := w.records ++ [nilRecord] } : World).free_list
          = w.free_list from rfl, hfl]
        intro hc
        cases hc
    · show w.generations.length < (w.records ++ [nilRecord]).length
      simp [hlen]
    · rw [World.recordOf]
      show ((w.records ++ [nilRecord]).getD w.generations.length nilRecord).archetype
        = none
      rw [← hlen, getD_append_len]
      rfl
    · show w.generations.length ∉ w.free_list
      rw [hfl]
      intro hc
      cases hc
    · show 0 < w.generations.length
      omega
  · rw [allocIndex_cons hfl]
    have hmemfree : (x :: xs).getLastD 0 ∈ w.free_list := by
      rw [hfl, getLastD_eq_getD]
      exact mem_getD _ _ _ (by simp)
    rcases (freeOKb_iff w _).mp (hfree _ hmemfree) with ⟨hlt, hnone⟩
    refine ⟨?_, hlt, hnone, ?_, ?_, rfl⟩
    · apply (WFb_iff _).mpr
      refine ⟨hlen, hrec, harch, hnd, ?_, ?_, hg0, hr0, ?_⟩
      · intro i hi
        have hi' : i ∈ w.free_list := by
          rw [hfl]
          exact (List.dropLast_sublist (x :: xs)).subset hi
        exact hfree i hi'
      · have hnd2 : (x :: xs).Nodup := by rw [← hfl]; exact hfnd
        exact hnd2.sublist (List.dropLast_sublist (x :: xs))
      · intro hc
        apply hf0
        rw [hfl]
        exact (List.dropLast_sublist (x :: xs)).subset hc
    · exact getLastD_not_mem_dropLast (x :: xs) (by rw [← hfl]; exact hfnd) 0
        (List.cons_ne_nil x xs)
    · rcases Nat.eq_zero_or_pos ((x :: xs).getLastD 0) with hz | hp
      · rw [hz] at hmemfree
        exact absurd hmemfree hf0
      · exact hp

/-! ### Placing a fresh row into an archetype preserves the invariant

The shared tail of create / create_with: given a dead in-range slot idx, an
archetype for ts, and an archetype transformer F that appends exactly the row
of idx (entities at the end, every column grown to parity), updating the
archetype and pointing the record at the new row keeps the world invariant. -/

theorem WF_newRow {u : World} {ts : List ComponentTypeID} {a : Archetype} {idx : Nat}
    {F : Archetype → Archetype}
    (hWF : u.WFb = true)
    (hfind : u.findArchetype ts = some a)
    (hidxlen : idx < u.records.length)
    (hrecnone : (u.recordOf idx).archetype = none)
    (hidxfree : idx ∉ u.free_list)
    (hidxpos : 0 < idx)
    (hFts : ∀ x, x.type_set = ts → (F x).type_set = x.type_set)
    (hFkeys : (F a).columns.map Prod.fst = a.columns.map Prod.fst)
    (hFents : (F a).entities = a.entities ++ [⟨idx, u.genOf idx⟩])
    (hFpar : ∀ cv ∈ (F a).columns, cv.2.length = a.entities.length + 1) :
    ((u.updateArch ts F).setRecord idx ⟨some ts, a.entities.length⟩).WFb = true := by
  rcases findArchetype_some hfind with ⟨hamem, hats⟩
  rcases (WFb_iff u).mp hWF with ⟨hlen, hrec, harch, hnd, hfree, hfnd, hg0, hr0, hf0⟩
  have hFae : (F a).entities.length = a.entities.length + 1 := by
    rw [hFents, List.length_append, List.length_singleton]
  have hFats : (F a).type_set = ts := by rw [hFts a hats, hats]
  have hrecW : ∀ j, j ≠ idx →
      ((u.updateArch ts F).setRecord idx ⟨some ts, a.entities.length⟩).recordOf j
        = u.recordOf j := by
    intro j hj
    have hx := recordOf_setRecord_ne (u.updateArch ts F) idx j
      ⟨some ts, a.entities.length⟩ (fun hh => hj hh.symm)
    rw [hx, recordOf_updateArch]
  have hrecWi :
      ((u.updateArch ts F).setRecord idx ⟨some ts, a.entities.length⟩).recordOf idx
        = ⟨some ts, a.entities.length⟩ :=
    recordOf_setRecord_self _ _ _ (by rw [updateArch_records]; exact hidxlen)
  have hfindW : ∀ ts2, ts2 ≠ ts →
      ((u.updateArch ts F).setRecord idx
          ⟨some ts, a.entities.length⟩).findArchetype ts2
        = u.findArchetype ts2 := by
    intro ts2 h2
    rw [findArchetype_setRecord, findArchetype_updateArch_other F hFts h2]
  have hfindWt :
      ((u.updateArch ts F).setRecord idx
          ⟨some ts, a.entities.length⟩).findArchetype ts
        = some (F a) := by
    rw [findArchetype_setRecord, findArchetype_updateArch_self F hFts hfind]
  have hlenW :
      ((u.updateArch ts F).setRecord idx
          ⟨some ts, a.entities.length⟩).records.length
        = u.records.length := by
    rw [setRecord_records, updateArch_records, List.length_set]
  have harchW :
      ((u.updateArch ts F).setRecord idx ⟨some ts, a.entities.length⟩).archetypes
        = u.archetypes.map (fun x => if x.type_set == ts then F x else x) := by
    rw [setRecord_archetypes, updateArch_archetypes]
  apply (WFb_iff _).mpr
  refine ⟨?_, ?_, ?_, ?_, ?_, ?_, ?_, ?_, ?_⟩
  · rw [hlenW]
    exact hlen
  · intro i hi
    rw [hlenW] at hi
    by_cases hieq : i = idx
    · subst hieq
      refine recOKb_some (by rw [hrecWi]) hfindWt ?_ ?_
      · rw [hrecWi, hFae]
        exact Nat.lt_succ_self _
      · rw [hrecWi, hFents]
        exact getD_append_len _ _ _
    · rcases hr : (u.recordOf i).archetype with _ | ts2
      · exact recOKb_none (by rw [hrecW i hieq]; exact hr)
      · rcases recOKb_live (hrec i hi) hr with ⟨b, hfb, hrow, hent⟩
        by_cases hts2 : ts2 = ts
        · subst hts2
          have hba : b = a := by
            rw [hfb] at hfind
            exact Option.some.inj hfind
          subst hba
          refine recOKb_some (by rw [hrecW i hieq]; exact hr) hfindWt ?_ ?_
          · rw [hrecW i hieq, hFae]
            omega
          · rw [hrecW i hieq, hFents, getD_append_lt _ _ _ _ hrow]
            exact hent
        · refine recOKb_some (by rw [hrecW i hieq]; exact hr)
            (by rw [hfindW ts2 hts2]; exact hfb) ?_ ?_
          · rw [hrecW i hieq]
            exact hrow
          · rw [hrecW i hieq]
            exact hent
  · intro b' hb'
    rw [harchW] at hb'
    rcases List.mem_map.mp hb' with ⟨b, hbmem, hbe⟩
    rcases (archOKb_iff u b).mp (harch b hbmem) with ⟨hk, hAsc', hpar', hrows'⟩
    by_cases hbts : b.type_set = ts
    · have hba : b = a := List.inj_on_of_nodup_map hnd hbmem hamem (by rw [hbts, hats])
      subst hba
      have hb2 : b' = F b := by
        rw [← hbe]
        simp [hbts]
      subst hb2
      apply (archOKb_iff _ _).mpr
      refine ⟨?_, ?_, ?_, ?_⟩
      · rw [hFkeys, hFats, hk, hbts]
      · rw [hFats, ← hbts]
        exact hAsc'
      · intro cv hcv
        rw [hFae]
        exact hFpar cv hcv
      · intro r hrlt
        rw [hFae] at hrlt
        rcases Nat.lt_or_ge r b.entities.length with hlt | hge
        · have hEgd : (F b).entities.getD r INVALID_ENTITY
              = b.entities.getD r INVALID_ENTITY := by
            rw [hFents]
            exact getD_append_lt _ _ _ _ hlt
          rcases hrows' r hlt with ⟨hidxlt, hrec', hgen'⟩
          have hne : (b.entities.getD r INVALID_ENTITY).index ≠ idx := by
            intro hh
            rw [hh] at hrec'
            rw [hrec'] at hrecnone
            simp at hrecnone
          refine ⟨?_, ?_, ?_⟩
          · rw [hEgd, hlenW]
            exact hidxlt
          · rw [hEgd, hrecW _ hne, hrec', hFats, hbts]
          · rw [hEgd]
            exact hgen'
        · have hreq : r = b.entities.length := by omega
          subst hreq
          have hEgd : (F b).entities.getD b.entities.length INVALID_ENTITY
              = ⟨idx, u.genOf idx⟩ := by
            rw [hFents]
            exact getD_append_len _ _ _
          have hproj : (⟨idx, u.genOf idx⟩ : Entity).index = idx := rfl
          refine ⟨?_, ?_, ?_⟩
          · rw [hEgd, hproj, hlenW]
            exact hidxlen
          · rw [hEgd, hproj, hrecWi, hFats]
          · rw [hEgd, hproj]
            rfl
    · have hb2 : b' = b := by
        rw [← hbe]
        simp [hbts]
      subst hb2
      apply (archOKb_iff _ _).mpr
      refine ⟨hk, hAsc', hpar', ?_⟩
      intro r hrlt
      rcases hrows' r hrlt with ⟨hidxlt, hrec', hgen'⟩
      have hne : (b'.entities.getD r INVALID_ENTITY).index ≠ idx := by
        intro hh
        rw [hh] at hrec'
        rw [hrec'] at hrecnone
        simp at hrecnone
      refine ⟨by rw [hlenW]; exact hidxlt, ?_, hgen'⟩
      rw [hrecW _ hne]
      exact hrec'
  · rw [harchW, map_typeset_update _ _ _ hFts]
    exact hnd
  · intro i hi
    rw [setRecord_free_list, updateArch_free_list] at hi
    have hif := (freeOKb_iff u i).mp (hfree i hi)
    have hne : i ≠ idx := fun hh => hidxfree (hh ▸ hi)
    apply (freeOKb_iff _ _).mpr
    exact ⟨by rw [hlenW]; exact hif.1, by rw [hrecW i hne]; exact hif.2⟩
  · exact hfnd
  · exact hg0
  · have h0ne : (0 : Nat) ≠ idx := by omega
    rw [hrecW 0 h0ne]
    exact hr0
  · exact hf0

/-! ### create preserves the invariant -/

theorem WF_create {w w' : World} {e : Entity} (hWF : w.WFb = true)
    (hc : w.create = some (w', e)) : w'.WFb = true := by
  rw [World.create] at hc
  by_cases hit : w.iterating ≠ 0
  · rw [if_pos hit] at hc
    cases hc
  · rw [if_neg hit] at hc
    simp only [] at hc
    rw [Option.some.injEq, Prod.mk.injEq] at hc
    rcases hc with ⟨hW, hE⟩
    rcases WF_allocIndex hWF with ⟨hWF1, hlen1, hnone1, hfree1, hpos1, harchs1⟩
    have hWF2 := WF_getOrCreate hWF1 (show strictAsc [] = true from rfl)
    obtain ⟨a2, hfind2⟩ : ∃ a2,
        ((w.allocIndex).1.getOrCreateArchetype []).findArchetype [] = some a2 :=
      ⟨_, findArchetype_getOrCreate_self _ _⟩
    have hcols : a2.columns = [] := by
      have hparts := WF_arch_parts hWF2 (findArchetype_some hfind2).1
      have hts : a2.type_set = [] := (findArchetype_some hfind2).2
      have hmapnil : a2.columns.map Prod.fst = [] := by rw [hparts.1, hts]
      exact List.map_eq_nil.mp hmapnil
    have hrecords2 : ((w.allocIndex).1.getOrCreateArchetype []).records
        = (w.allocIndex).1.records := getOrCreate_records _ _
    have hgens2 : ((w.allocIndex).1.getOrCreateArchetype []).generations
        = (w.allocIndex).1.generations := getOrCreate_generations _ _
    have hfl2 : ((w.allocIndex).1.getOrCreateArchetype []).free_list
        = (w.allocIndex).1.free_list := getOrCreate_free_list _ _
    have hg : ((w.allocIndex).1.getOrCreateArchetype []).genOf (w.allocIndex).2
        = (w.allocIndex).1.genOf (w.allocIndex).2 := by
      rw [World.genOf, World.genOf, hgens2]
    rw [← hW, archetypeGet_eq hfind2]
    refine WF_newRow hWF2 hfind2 ?_ ?_ ?_ hpos1 (fun x _ => rfl) rfl ?_ ?_
    · rw [hrecords2]
      exact hlen1
    · rw [World.recordOf, hrecords2]
      exact hnone1
    · rw [hfl2]
      exact hfree1
    · show a2.entities ++ [⟨(w.allocIndex).2, (w.allocIndex).1.genOf (w.allocIndex).2⟩]
        = a2.entities ++ [⟨(w.allocIndex).2,
            ((w.allocIndex).1.getOrCreateArchetype []).genOf (w.allocIndex).2⟩]
      rw [hg]
    · intro cv hcv
      have hmem : cv ∈ a2.columns := hcv
      rw [hcols] at hmem
      cases hmem

/-! ### create_with support: fold collapse, duplicate-id analysis -/

theorem WFb_withEvents (w : World) (E : List HookEvent) :
    ({ w with events := E } : World).WFb = w.WFb := rfl

theorem sorted_dup_adjacent (l : List Nat) (hs : l.Pairwise (· ≤ ·))
    (hnd : ¬ l.Nodup) : ∃ t1 c t2, l = t1 ++ c :: c :: t2 := by
  induction l with
  | nil => exact absurd List.nodup_nil hnd
  | cons x rest ih =>
    rcases List.pairwise_cons.mp hs with ⟨hx, hrest⟩
    by_cases hmem : x ∈ rest
    · rcases rest with _ | ⟨y, rest2⟩
      · cases hmem
      · by_cases hxy : x = y
        · exact ⟨[], x, rest2, by rw [hxy]; rfl⟩
        · rcases List.mem_cons.mp hmem with h1 | h2
          · exact absurd h1 hxy
          · have hy : y ≤ x := (List.pairwise_cons.mp hrest).1 x h2
            have hx' : x ≤ y := hx y (List.mem_cons_self y rest2)
            exact absurd (Nat.le_antisymm hx' hy) hxy
    · have hnd2 : ¬ rest.Nodup := fun h => hnd (List.nodup_cons.mpr ⟨hmem, h⟩)
      rcases ih hrest hnd2 with ⟨t1, c, t2, heq⟩
      exact ⟨x :: t1, c, t2, by rw [heq]; rfl⟩

theorem editCol_within (cid : ComponentTypeID) (f : Column → Column)
    (cs1 tail : List (ComponentTypeID × Column)) (h : cid ∈ cs1.map Prod.fst) :
    editCol cid f (cs1 ++ tail) = editCol cid f cs1 ++ tail := by
  induction cs1 with
  | nil => cases h
  | cons du rest ih =>
    by_cases hd : du.1 = cid
    · show editCol cid f (du :: (rest ++ tail)) = _
      rw [editCol, editCol]
      simp [hd]
    · have h2 : cid ∈ rest.map Prod.fst := by
        rw [List.map_cons] at h
        rcases List.mem_cons.mp h with h1 | h1
        · exact absurd h1.symm hd
        · exact h1
      show editCol cid f (du :: (rest ++ tail)) = _
      rw [editCol, editCol]
      simp [hd, ih h2]

theorem editCol_keep_entry (cid : ComponentTypeID) (f : Column → Column)
    (c : ComponentTypeID) (u0 : Column) (hne : c ≠ cid)
    (l1 l2 : List (ComponentTypeID × Column)) : ∃ ds1 ds2,
      editCol cid f (l1 ++ (c, u0) :: l2) = ds1 ++ (c, u0) :: ds2 ∧
      ds1.map Prod.fst = l1.map Prod.fst := by
  induction l1 with
  | nil =>
    refine ⟨[], editCol cid f l2, ?_, rfl⟩
    show editCol cid f ((c, u0) :: l2) = [] ++ (c, u0) :: editCol cid f l2
    rw [editCol]
    simp [hne]
  | cons du rest ih =>
    rcases ih with ⟨ds1, ds2, heq, hk⟩
    by_cases hd : du.1 = cid
    · refine ⟨(du.1, f du.2) :: rest, l2, ?_, by simp⟩
      show editCol cid f (du :: (rest ++ (c, u0) :: l2)) = _
      rw [editCol]
      simp [hd]
    · refine ⟨du :: ds1, ds2, ?_, by simp [hk]⟩
      show editCol cid f (du :: (rest ++ (c, u0) :: l2)) = _
      rw [editCol]
      simp [hd, heq]

theorem foldPush_type_set (comps : List (ComponentTypeID × Val)) (a : Archetype) :
    (comps.foldl (fun x cv => x.pushRawInto cv.1 cv.2) a).type_set = a.type_set := by
  induction comps generalizing a with
  | nil => rfl
  | cons cv rest ih =>
    rw [List.foldl_cons, ih]
    rfl

theorem foldPush_entities (comps : List (ComponentTypeID × Val)) (a : Archetype) :
    (comps.foldl (fun x cv => x.pushRawInto cv.1 cv.2) a).entities = a.entities := by
  induction comps generalizing a with
  | nil => rfl
  | cons cv rest ih =>
    rw [List.foldl_cons, ih]
    rfl

theorem foldPush_columns (comps : List (ComponentTypeID × Val)) (a : Archetype) :
    (comps.foldl (fun x cv => x.pushRawInto cv.1 cv.2) a).columns
      = comps.foldl (fun cs cv => pushCol cv.1 cv.2 cs) a.columns := by
  induction comps generalizing a with
  | nil => rfl
  | cons cv rest ih =>
    rw [List.foldl_cons, List.foldl_cons, ih]
    rfl

theorem foldPushCol_keys (comps : List (ComponentTypeID × Val))
    (cs : List (ComponentTypeID × Column)) :
    (comps.foldl (fun cs cv => pushCol cv.1 cv.2 cs) cs).map Prod.fst
      = cs.map Prod.fst := by
  induction comps generalizing cs with
  | nil => rfl
  | cons cv rest ih =>
    rw [List.foldl_cons, ih, pushCol, editCol_keys]

theorem foldPushCol_dup (comps : List (ComponentTypeID × Val))
    (cs : List (ComponentTypeID × Column)) (c : ComponentTypeID)
    (h : ∃ cs1 cs2, cs = cs1 ++ (c, []) :: cs2 ∧ c ∈ cs1.map Prod.fst) :
    ∃ ds1 ds2, comps.foldl (fun cs cv => pushCol cv.1 cv.2 cs) cs
        = ds1 ++ (c, []) :: ds2 ∧ c ∈ ds1.map Prod.fst := by
  induction comps generalizing cs with
  | nil => exact h
  | cons cv rest ih =>
    rw [List.foldl_cons]
    apply ih
    rcases h with ⟨cs1, cs2, hcs, hc⟩
    subst hcs
    by_cases hcv : cv.1 = c
    · have hin : cv.1 ∈ cs1.map Prod.fst := by rw [hcv]; exact hc
      refine ⟨editCol cv.1 (fun vs => vs ++ [cv.2]) cs1, cs2, ?_, ?_⟩
      · rw [pushCol]
        exact editCol_within _ _ _ _ hin
      · rw [editCol_keys]
        exact hc
    · rcases editCol_keep_entry cv.1 (fun vs => vs ++ [cv.2]) c []
        (fun hh => hcv hh.symm) cs1 cs2 with ⟨ds1, ds2, heq, hk⟩
      refine ⟨ds1, ds2, ?_, by rw [hk]; exact hc⟩
      rw [pushCol]
      exact heq

theorem foldl_updateArch (ts : List ComponentTypeID)
    (comps : List (ComponentTypeID × Val)) (w : World) :
    comps.foldl (fun wa cv => wa.updateArch ts (fun a => a.pushRawInto cv.1 cv.2)) w
      = w.updateArch ts
          (fun a => comps.foldl (fun x cv => x.pushRawInto cv.1 cv.2) a) := by
  induction comps generalizing w with
  | nil =>
    show w = w.updateArch ts (fun a => a)
    rw [World.updateArch]
    simp
  | cons cv rest ih =>
    rw [List.foldl_cons, ih,
      updateArch_compose _ ts _ (fun a => a.pushRawInto cv.1 cv.2) (fun x _ => rfl)]
    rfl

/-! ### create_with preserves the invariant -/

theorem WF_create_with {w w' : World} {comps : List (ComponentTypeID × Val)}
    {e : Entity} (hWF : w.WFb = true)
    (hc : w.create_with comps = some (w', e)) : w'.WFb = true := by
  rw [World.create_with] at hc
  by_cases hit : w.iterating ≠ 0
  · rw [if_pos hit] at hc
    cases hc
  rw [if_neg hit] at hc
  simp only [] at hc
  generalize hTS : sortIds (comps.map Prod.fst) = ts0 at hc
  generalize hP : (w.getOrCreateArchetype ts0).allocIndex = P at hc
  split at hc
  swap
  · cases hc
  rename_i hpar
  rw [Option.some.injEq, Prod.mk.injEq] at hc
  rcases hc with ⟨hW, hE⟩
  rw [← hW, fireAddFold_eq, WFb_withEvents]
  have hFts : ∀ x : Archetype, x.type_set = ts0 →
      (comps.foldl (fun y cv => y.pushRawInto cv.1 cv.2)
        (x.pushEntity ⟨P.2, P.1.genOf P.2⟩)).type_set = x.type_set := by
    intro x _
    rw [foldPush_type_set]
    rfl
  by_cases hdup : (comps.map Prod.fst).Nodup
  · have hAsc : strictAsc ts0 = true := by
      rw [← hTS]
      exact sortIds_strictAsc _ hdup
    have hWFw1 : (w.getOrCreateArchetype ts0).WFb = true := WF_getOrCreate hWF hAsc
    have hB := WF_allocIndex hWFw1
    rw [hP] at hB
    rcases hB with ⟨hWF1, hlen1, hnone1, hfree1, hpos1, harchs1⟩
    obtain ⟨a1, hfind1⟩ : ∃ a1,
        (w.getOrCreateArchetype ts0).findArchetype ts0 = some a1 :=
      ⟨_, findArchetype_getOrCreate_self _ _⟩
    have hfindu : P.1.findArchetype ts0 = some a1 := by
      rw [World.findArchetype, harchs1]
      exact hfind1
    have hfW4 : (P.1.updateArch ts0 (fun x =>
        comps.foldl (fun y cv => y.pushRawInto cv.1 cv.2)
          (x.pushEntity ⟨P.2, P.1.genOf P.2⟩))).findArchetype ts0
        = some (comps.foldl (fun y cv => y.pushRawInto cv.1 cv.2)
            (a1.pushEntity ⟨P.2, P.1.genOf P.2⟩)) :=
      findArchetype_updateArch_self _ hFts hfindu
    have hpar2 : ∀ cv ∈ (comps.foldl (fun y cv => y.pushRawInto cv.1 cv.2)
        (a1.pushEntity ⟨P.2, P.1.genOf P.2⟩)).columns,
        (cv.2.length == (comps.foldl (fun y cv => y.pushRawInto cv.1 cv.2)
          (a1.pushEntity ⟨P.2, P.1.genOf P.2⟩)).entities.length) = true := by
      rw [foldl_updateArch, updateArch_compose _ ts0 _
        (fun a => a.pushEntity ⟨P.2, P.1.genOf P.2⟩) (fun x _ => rfl),
        archetypeGet_eq hfW4, Archetype.parity, List.all_eq_true] at hpar
      exact hpar
    rw [foldl_updateArch, updateArch_compose _ ts0 _
      (fun a => a.pushEntity ⟨P.2, P.1.genOf P.2⟩) (fun x _ => rfl),
      archetypeGet_eq hfindu]
    refine WF_newRow hWF1 hfindu hlen1 hnone1 hfree1 hpos1 hFts ?_ ?_ ?_
    · rw [foldPush_columns, foldPushCol_keys]
      rfl
    · rw [foldPush_entities]
      rfl
    · intro cv hcv
      have h1 := hpar2 cv hcv
      rw [beq_iff_eq, foldPush_entities] at h1
      rw [h1]
      show (a1.entities ++ [(⟨P.2, P.1.genOf P.2⟩ : Entity)]).length
        = a1.entities.length + 1
      rw [List.length_append, List.length_singleton]
  · exfalso
    have hnods : ¬ ts0.Nodup := by
      rw [← hTS]
      exact fun h => hdup ((sortIds_perm _).nodup_iff.mp h)
    have hsorted : ts0.Pairwise (· ≤ ·) := by
      rw [← hTS]
      exact sortIds_sorted _
    rcases sorted_dup_adjacent ts0 hsorted hnods with ⟨t1, c, t2, hsplit⟩
    have hfnone : w.findArchetype ts0 = none := by
      rcases hf : w.findArchetype ts0 with _ | b
      · rfl
      · rcases findArchetype_some hf with ⟨hbmem, hbts⟩
        have hasc := (WF_arch_parts hWF hbmem).2.1
        rw [hbts] at hasc
        exact absurd (strictAsc_nodup _ hasc) hnods
    have h0 := findArchetype_getOrCreate_self w ts0
    rw [hfnone] at h0
    have harchsP : P.1.archetypes = (w.getOrCreateArchetype ts0).archetypes := by
      rcases hfl : (w.getOrCreateArchetype ts0).free_list with _ | ⟨x, xs⟩
      · rw [← hP, allocIndex_nil hfl]
      · rw [← hP, allocIndex_cons hfl]
    have hfindu : P.1.findArchetype ts0
        = some ⟨ts0, ts0.map (fun d => (d, [])), []⟩ := by
      rw [World.findArchetype, harchsP]
      exact h0
    have hfW4 : (P.1.updateArch ts0 (fun x =>
        comps.foldl (fun y cv => y.pushRawInto cv.1 cv.2)
          (x.pushEntity ⟨P.2, P.1.genOf P.2⟩))).findArchetype ts0
        = some (comps.foldl (fun y cv => y.pushRawInto cv.1 cv.2)
            ((⟨ts0, ts0.map (fun d => (d, [])), []⟩ : Archetype).pushEntity
              ⟨P.2, P.1.genOf P.2⟩)) :=
      findArchetype_updateArch_self _ hFts hfindu
    rw [foldl_updateArch, updateArch_compose _ ts0 _
      (fun a => a.pushEntity ⟨P.2, P.1.genOf P.2⟩) (fun x _ => rfl),
      archetypeGet_eq hfW4, Archetype.parity, List.all_eq_true] at hpar
    have hinit : ∃ cs1 cs2,
        ((⟨ts0, ts0.map (fun d => (d, [])), []⟩ : Archetype).pushEntity
            ⟨P.2, P.1.genOf P.2⟩).columns = cs1 ++ (c, []) :: cs2 ∧
          c ∈ cs1.map Prod.fst := by
      refine ⟨t1.map (fun d => (d, [])) ++ [(c, [])], t2.map (fun d => (d, [])),
        ?_, ?_⟩
      · show ts0.map (fun d => (d, [])) = _
        rw [hsplit]
        simp
      · simp
    rcases foldPushCol_dup comps _ c hinit with ⟨ds1, ds2, hres, hk⟩
    have hmem : ((c, []) : ComponentTypeID × Column) ∈
        (comps.foldl (fun y cv => y.pushRawInto cv.1 cv.2)
          ((⟨ts0, ts0.map (fun d => (d, [])), []⟩ : Archetype).pushEntity
            ⟨P.2, P.1.genOf P.2⟩)).columns := by
      rw [foldPush_columns, hres]
      exact List.mem_append_right _ (List.mem_cons_self _ _)
    have h1 := hpar _ hmem
    simp [foldPush_entities, Archetype.pushEntity] at h1

/-! ### Migration core (swapped case)

Abstract form of the world produced by migrate_entity plus the caller's
destination pushes, when the removed source row was not last: the destination
archetype becomes G na (gaining exactly the row of e), the source archetype
swap-removes the old row (the last entity s moves into it), the record of s
is fixed, and the record of e is repointed.  All facts about the new world W
are taken as characterization hypotheses, so the callers discharge them by
unfolding their concrete update chains. -/

theorem WF_transfer_core {u W : World} {e s : Entity} {ts newTs : List ComponentTypeID}
    {a na : Archetype} {row : Nat} {G : Archetype → Archetype}
    (hWF : u.WFb = true)
    (hgen : u.genOf e.index = e.generation)
    (hrec : u.recordOf e.index = ⟨some ts, row⟩)
    (hfindO : u.findArchetype ts = some a)
    (hfindN : u.findArchetype newTs = some na)
    (hne : newTs ≠ ts)
    (hGts : ∀ x, x.type_set = newTs → (G x).type_set = x.type_set)
    (hGkeys : (G na).columns.map Prod.fst = na.columns.map Prod.fst)
    (hGents : (G na).entities = na.entities ++ [e])
    (hGpar : ∀ cv ∈ (G na).columns, cv.2.length = na.entities.length + 1)
    (hs : s = a.entities.getD (a.entities.length - 1) INVALID_ENTITY)
    (hsw : row + 1 < a.entities.length)
    (hWrec_e : W.recordOf e.index = ⟨some newTs, na.entities.length⟩)
    (hWrec_s : W.recordOf s.index = ⟨some ts, row⟩)
    (hWrec_x : ∀ j, j ≠ e.index → j ≠ s.index → W.recordOf j = u.recordOf j)
    (hWfindN : W.findArchetype newTs = some (G na))
    (hWfindO : W.findArchetype ts = some (a.swapRemove row).1)
    (hWfindX : ∀ ts2, ts2 ≠ ts → ts2 ≠ newTs →
      W.findArchetype ts2 = u.findArchetype ts2)
    (hWgen : ∀ j, W.genOf j = u.genOf j)
    (hWfree : W.free_list = u.free_list)
    (hWlen : W.records.length = u.records.length)
    (hWglen : W.generations.length = u.generations.length)
    (hWarchs : W.archetypes =
      (u.archetypes.map (fun x => if x.type_set == newTs then G x else x)).map
        (fun x => if x.type_set == ts then (a.swapRemove row).1 else x)) :
    W.WFb = true := by
  have hidx : e.index < u.records.length := by
    by_contra hcon
    push_neg at hcon
    rw [World.recordOf, getD_oob _ _ _ hcon] at hrec
    have := congrArg EntityRecord.archetype hrec
    simp [nilRecord] at this
  rcases (WFb_iff u).mp hWF with ⟨hlen, hrecA, harch, hnd, hfree, hfnd, hg0, hr0, hf0⟩
  have hrts : (u.recordOf e.index).archetype = some ts := by rw [hrec]
  rcases recOKb_live (hrecA e.index hidx) hrts with ⟨a', hfa', hrowlt, hent⟩
  have haa : a' = a := by
    rw [hfa'] at hfindO
    exact Option.some.inj hfindO
  subst haa
  have hfindO : u.findArchetype ts = some a' := hfa'
  have hrrow : (u.recordOf e.index).row = row := by rw [hrec]
  rw [hrrow] at hrowlt hent
  have heee : a'.entities.getD row INVALID_ENTITY = e := by
    rw [hent, hgen]
  rcases findArchetype_some hfindO with ⟨hamem, hats⟩
  rcases findArchetype_some hfindN with ⟨hnamem, hnats⟩
  have hGae : (G na).entities.length = na.entities.length + 1 := by
    rw [hGents, List.length_append, List.length_singleton]
  have hGnats : (G na).type_set = newTs := by rw [hGts na hnats, hnats]
  have hipos : 0 < e.index := by
    have := WF_stored_index_pos hWF hamem hrowlt
    rwa [heee] at this
  have hprts : ∀ x : Archetype, x.type_set = ts →
      ((a'.swapRemove row).1).type_set = x.type_set := by
    intro x hx
    rw [swapRemove_type_set, hats, hx]
  have hn1 : a'.entities.length - 1 < a'.entities.length := by omega
  rcases WF_arch_row hWF hamem hn1 with ⟨hsidx, hsrec0, hsgen⟩
  rw [hats] at hsrec0
  rw [← hs] at hsrec0 hsidx hsgen
  have hspos : 0 < s.index := by
    have := WF_stored_index_pos hWF hamem hn1
    rwa [← hs] at this
  apply (WFb_iff _).mpr
  refine ⟨?_, ?_, ?_, ?_, ?_, ?_, ?_, ?_, ?_⟩
  · rw [hWlen, hWglen]
    exact hlen
  · intro j hj
    rw [hWlen] at hj
    by_cases hje : j = e.index
    · subst hje
      refine recOKb_some (by simp only [hWrec_e]) hWfindN ?_ ?_
      · simp only [hWrec_e, hGae]
        omega
      · simp only [hWrec_e]
        rw [hGents, getD_append_len, hWgen, hgen]
    · by_cases hjs : j = s.index
      · subst hjs
        refine recOKb_some (by simp only [hWrec_s]) hWfindO ?_ ?_
        · simp only [hWrec_s, swapRemove_entities_length]
          omega
        · simp only [hWrec_s]
          rw [hs, swapRemove_entities_getD_row _ _ hsw, hWgen, ← hs, hsgen, hs]
      · rcases harchj : (u.recordOf j).archetype with _ | ts2
        · exact recOKb_none (by rw [hWrec_x j hje hjs, harchj])
        · rcases recOKb_live (hrecA j hj) harchj with ⟨b, hfindb, hrowb, hentb⟩
          by_cases hts2 : ts2 = ts
          · rw [hts2] at harchj hfindb
            rw [hfindO] at hfindb
            injection hfindb with hba
            subst b
            have hne_row : (u.recordOf j).row ≠ row := by
              intro heq
              apply hje
              have h1 : (⟨j, u.genOf j⟩ : Entity) = e := by
                rw [← hentb, heq, heee]
              exact congrArg Entity.index h1
            have hne_last : (u.recordOf j).row ≠ a'.entities.length - 1 := by
              intro heq
              apply hjs
              have h1 : (⟨j, u.genOf j⟩ : Entity) =
                  a'.entities.getD (a'.entities.length - 1) INVALID_ENTITY := by
                rw [← hentb, heq]
              rw [hs]
              exact congrArg Entity.index h1
            have hrow2 : (u.recordOf j).row < a'.entities.length - 1 := by omega
            refine recOKb_some (by rw [hWrec_x j hje hjs]; exact harchj)
              hWfindO ?_ ?_
            · rw [hWrec_x j hje hjs, swapRemove_entities_length]
              exact hrow2
            · rw [hWrec_x j hje hjs,
                swapRemove_entities_getD_ne _ _ _ hrow2 hne_row, hentb, hWgen]
          · by_cases htsN : ts2 = newTs
            · rw [htsN] at harchj hfindb
              rw [hfindN] at hfindb
              injection hfindb with hbna
              subst b
              refine recOKb_some (by rw [hWrec_x j hje hjs]; exact harchj)
                hWfindN ?_ ?_
              · rw [hWrec_x j hje hjs, hGae]
                omega
              · rw [hWrec_x j hje hjs, hGents,
                  getD_append_lt _ _ _ _ hrowb, hentb, hWgen]
            · refine recOKb_some (by rw [hWrec_x j hje hjs]; exact harchj)
                (by rw [hWfindX ts2 hts2 htsN]; exact hfindb) ?_ ?_
              · rw [hWrec_x j hje hjs]
                exact hrowb
              · rw [hWrec_x j hje hjs, hentb, hWgen]
  · intro b' hb'
    rw [hWarchs] at hb'
    rcases List.mem_map.mp hb' with ⟨y, hy, hyeq⟩
    rcases List.mem_map.mp hy with ⟨b, hbmem, hbeq⟩
    by_cases hbN : b.type_set = newTs
    · have hbna : na = b := (List.inj_on_of_nodup_map hnd hbmem hnamem
        (by rw [hbN, hnats])).symm
      subst hbna
      rw [if_pos (by simp [hbN])] at hbeq
      subst hbeq
      rw [if_neg (by simp [hGnats]; exact hne)] at hyeq
      subst hyeq
      apply (archOKb_iff _ _).mpr
      refine ⟨?_, ?_, ?_, ?_⟩
      · rw [hGkeys, hGnats, ← hnats]
        exact (WF_arch_parts hWF hnamem).1
      · rw [hGnats, ← hnats]
        exact (WF_arch_parts hWF hnamem).2.1
      · intro cv hcv
        rw [hGae]
        exact hGpar cv hcv
      · intro r hrlt
        rw [hGae] at hrlt
        rcases Nat.lt_or_ge r na.entities.length with hlt | hge
        · have hEgd : (G na).entities.getD r INVALID_ENTITY
              = na.entities.getD r INVALID_ENTITY := by
            rw [hGents]
            exact getD_append_lt _ _ _ _ hlt
          rcases WF_arch_row hWF hnamem hlt with ⟨hjlen, hjrec, hjgen⟩
          rw [hnats] at hjrec
          have hjne : (na.entities.getD r INVALID_ENTITY).index ≠ e.index := by
            intro heq
            rw [heq, hrec] at hjrec
            have h2 := congrArg EntityRecord.archetype hjrec
            simp at h2
            exact hne h2.symm
          have hjns : (na.entities.getD r INVALID_ENTITY).index ≠ s.index := by
            intro heq
            rw [heq, hsrec0] at hjrec
            have h2 := congrArg EntityRecord.archetype hjrec
            simp at h2
            exact hne h2.symm
          refine ⟨?_, ?_, ?_⟩
          · rw [hEgd, hWlen]
            exact hjlen
          · rw [hEgd, hWrec_x _ hjne hjns, hjrec, hGnats]
          · rw [hEgd, hWgen]
            exact hjgen
        · have hreq : r = na.entities.length := by omega
          subst hreq
          have hEgd : (G na).entities.getD na.entities.length INVALID_ENTITY = e := by
            rw [hGents]
            exact getD_append_len _ _ _
          refine ⟨?_, ?_, ?_⟩
          · rw [hEgd, hWlen]
            exact hidx
          · rw [hEgd, hWrec_e, hGnats]
          · rw [hEgd, hWgen]
            exact hgen
    · by_cases hbts : b.type_set = ts
      · have hba : a' = b := (List.inj_on_of_nodup_map hnd hbmem hamem
          (by rw [hbts, hats])).symm
        subst hba
        rw [if_neg (by simp [hbN])] at hbeq
        subst hbeq
        rw [if_pos (by simp [hbts])] at hyeq
        subst hyeq
        apply (archOKb_iff _ _).mpr
        refine ⟨?_, ?_, ?_, ?_⟩
        · rw [swapRemove_columns,
            map_fst_of_keyfix (fun cv => (cv.1, colSwapRemove cv.2 row))
              (fun cv => rfl), swapRemove_type_set]
          exact (WF_arch_parts hWF hbmem).1
        · rw [swapRemove_type_set]
          exact (WF_arch_parts hWF hbmem).2.1
        · intro cv hcv
          rw [swapRemove_columns] at hcv
          rcases List.mem_map.mp hcv with ⟨cv0, hcv0, hcveq⟩
          rw [← hcveq]
          show (colSwapRemove cv0.2 _).length = _
          rw [colSwapRemove_length, swapRemove_entities_length,
            (WF_arch_parts hWF hbmem).2.2 cv0 hcv0]
        · intro r hrlt
          rw [swapRemove_entities_length] at hrlt
          by_cases hr_row : r = row
          · subst hr_row
            rw [swapRemove_entities_getD_row _ _ hsw, ← hs]
            refine ⟨?_, ?_, ?_⟩
            · rw [hWlen]
              exact hsidx
            · simp only [hWrec_s, swapRemove_type_set, hats]
            · rw [hWgen]
              exact hsgen
          · rw [swapRemove_entities_getD_ne _ _ _ hrlt hr_row]
            have hrn : r < a'.entities.length := by omega
            rcases WF_arch_row hWF hbmem hrn with ⟨hjlen, hjrec, hjgen⟩
            have hjne : (a'.entities.getD r INVALID_ENTITY).index ≠ e.index := by
              intro heq
              have hx : (a'.entities.getD r INVALID_ENTITY).index =
                  (a'.entities.getD row INVALID_ENTITY).index := by
                rw [heee, heq]
              exact hr_row (WF_index_unique hWF hbmem hbmem hrn hrowlt hx).2
            have hjns : (a'.entities.getD r INVALID_ENTITY).index ≠ s.index := by
              intro heq
              rw [hs] at heq
              have := (WF_index_unique hWF hbmem hbmem hrn hn1 heq).2
              omega
            refine ⟨?_, ?_, ?_⟩
            · rw [hWlen]
              exact hjlen
            · rw [hWrec_x _ hjne hjns, swapRemove_type_set]
              rw [hats] at hjrec ⊢
              exact hjrec
            · rw [hWgen]
              exact hjgen
      · rw [if_neg (by simp [hbN])] at hbeq
        subst hbeq
        rw [if_neg (by simp [hbts])] at hyeq
        subst hyeq
        rcases (archOKb_iff u b).mp (harch b hbmem) with ⟨hk, hA, hp, hrows⟩
        apply (archOKb_iff _ _).mpr
        refine ⟨hk, hA, hp, ?_⟩
        intro r hrlt
        rcases hrows r hrlt with ⟨hjlen, hjrec, hjgen⟩
        have hjne : (b.entities.getD r INVALID_ENTITY).index ≠ e.index := by
          intro heq
          rw [heq, hrec] at hjrec
          have h2 := congrArg EntityRecord.archetype hjrec
          simp at h2
          exact hbts h2.symm
        have hjns : (b.entities.getD r INVALID_ENTITY).index ≠ s.index := by
          intro heq
          rw [heq, hsrec0] at hjrec
          have h2 := congrArg EntityRecord.archetype hjrec
          simp at h2
          exact hbts h2.symm
        refine ⟨?_, ?_, ?_⟩
        · rw [hWlen]
          exact hjlen
        · rw [hWrec_x _ hjne hjns]
          exact hjrec
        · rw [hWgen]
          exact hjgen
  · rw [hWarchs, map_typeset_update _ _ _ hprts, map_typeset_update _ _ _ hGts]
    exact hnd
  · intro i hi
    rw [hWfree] at hi
    rcases (freeOKb_iff u i).mp (hfree i hi) with ⟨h1, h2⟩
    have hie : i ≠ e.index := by
      intro hh
      rw [hh, hrts] at h2
      cases h2
    have his : i ≠ s.index := by
      intro hh
      rw [hh, hsrec0] at h2
      simp at h2
    apply (freeOKb_iff _ _).mpr
    exact ⟨by rw [hWlen]; exact h1, by rw [hWrec_x i hie his]; exact h2⟩
  · rw [hWfree]
    exact hfnd
  · rw [hWgen]
    exact hg0
  · rw [hWrec_x 0 (by omega) (by omega)]
    exact hr0
  · rw [hWfree]
    exact hf0

/-! ### Migration core (last-row case): the removed source row was last -/

theorem WF_transfer_core_last {u W : World} {e : Entity}
    {ts newTs : List ComponentTypeID}
    {a na : Archetype} {row : Nat} {G : Archetype → Archetype}
    (hWF : u.WFb = true)
    (hgen : u.genOf e.index = e.generation)
    (hrec : u.recordOf e.index = ⟨some ts, row⟩)
    (hfindO : u.findArchetype ts = some a)
    (hfindN : u.findArchetype newTs = some na)
    (hne : newTs ≠ ts)
    (hGts : ∀ x, x.type_set = newTs → (G x).type_set = x.type_set)
    (hGkeys : (G na).columns.map Prod.fst = na.columns.map Prod.fst)
    (hGents : (G na).entities = na.entities ++ [e])
    (hGpar : ∀ cv ∈ (G na).columns, cv.2.length = na.entities.length + 1)
    (hlast : ¬ (row + 1 < a.entities.length))
    (hWrec_e : W.recordOf e.index = ⟨some newTs, na.entities.length⟩)
    (hWrec_x : ∀ j, j ≠ e.index → W.recordOf j = u.recordOf j)
    (hWfindN : W.findArchetype newTs = some (G na))
    (hWfindO : W.findArchetype ts = some (a.swapRemove row).1)
    (hWfindX : ∀ ts2, ts2 ≠ ts → ts2 ≠ newTs →
      W.findArchetype ts2 = u.findArchetype ts2)
    (hWgen : ∀ j, W.genOf j = u.genOf j)
    (hWfree : W.free_list = u.free_list)
    (hWlen : W.records.length = u.records.length)
    (hWglen : W.generations.length = u.generations.length)
    (hWarchs : W.archetypes =
      (u.archetypes.map (fun x => if x.type_set == newTs then G x else x)).map
        (fun x => if x.type_set == ts then (a.swapRemove row).1 else x)) :
    W.WFb = true := by
  have hidx : e.index < u.records.length := by
    by_contra hcon
    push_neg at hcon
    rw [World.recordOf, getD_oob _ _ _ hcon] at hrec
    have := congrArg EntityRecord.archetype hrec
    simp [nilRecord] at this
  rcases (WFb_iff u).mp hWF with ⟨hlen, hrecA, harch, hnd, hfree, hfnd, hg0, hr0, hf0⟩
  have hrts : (u.recordOf e.index).archetype = some ts := by rw [hrec]
  rcases recOKb_live (hrecA e.index hidx) hrts with ⟨a', hfa', hrowlt, hent⟩
  have haa : a' = a := by
    rw [hfa'] at hfindO
    exact Option.some.inj hfindO
  subst haa
  have hfindO : u.findArchetype ts = some a' := hfa'
  have hrrow : (u.recordOf e.index).row = row := by rw [hrec]
  rw [hrrow] at hrowlt hent
  have heee : a'.entities.getD row INVALID_ENTITY = e := by
    rw [hent, hgen]
  rcases findArchetype_some hfindO with ⟨hamem, hats⟩
  rcases findArchetype_some hfindN with ⟨hnamem, hnats⟩
  have hGae : (G na).entities.length = na.entities.length + 1 := by
    rw [hGents, List.length_append, List.length_singleton]
  have hGnats : (G na).type_set = newTs := by rw [hGts na hnats, hnats]
  have hipos : 0 < e.index := by
    have := WF_stored_index_pos hWF hamem hrowlt
    rwa [heee] at this
  have hprts : ∀ x : Archetype, x.type_set = ts →
      ((a'.swapRemove row).1).type_set = x.type_set := by
    intro x hx
    rw [swapRemove_type_set, hats, hx]
  have hrowlast : row = a'.entities.length - 1 := by omega
  apply (WFb_iff _).mpr
  refine ⟨?_, ?_, ?_, ?_, ?_, ?_, ?_, ?_, ?_⟩
  · rw [hWlen, hWglen]
    exact hlen
  · intro j hj
    rw [hWlen] at hj
    by_cases hje : j = e.index
    · subst hje
      refine recOKb_some (by simp only [hWrec_e]) hWfindN ?_ ?_
      · simp only [hWrec_e, hGae]
        omega
      · simp only [hWrec_e]
        rw [hGents, getD_append_len, hWgen, hgen]
    · rcases harchj : (u.recordOf j).archetype with _ | ts2
      · exact recOKb_none (by rw [hWrec_x j hje, harchj])
      · rcases recOKb_live (hrecA j hj) harchj with ⟨b, hfindb, hrowb, hentb⟩
        by_cases hts2 : ts2 = ts
        · rw [hts2] at harchj hfindb
          rw [hfindO] at hfindb
          injection hfindb with hba
          subst hba
          have hne_row : (u.recordOf j).row ≠ row := by
            intro heq
            apply hje
            have h1 : (⟨j, u.genOf j⟩ : Entity) = e := by
              rw [← hentb, heq, heee]
            exact congrArg Entity.index h1
          have hrow2 : (u.recordOf j).row < a'.entities.length - 1 := by omega
          refine recOKb_some (by rw [hWrec_x j hje]; exact harchj)
            hWfindO ?_ ?_
          · rw [hWrec_x j hje, swapRemove_entities_length]
            exact hrow2
          · rw [hWrec_x j hje,
              swapRemove_entities_getD_ne _ _ _ hrow2 hne_row, hentb, hWgen]
        · by_cases htsN : ts2 = newTs
          · rw [htsN] at harchj hfindb
            rw [hfindN] at hfindb
            injection hfindb with hbna
            subst b
            refine recOKb_some (by rw [hWrec_x j hje]; exact harchj)
              hWfindN ?_ ?_
            · rw [hWrec_x j hje, hGae]
              omega
            · rw [hWrec_x j hje, hGents,
                getD_append_lt _ _ _ _ hrowb, hentb, hWgen]
          · refine recOKb_some (by rw [hWrec_x j hje]; exact harchj)
              (by rw [hWfindX ts2 hts2 htsN]; exact hfindb) ?_ ?_
            · rw [hWrec_x j hje]
              exact hrowb
            · rw [hWrec_x j hje, hentb, hWgen]
  · intro b' hb'
    rw [hWarchs] at hb'
    rcases List.mem_map.mp hb' with ⟨y, hy, hyeq⟩
    rcases List.mem_map.mp hy with ⟨b, hbmem, hbeq⟩
    by_cases hbN : b.type_set = newTs
    · have hbna : na = b := (List.inj_on_of_nodup_map hnd hbmem hnamem
        (by rw [hbN, hnats])).symm
      subst hbna
      rw [if_pos (by simp [hbN])] at hbeq
      subst hbeq
      rw [if_neg (by simp [hGnats]; exact hne)] at hyeq
      subst hyeq
      apply (archOKb_iff _ _).mpr
      refine ⟨?_, ?_, ?_, ?_⟩
      · rw [hGkeys, hGnats, ← hnats]
        exact (WF_arch_parts hWF hnamem).1
      · rw [hGnats, ← hnats]
        exact (WF_arch_parts hWF hnamem).2.1
      · intro cv hcv
        rw [hGae]
        exact hGpar cv hcv
      · intro r hrlt
        rw [hGae] at hrlt
        rcases Nat.lt_or_ge r na.entities.length with hlt | hge
        · have hEgd : (G na).entities.getD r INVALID_ENTITY
              = na.entities.getD r INVALID_ENTITY := by
            rw [hGents]
            exact getD_append_lt _ _ _ _ hlt
          rcases WF_arch_row hWF hnamem hlt with ⟨hjlen, hjrec, hjgen⟩
          rw [hnats] at hjrec
          have hjne : (na.entities.getD r INVALID_ENTITY).index ≠ e.index := by
            intro heq
            rw [heq, hrec] at hjrec
            have h2 := congrArg EntityRecord.archetype hjrec
            simp at h2
            exact hne h2.symm
          refine ⟨?_, ?_, ?_⟩
          · rw [hEgd, hWlen]
            exact hjlen
          · rw [hEgd, hWrec_x _ hjne, hjrec, hGnats]
          · rw [hEgd, hWgen]
            exact hjgen
        · have hreq : r = na.entities.length := by omega
          subst hreq
          have hEgd : (G na).entities.getD na.entities.length INVALID_ENTITY = e := by
            rw [hGents]
            exact getD_append_len _ _ _
          refine ⟨?_, ?_, ?_⟩
          · rw [hEgd, hWlen]
            exact hidx
          · rw [hEgd, hWrec_e, hGnats]
          · rw [hEgd, hWgen]
            exact hgen
    · by_cases hbts : b.type_set = ts
      · have hba : a' = b := (List.inj_on_of_nodup_map hnd hbmem hamem
          (by rw [hbts, hats])).symm
        subst hba
        rw [if_neg (by simp [hbN])] at hbeq
        subst hbeq
        rw [if_pos (by simp [hbts])] at hyeq
        subst hyeq
        apply (archOKb_iff _ _).mpr
        refine ⟨?_, ?_, ?_, ?_⟩
        · rw [swapRemove_columns,
            map_fst_of_keyfix (fun cv => (cv.1, colSwapRemove cv.2 row))
              (fun cv => rfl), swapRemove_type_set]
          exact (WF_arch_parts hWF hbmem).1
        · rw [swapRemove_type_set]
          exact (WF_arch_parts hWF hbmem).2.1
        · intro cv hcv
          rw [swapRemove_columns] at hcv
          rcases List.mem_map.mp hcv with ⟨cv0, hcv0, hcveq⟩
          rw [← hcveq]
          show (colSwapRemove cv0.2 _).length = _
          rw [colSwapRemove_length, swapRemove_entities_length,
            (WF_arch_parts hWF hbmem).2.2 cv0 hcv0]
        · intro r hrlt
          rw [swapRemove_entities_length] at hrlt
          have hr_row : r ≠ row := by omega
          rw [swapRemove_entities_getD_ne _ _ _ hrlt hr_row]
          have hrn : r < a'.entities.length := by omega
          rcases WF_arch_row hWF hbmem hrn with ⟨hjlen, hjrec, hjgen⟩
          have hjne : (a'.entities.getD r INVALID_ENTITY).index ≠ e.index := by
            intro heq
            have hx : (a'.entities.getD r INVALID_ENTITY).index =
                (a'.entities.getD row INVALID_ENTITY).index := by
              rw [heee, heq]
            exact hr_row (WF_index_unique hWF hbmem hbmem hrn hrowlt hx).2
          refine ⟨?_, ?_, ?_⟩
          · rw [hWlen]
            exact hjlen
          · rw [hWrec_x _ hjne, swapRemove_type_set]
            rw [hats] at hjrec ⊢
            exact hjrec
          · rw [hWgen]
            exact hjgen
      · rw [if_neg (by simp [hbN])] at hbeq
        subst hbeq
        rw [if_neg (by simp [hbts])] at hyeq
        subst hyeq
        rcases (archOKb_iff u b).mp (harch b hbmem) with ⟨hk, hA, hp, hrows⟩
        apply (archOKb_iff _ _).mpr
        refine ⟨hk, hA, hp, ?_⟩
        intro r hrlt
        rcases hrows r hrlt with ⟨hjlen, hjrec, hjgen⟩
        have hjne : (b.entities.getD r INVALID_ENTITY).index ≠ e.index := by
          intro heq
          rw [heq, hrec] at hjrec
          have h2 := congrArg EntityRecord.archetype hjrec
          simp at h2
          exact hbts h2.symm
        refine ⟨?_, ?_, ?_⟩
        · rw [hWlen]
          exact hjlen
        · rw [hWrec_x _ hjne]
          exact hjrec
        · rw [hWgen]
          exact hjgen
  · rw [hWarchs, map_typeset_update _ _ _ hprts, map_typeset_update _ _ _ hGts]
    exact hnd
  · intro i hi
    rw [hWfree] at hi
    rcases (freeOKb_iff u i).mp (hfree i hi) with ⟨h1, h2⟩
    have hie : i ≠ e.index := by
      intro hh
      rw [hh, hrts] at h2
      cases h2
    apply (freeOKb_iff _ _).mpr
    exact ⟨by rw [hWlen]; exact h1, by rw [hWrec_x i hie]; exact h2⟩
  · rw [hWfree]
    exact hfnd
  · rw [hWgen]
    exact hg0
  · rw [hWrec_x 0 (by omega)]
    exact hr0
  · rw [hWfree]
    exact hf0

/-! ### Migration wrapper: the concrete update chain of migrate_entity -/

theorem WF_transfer {u : World} {e : Entity} {ts newTs : List ComponentTypeID}
    {a na : Archetype} {row : Nat} {G : Archetype → Archetype}
    (hWF : u.WFb = true)
    (hgen : u.genOf e.index = e.generation)
    (hrec : u.recordOf e.index = ⟨some ts, row⟩)
    (hfindO : u.findArchetype ts = some a)
    (hfindN : u.findArchetype newTs = some na)
    (hne : newTs ≠ ts)
    (hGts : ∀ x, x.type_set = newTs → (G x).type_set = x.type_set)
    (hGkeys : (G na).columns.map Prod.fst = na.columns.map Prod.fst)
    (hGents : (G na).entities = na.entities ++ [e])
    (hGpar : ∀ cv ∈ (G na).columns, cv.2.length = na.entities.length + 1) :
    ((if (a.swapRemove row).2 ≠ INVALID_ENTITY then
        ((u.updateArch newTs G).updateArch ts
            (fun _ => (a.swapRemove row).1)).setRecordRow
          (a.swapRemove row).2.index row
      else
        (u.updateArch newTs G).updateArch ts
          (fun _ => (a.swapRemove row).1)).setRecord e.index
      ⟨some newTs, na.entities.length⟩).WFb = true := by
  have hidx : e.index < u.records.length := by
    by_contra hcon
    push_neg at hcon
    rw [World.recordOf, getD_oob _ _ _ hcon] at hrec
    have := congrArg EntityRecord.archetype hrec
    simp [nilRecord] at this
  rcases (WFb_iff u).mp hWF with ⟨hlen, hrecA, harch, hnd, hfree, hfnd, hg0, hr0, hf0⟩
  have hrts : (u.recordOf e.index).archetype = some ts := by rw [hrec]
  rcases recOKb_live (hrecA e.index hidx) hrts with ⟨a', hfa', hrowlt, hent⟩
  have haa : a = a' := by
    rw [hfa'] at hfindO
    exact (Option.some.inj hfindO).symm
  subst haa
  have hfindO : u.findArchetype ts = some a := hfa'
  have hrrow : (u.recordOf e.index).row = row := by rw [hrec]
  rw [hrrow] at hrowlt hent
  rcases findArchetype_some hfindO with ⟨hamem, hats⟩
  have hprts : ∀ x : Archetype, x.type_set = ts →
      ((a.swapRemove row).1).type_set = x.type_set := by
    intro x hx
    rw [swapRemove_type_set, hats, hx]
  have hA2rec : ∀ j, ((u.updateArch newTs G).updateArch ts
      (fun _ => (a.swapRemove row).1)).recordOf j = u.recordOf j := by
    intro j
    rw [recordOf_updateArch, recordOf_updateArch]
  have hA2recs : ((u.updateArch newTs G).updateArch ts
      (fun _ => (a.swapRemove row).1)).records = u.records := by
    rw [updateArch_records, updateArch_records]
  have hfindA2N : ((u.updateArch newTs G).updateArch ts
      (fun _ => (a.swapRemove row).1)).findArchetype newTs = some (G na) := by
    rw [findArchetype_updateArch_other _ hprts hne]
    exact findArchetype_updateArch_self G hGts hfindN
  have hfindA2O : ((u.updateArch newTs G).updateArch ts
      (fun _ => (a.swapRemove row).1)).findArchetype ts
        = some (a.swapRemove row).1 := by
    have hinner : (u.updateArch newTs G).findArchetype ts = some a := by
      rw [findArchetype_updateArch_other G hGts (fun hh => hne hh.symm)]
      exact hfindO
    exact findArchetype_updateArch_self _ hprts hinner
  have hfindA2X : ∀ ts2, ts2 ≠ ts → ts2 ≠ newTs →
      ((u.updateArch newTs G).updateArch ts
        (fun _ => (a.swapRemove row).1)).findArchetype ts2
          = u.findArchetype ts2 := by
    intro ts2 h1 h2
    rw [findArchetype_updateArch_other _ hprts h1,
      findArchetype_updateArch_other G hGts h2]
  have harchA2 : ((u.updateArch newTs G).updateArch ts
      (fun _ => (a.swapRemove row).1)).archetypes
        = (u.archetypes.map (fun x => if x.type_set == newTs then G x else x)).map
            (fun x => if x.type_set == ts then (a.swapRemove row).1 else x) := by
    rw [updateArch_archetypes, updateArch_archetypes]
  by_cases hsw : row + 1 < a.entities.length
  · have hn1 : a.entities.length - 1 < a.entities.length := by omega
    have hsinv : (a.swapRemove row).2 ≠ INVALID_ENTITY := by
      rw [swapRemove_swapped_lt _ _ hsw]
      exact WF_stored_ne_invalid hWF hamem hn1
    rw [if_pos hsinv, swapRemove_swapped_lt _ _ hsw, World.setRecordRow, hA2rec]
    rcases WF_arch_row hWF hamem hn1 with ⟨hsidx, hsrec0, hsgen⟩
    rw [hats] at hsrec0
    have hsarch : (u.recordOf
        (a.entities.getD (a.entities.length - 1) INVALID_ENTITY).index).archetype
          = some ts := by rw [hsrec0]
    rw [hsarch]
    have hsne : (a.entities.getD (a.entities.length - 1) INVALID_ENTITY).index
        ≠ e.index := by
      intro heq
      have hx : (a.entities.getD row INVALID_ENTITY).index =
          (a.entities.getD (a.entities.length - 1) INVALID_ENTITY).index := by
        rw [hent, heq]
      have := (WF_index_unique hWF hamem hamem hrowlt hn1 hx).2
      omega
    refine WF_transfer_core hWF hgen hrec hfindO hfindN hne hGts hGkeys hGents
      hGpar rfl hsw ?_ ?_ ?_ ?_ ?_ ?_ (fun j => rfl) rfl ?_ rfl ?_
    · exact recordOf_setRecord_self _ _ _
        (by rw [setRecord_records, hA2recs, List.length_set]; exact hidx)
    · rw [recordOf_setRecord_ne _ _ _ _ (fun hh => hsne hh.symm)]
      exact recordOf_setRecord_self _ _ _ (by rw [hA2recs]; exact hsidx)
    · intro j h1 h2
      rw [recordOf_setRecord_ne _ _ _ _ (fun hh => h1 hh.symm),
        recordOf_setRecord_ne _ _ _ _ (fun hh => h2 hh.symm), hA2rec]
    · rw [findArchetype_setRecord, findArchetype_setRecord]
      exact hfindA2N
    · rw [findArchetype_setRecord, findArchetype_setRecord]
      exact hfindA2O
    · intro ts2 h1 h2
      rw [findArchetype_setRecord, findArchetype_setRecord]
      exact hfindA2X ts2 h1 h2
    · rw [setRecord_records, setRecord_records, hA2recs, List.length_set,
        List.length_set]
    · rw [setRecord_archetypes, setRecord_archetypes, harchA2]
  · have hsinv : ¬ ((a.swapRemove row).2 ≠ INVALID_ENTITY) := by
      rw [swapRemove_swapped_last _ _ hsw]
      simp
    rw [if_neg hsinv]
    refine WF_transfer_core_last hWF hgen hrec hfindO hfindN hne hGts hGkeys
      hGents hGpar hsw ?_ ?_ ?_ ?_ ?_ (fun j => rfl) rfl ?_ rfl ?_
    · exact recordOf_setRecord_self _ _ _
        (by rw [hA2recs]; exact hidx)
    · intro j h1
      rw [recordOf_setRecord_ne _ _ _ _ (fun hh => h1 hh.symm), hA2rec]
    · rw [findArchetype_setRecord]
      exact hfindA2N
    · rw [findArchetype_setRecord]
      exact hfindA2O
    · intro ts2 h1 h2
      rw [findArchetype_setRecord]
      exact hfindA2X ts2 h1 h2
    · rw [setRecord_records, hA2recs, List.length_set]
    · rw [setRecord_archetypes, harchA2]

/-! ### add / remove support -/

theorem setRecordRow_updateArch (w : World) (ts : List ComponentTypeID)
    (f : Archetype → Archetype) (j row : Nat) :
    (w.setRecordRow j row).updateArch ts f
      = (w.updateArch ts f).setRecordRow j row := rfl

theorem editCol_mem (cid : ComponentTypeID) (f : Column → Column) :
    ∀ (cs : List (ComponentTypeID × Column)), ∀ cv ∈ editCol cid f cs,
      ∃ cv0 ∈ cs, cv.1 = cv0.1 ∧ (cv.2 = cv0.2 ∨ cv.2 = f cv0.2) := by
  intro cs
  induction cs with
  | nil => intro cv hcv; cases hcv
  | cons du rest ih =>
    intro cv hcv
    rw [editCol] at hcv
    by_cases hd : du.1 = cid
    · rw [if_pos (by simp [hd])] at hcv
      rcases List.mem_cons.mp hcv with h1 | h1
      · exact ⟨du, List.mem_cons_self _ _, by rw [h1], Or.inr (by rw [h1])⟩
      · exact ⟨cv, List.mem_cons_of_mem _ h1, rfl, Or.inl rfl⟩
    · rw [if_neg (by simp [hd])] at hcv
      rcases List.mem_cons.mp hcv with h1 | h1
      · exact ⟨du, List.mem_cons_self _ _, by rw [h1], Or.inl (by rw [h1])⟩
      · rcases ih cv h1 with ⟨cv0, hcv0, hk, hv⟩
        exact ⟨cv0, List.mem_cons_of_mem _ hcv0, hk, hv⟩

/-- In-place archetype surgery (the overwrite path of add / add_raw): the
type set, the column keys, the entity rows and all column lengths are
unchanged, so every invariant survives. -/
theorem WF_updateArch_inplace {w : World} {ts : List ComponentTypeID} {a : Archetype}
    {F : Archetype → Archetype}
    (hWF : w.WFb = true) (hfind : w.findArchetype ts = some a)
    (hFts : ∀ x, x.type_set = ts → (F x).type_set = x.type_set)
    (hFkeys : (F a).columns.map Prod.fst = a.columns.map Prod.fst)
    (hFents : (F a).entities = a.entities)
    (hFlen : ∀ cv ∈ (F a).columns, cv.2.length = a.entities.length) :
    (w.updateArch ts F).WFb = true := by
  rcases findArchetype_some hfind with ⟨hamem, hats⟩
  rcases (WFb_iff w).mp hWF with ⟨hlen, hrecA, harch, hnd, hfree, hfnd, hg0, hr0, hf0⟩
  have hFats : (F a).type_set = ts := by rw [hFts a hats, hats]
  apply (WFb_iff _).mpr
  refine ⟨hlen, ?_, ?_, ?_, ?_, hfnd, hg0, hr0, hf0⟩
  · intro i hi
    rcases hr : (w.recordOf i).archetype with _ | ts2
    · exact recOKb_none (by rw [recordOf_updateArch]; exact hr)
    · rcases recOKb_live (hrecA i hi) hr with ⟨b, hfb, hrowb, hentb⟩
      by_cases hts2 : ts2 = ts
      · subst hts2
        have hba : a = b := by
          rw [hfind] at hfb
          exact Option.some.inj hfb
        subst hba
        refine recOKb_some (by rw [recordOf_updateArch]; exact hr)
          (findArchetype_updateArch_self F hFts hfind) ?_ ?_
        · rw [recordOf_updateArch, hFents]
          exact hrowb
        · rw [recordOf_updateArch, hFents, hentb]
          rfl
      · refine recOKb_some (by rw [recordOf_updateArch]; exact hr)
          (by rw [findArchetype_updateArch_other F hFts hts2]; exact hfb) ?_ ?_
        · rw [recordOf_updateArch]
          exact hrowb
        · rw [recordOf_updateArch, hentb]
          rfl
  · intro b' hb'
    rw [updateArch_archetypes] at hb'
    rcases List.mem_map.mp hb' with ⟨b, hbmem, hbeq⟩
    rcases (archOKb_iff w b).mp (harch b hbmem) with ⟨hk, hA, hp, hrows⟩
    by_cases hbts : b.type_set = ts
    · have hba : a = b := List.inj_on_of_nodup_map hnd hamem hbmem
        (by rw [hats, hbts])
      subst hba
      rw [if_pos (by simp [hbts])] at hbeq
      subst hbeq
      apply (archOKb_iff _ _).mpr
      refine ⟨?_, ?_, ?_, ?_⟩
      · rw [hFkeys, hFats, hk, hbts]
      · rw [hFats, ← hbts]
        exact hA
      · intro cv hcv
        rw [hFents]
        exact hFlen cv hcv
      · intro r hrlt
        rw [hFents] at hrlt
        rcases hrows r hrlt with ⟨h1, h2, h3⟩
        rw [hFents]
        refine ⟨h1, ?_, h3⟩
        rw [recordOf_updateArch, h2, hFats, hbts]
    · rw [if_neg (by simp [hbts])] at hbeq
      subst hbeq
      apply (archOKb_iff _ _).mpr
      refine ⟨hk, hA, hp, ?_⟩
      intro r hrlt
      rcases hrows r hrlt with ⟨h1, h2, h3⟩
      exact ⟨h1, by rw [recordOf_updateArch]; exact h2, h3⟩
  · rw [updateArch_archetypes, map_typeset_update _ _ _ hFts]
    exact hnd
  · intro i hi
    rcases (freeOKb_iff w i).mp (hfree i hi) with ⟨h1, h2⟩
    exact (freeOKb_iff _ _).mpr ⟨h1, by rw [recordOf_updateArch]; exact h2⟩

/-! ### Canonical form of migrate_entity -/

theorem migrateEntity_eq (u : World) (e : Entity) (ts newTs : List ComponentTypeID)
    (row : Nat) (a na : Archetype)
    (hfindO : u.findArchetype ts = some a)
    (hfindN : u.findArchetype newTs = some na)
    (hne : newTs ≠ ts) :
    u.migrateEntity e ts newTs row =
      (if (a.swapRemove row).2 ≠ INVALID_ENTITY then
        ((u.updateArch newTs (fun x => Archetype.pushEntity
            { x with columns := x.columns.map (fun cv =>
                match a.getValue cv.1 row with
                | some v0 => (cv.1, cv.2 ++ [v0])
                | none => cv) } e)).updateArch ts
          (fun _ => (a.swapRemove row).1)).setRecordRow
            (a.swapRemove row).2.index row
      else
        (u.updateArch newTs (fun x => Archetype.pushEntity
            { x with columns := x.columns.map (fun cv =>
                match a.getValue cv.1 row with
                | some v0 => (cv.1, cv.2 ++ [v0])
                | none => cv) } e)).updateArch ts
          (fun _ => (a.swapRemove row).1)).setRecord e.index
        ⟨some newTs, na.entities.length⟩ := by
  rw [World.migrateEntity]
  rw [archetypeGet_eq hfindO]
  have hcomp : ((u.updateArch newTs (fun x => ({ x with columns := x.columns.map (fun cv =>
          match a.getValue cv.1 row with
          | some v0 => (cv.1, cv.2 ++ [v0])
          | none => cv) } : Archetype))).updateArch newTs
          (fun x => x.pushEntity e))
      = u.updateArch newTs (fun x => Archetype.pushEntity
          { x with columns := x.columns.map (fun cv =>
              match a.getValue cv.1 row with
              | some v0 => (cv.1, cv.2 ++ [v0])
              | none => cv) } e) :=
    updateArch_compose u newTs _ _ (fun x _ => rfl)
  rw [hcomp]
  have hfindG0 : (u.updateArch newTs (fun x => Archetype.pushEntity
      { x with columns := x.columns.map (fun cv =>
          match a.getValue cv.1 row with
          | some v0 => (cv.1, cv.2 ++ [v0])
          | none => cv) } e)).findArchetype newTs
      = some (Archetype.pushEntity
          { na with columns := na.columns.map (fun cv =>
              match a.getValue cv.1 row with
              | some v0 => (cv.1, cv.2 ++ [v0])
              | none => cv) } e) :=
    findArchetype_updateArch_self _ (fun x _ => rfl) hfindN
  have hfindG0O : (u.updateArch newTs (fun x => Archetype.pushEntity
      { x with columns := x.columns.map (fun cv =>
          match a.getValue cv.1 row with
          | some v0 => (cv.1, cv.2 ++ [v0])
          | none => cv) } e)).findArchetype ts = some a := by
    rw [findArchetype_updateArch_other (fun x => Archetype.pushEntity
      { x with columns := x.columns.map (fun cv =>
          match a.getValue cv.1 row with
          | some v0 => (cv.1, cv.2 ++ [v0])
          | none => cv) } e) (fun x _ => rfl) (fun hh => hne hh.symm)]
    exact hfindO
  rw [archetypeGet_eq hfindG0, archetypeGet_eq hfindG0O]
  have hc2 : (Archetype.pushEntity
      { na with columns := na.columns.map (fun cv =>
          match a.getValue cv.1 row with
          | some v0 => (cv.1, cv.2 ++ [v0])
          | none => cv) } e).count - 1 = na.entities.length := by
    simp [Archetype.count, Archetype.pushEntity]
  rw [hc2]

/-! ### remove preserves the invariant -/

theorem WF_remove {w w' : World} {e : Entity} {cid : ComponentTypeID}
    (hWF : w.WFb = true) (hc : w.remove e cid = some w') : w'.WFb = true := by
  rw [World.remove] at hc
  by_cases hit : w.iterating ≠ 0
  · rw [if_pos hit] at hc
    cases hc
  rw [if_neg hit] at hc
  by_cases ha : w.alive e = true
  case neg =>
    rw [if_pos (by revert ha; cases w.alive e <;> simp)] at hc
    exact (Option.some.inj hc) ▸ hWF
  rw [if_neg (by simp [ha])] at hc
  rcases WF_live hWF ha with ⟨ts, a, hts, hfind, hmem, hats, hrow, hent, hidx, hgen⟩
  simp only [hts, Option.getD_some, archetypeGet_eq hfind] at hc
  by_cases hhas : a.hasComponent cid = true
  case neg =>
    rw [if_pos (by revert hhas; cases a.hasComponent cid <;> simp)] at hc
    exact (Option.some.inj hc) ▸ hWF
  rw [if_neg (by simp [hhas])] at hc
  simp only [Option.some.injEq] at hc
  rw [← hc]
  have hcidmem : cid ∈ ts := by
    rw [← hats, ← (WF_arch_parts hWF hmem).1]
    exact (hasComponent_iff a cid).mp hhas
  have hlenf : (World.removeTargetTs ts cid).length < ts.length := by
    rw [World.removeTargetTs]
    refine List.length_filter_lt_length_iff_exists.mpr ⟨cid, hcidmem, by simp⟩
  have hneq : World.removeTargetTs ts cid ≠ ts := by
    intro hh
    rw [hh] at hlenf
    omega
  have hAsc : strictAsc (World.removeTargetTs ts cid) = true := by
    have h1 := (WF_arch_parts hWF hmem).2.1
    rw [hats] at h1
    rw [strictAsc_iff_pairwise] at h1 ⊢
    exact h1.sublist (List.filter_sublist _)
  have hWFu := WF_getOrCreate hWF hAsc
  obtain ⟨na, hfindN⟩ : ∃ na,
      (w.getOrCreateArchetype (World.removeTargetTs ts cid)).findArchetype
        (World.removeTargetTs ts cid) = some na :=
    ⟨_, findArchetype_getOrCreate_self _ _⟩
  have hfindO' : (w.getOrCreateArchetype (World.removeTargetTs ts cid)).findArchetype ts
      = some a := by
    rw [findArchetype_getOrCreate_other w (World.removeTargetTs ts cid) ts
      (fun hh => hneq hh.symm)]
    exact hfind
  have hfindO2 : ((w.getOrCreateArchetype
      (World.removeTargetTs ts cid)).fireRemove cid e).findArchetype ts = some a := by
    rw [findArchetype_fireRemove]
    exact hfindO'
  have hfindN2 : ((w.getOrCreateArchetype
      (World.removeTargetTs ts cid)).fireRemove cid e).findArchetype
        (World.removeTargetTs ts cid) = some na := by
    rw [findArchetype_fireRemove]
    exact hfindN
  have hgen2 : ((w.getOrCreateArchetype
      (World.removeTargetTs ts cid)).fireRemove cid e).genOf e.index = e.generation := by
    rw [genOf_fireRemove, World.genOf, getOrCreate_generations]
    exact hgen
  have hrec2 : ((w.getOrCreateArchetype
      (World.removeTargetTs ts cid)).fireRemove cid e).recordOf e.index
        = ⟨some ts, (w.recordOf e.index).row⟩ := by
    rw [recordOf_fireRemove, World.recordOf, getOrCreate_records, ← World.recordOf,
      ← hts]
  have hWFu2 : ((w.getOrCreateArchetype
      (World.removeTargetTs ts cid)).fireRemove cid e).WFb = true := by
    rw [WFb_fireRemove]
    exact hWFu
  rw [migrateEntity_eq _ e ts (World.removeTargetTs ts cid) _ a na hfindO2 hfindN2 hneq]
  refine WF_transfer hWFu2 hgen2 hrec2 hfindO2 hfindN2 hneq (fun x _ => rfl)
    ?_ rfl ?_
  · show ((na.columns.map (fun cv =>
        match a.getValue cv.1 ((w.recordOf e.index).row) with
        | some v0 => (cv.1, cv.2 ++ [v0])
        | none => cv)).map Prod.fst) = na.columns.map Prod.fst
    exact map_fst_of_keyfix _ (fun cv => by
      rcases hgv : a.getValue cv.1 ((w.recordOf e.index).row) with _ | v0 <;>
        simp [hgv]) _
  · intro cv hcv
    have hnaparts := WF_arch_parts hWFu (findArchetype_some hfindN).1
    have hcv2 : cv ∈ na.columns.map (fun cv =>
        match a.getValue cv.1 ((w.recordOf e.index).row) with
        | some v0 => (cv.1, cv.2 ++ [v0])
        | none => cv) := hcv
    rcases List.mem_map.mp hcv2 with ⟨cv0, hcv0, hcveq⟩
    have hlen0 := hnaparts.2.2 cv0 hcv0
    have hkey := List.mem_map_of_mem Prod.fst hcv0
    rw [hnaparts.1, (findArchetype_some hfindN).2] at hkey
    have hkts : cv0.1 ∈ ts := by
      rw [World.removeTargetTs] at hkey
      exact (List.mem_filter.mp hkey).1
    have hkeysa : cv0.1 ∈ a.columns.map Prod.fst := by
      rw [(WF_arch_parts hWF hmem).1, hats]
      exact hkts
    obtain ⟨p, hpfind⟩ : ∃ p, a.columns.find? (fun q => q.1 == cv0.1) = some p :=
      Option.isSome_iff_exists.mp (find?_isSome_iff.mpr hkeysa)
    have hgv : a.getValue cv0.1 ((w.recordOf e.index).row)
        = some (p.2.getD ((w.recordOf e.index).row) 0) := by
      rw [Archetype.getValue, hpfind]
      rfl
    rw [← hcveq]
    show (match a.getValue cv0.1 ((w.recordOf e.index).row) with
      | some v0 => (cv0.1, cv0.2 ++ [v0])
      | none => cv0).2.length = na.entities.length + 1
    rw [hgv]
    show (cv0.2 ++ [p.2.getD ((w.recordOf e.index).row) 0]).length
      = na.entities.length + 1
    rw [List.length_append, List.length_singleton, hlen0]

/-! ### add preserves the invariant -/

theorem WF_add {w w' : World} {e : Entity} {cid : ComponentTypeID} {v : Val}
    (hWF : w.WFb = true) (hc : w.add e cid v = some w') : w'.WFb = true := by
  rw [World.add] at hc
  by_cases hit : w.iterating ≠ 0
  · rw [if_pos hit] at hc
    cases hc
  rw [if_neg hit] at hc
  by_cases ha : w.alive e = true
  case neg =>
    rw [if_pos (by revert ha; cases w.alive e <;> simp)] at hc
    exact (Option.some.inj hc) ▸ hWF
  rw [if_neg (by simp [ha])] at hc
  rcases WF_live hWF ha with ⟨ts, a, hts, hfind, hmem, hats, hrow, hent, hidx, hgen⟩
  simp only [hts, Option.getD_some, archetypeGet_eq hfind] at hc
  by_cases hhas : a.hasComponent cid = true
  · rw [if_pos hhas, Option.some.injEq] at hc
    rw [← hc]
    refine WF_updateArch_inplace hWF hfind (fun x _ => rfl) ?_ rfl ?_
    · show (setCol cid ((w.recordOf e.index).row) v a.columns).map Prod.fst
        = a.columns.map Prod.fst
      rw [setCol, editCol_keys]
    · intro cv hcv
      have hcv2 : cv ∈ editCol cid
          (fun vs => vs.set ((w.recordOf e.index).row) v) a.columns := hcv
      rcases editCol_mem _ _ _ cv hcv2 with ⟨cv0, hcv0, hk, hv⟩
      have hlen0 := (WF_arch_parts hWF hmem).2.2 cv0 hcv0
      rcases hv with h | h
      · rw [h]
        exact hlen0
      · rw [h, List.length_set]
        exact hlen0
  · rw [if_neg hhas] at hc
    simp only [Option.some.injEq] at hc
    rw [← hc, WFb_fireAdd]
    have hcidts : cid ∉ ts := by
      intro hmem2
      apply hhas
      rw [hasComponent_iff, (WF_arch_parts hWF hmem).1, hats]
      exact hmem2
    have hneq : World.addTargetTs ts cid ≠ ts := by
      intro hh
      have h1 := (sortIds_perm (ts ++ [cid])).length_eq
      rw [show World.addTargetTs ts cid = sortIds (ts ++ [cid]) from rfl] at hh
      rw [hh] at h1
      simp at h1
    have htsnd : ts.Nodup := by
      have h1 := (WF_arch_parts hWF hmem).2.1
      rw [hats] at h1
      exact strictAsc_nodup _ h1
    have hAsc : strictAsc (World.addTargetTs ts cid) = true :=
      sortIds_strictAsc _ ((nodup_append_singleton _ _).mpr ⟨htsnd, hcidts⟩)
    have hWFu := WF_getOrCreate hWF hAsc
    obtain ⟨na, hfindN⟩ : ∃ na,
        (w.getOrCreateArchetype (World.addTargetTs ts cid)).findArchetype
          (World.addTargetTs ts cid) = some na :=
      ⟨_, findArchetype_getOrCreate_self _ _⟩
    have hfindO' : (w.getOrCreateArchetype
        (World.addTargetTs ts cid)).findArchetype ts = some a := by
      rw [findArchetype_getOrCreate_other w (World.addTargetTs ts cid) ts
        (fun hh => hneq hh.symm)]
      exact hfind
    have hgen' : (w.getOrCreateArchetype
        (World.addTargetTs ts cid)).genOf e.index = e.generation := by
      rw [World.genOf, getOrCreate_generations]
      exact hgen
    have hrec' : (w.getOrCreateArchetype
        (World.addTargetTs ts cid)).recordOf e.index
          = ⟨some ts, (w.recordOf e.index).row⟩ := by
      rw [World.recordOf, getOrCreate_records, ← World.recordOf, ← hts]
    rcases findArchetype_some hfindN with ⟨hnamem, hnats⟩
    have hnaparts := WF_arch_parts hWFu hnamem
    rw [migrateEntity_eq _ e ts (World.addTargetTs ts cid) _ a na hfindO' hfindN
      hneq]
    rw [← setRecord_updateArch]
    rw [apply_ite (fun x : World => x.updateArch (World.addTargetTs ts cid)
      (fun y => y.pushRawInto cid v))]
    rw [setRecordRow_updateArch]
    rw [updateArch_swap_ne _ ts (World.addTargetTs ts cid)
      (fun _ => (a.swapRemove ((w.recordOf e.index).row)).1)
      (fun y => y.pushRawInto cid v) (fun hh => hneq hh.symm)
      (fun x hx => by rw [swapRemove_type_set, hats, hx]) (fun x _ => rfl)]
    rw [updateArch_compose _ (World.addTargetTs ts cid)
      (fun y => y.pushRawInto cid v)
      (fun x => Archetype.pushEntity
        { x with columns := x.columns.map (fun cv =>
            match a.getValue cv.1 ((w.recordOf e.index).row) with
            | some v0 => (cv.1, cv.2 ++ [v0])
            | none => cv) } e) (fun x _ => rfl)]
    refine WF_transfer hWFu hgen' hrec' hfindO' hfindN hneq (fun x _ => rfl)
      ?_ rfl ?_
    · show (pushCol cid v ((na.columns.map (fun cv =>
          match a.getValue cv.1 ((w.recordOf e.index).row) with
          | some v0 => (cv.1, cv.2 ++ [v0])
          | none => cv)))).map Prod.fst = na.columns.map Prod.fst
      rw [pushCol, editCol_keys]
      exact map_fst_of_keyfix _ (fun cv => by
        rcases hgv : a.getValue cv.1 ((w.recordOf e.index).row) with _ | v0 <;>
          simp [hgv]) _
    · intro cv hcv
      have hkeysSH : ((na.columns.map (fun cv =>
          match a.getValue cv.1 ((w.recordOf e.index).row) with
          | some v0 => (cv.1, cv.2 ++ [v0])
          | none => cv))).map Prod.fst = World.addTargetTs ts cid := by
        rw [map_fst_of_keyfix _ (fun cv => by
          rcases hgv : a.getValue cv.1 ((w.recordOf e.index).row) with _ | v0 <;>
            simp [hgv]) _, hnaparts.1, hnats]
      have hnd2 : (((na.columns.map (fun cv =>
          match a.getValue cv.1 ((w.recordOf e.index).row) with
          | some v0 => (cv.1, cv.2 ++ [v0])
          | none => cv))).map Prod.fst).Nodup := by
        rw [hkeysSH]
        exact strictAsc_nodup _ hAsc
      have hcv2 : cv ∈ pushCol cid v ((na.columns.map (fun cv =>
          match a.getValue cv.1 ((w.recordOf e.index).row) with
          | some v0 => (cv.1, cv.2 ++ [v0])
          | none => cv))) := hcv
      rw [pushCol, editCol_eq_map _ _ _ hnd2] at hcv2
      rcases List.mem_map.mp hcv2 with ⟨cv1, hcv1, hcveq⟩
      rcases List.mem_map.mp hcv1 with ⟨cv0, hcv0, hcv0eq⟩
      have hlen0 := hnaparts.2.2 cv0 hcv0
      have hkey0mem : cv0.1 ∈ World.addTargetTs ts cid := by
        rw [← hnats, ← hnaparts.1]
        exact List.mem_map_of_mem Prod.fst hcv0
      by_cases hk : cv0.1 = cid
      · have hgv : a.getValue cv0.1 ((w.recordOf e.index).row) = none := by
          rw [hk, Archetype.getValue,
            show a.columns.find? (fun p => p.1 == cid) = none from
              find?_none_iff.mpr (by
                rw [(WF_arch_parts hWF hmem).1, hats]
                exact hcidts)]
          rfl
        have hcv1e : cv1 = cv0 := by
          rw [← hcv0eq]
          show (match a.getValue cv0.1 ((w.recordOf e.index).row) with
            | some v0 => (cv0.1, cv0.2 ++ [v0])
            | none => cv0) = cv0
          rw [hgv]
        rw [← hcveq, hcv1e, if_pos (by simp [hk])]
        show (cv0.2 ++ [v]).length = na.entities.length + 1
        rw [List.length_append, List.length_singleton, hlen0]
      · have hkts : cv0.1 ∈ ts := by
          have h1 := (mem_sortIds cv0.1 (ts ++ [cid])).mp hkey0mem
          rcases List.mem_append.mp h1 with h2 | h2
          · exact h2
          · exact absurd (by simpa using h2) hk
        have hkeysa : cv0.1 ∈ a.columns.map Prod.fst := by
          rw [(WF_arch_parts hWF hmem).1, hats]
          exact hkts
        obtain ⟨p, hpfind⟩ : ∃ p, a.columns.find? (fun q => q.1 == cv0.1) = some p :=
          Option.isSome_iff_exists.mp (find?_isSome_iff.mpr hkeysa)
        have hgv : a.getValue cv0.1 ((w.recordOf e.index).row)
            = some (p.2.getD ((w.recordOf e.index).row) 0) := by
          rw [Archetype.getValue, hpfind]
          rfl
        have hcv1e : cv1 = (cv0.1, cv0.2 ++ [p.2.getD ((w.recordOf e.index).row) 0]) := by
          rw [← hcv0eq]
          show (match a.getValue cv0.1 ((w.recordOf e.index).row) with
            | some v0 => (cv0.1, cv0.2 ++ [v0])
            | none => cv0) = _
          rw [hgv]
        rw [← hcveq, hcv1e, if_neg (by simp [hk])]
        show (cv0.2 ++ [p.2.getD ((w.recordOf e.index).row) 0]).length
          = na.entities.length + 1
        rw [List.length_append, List.length_singleton, hlen0]

/-! ### sort support -/

theorem insertIdx_perm (cmp : Val → Val → Bool) (col : Column) (i : Nat)
    (l : List Nat) : (World.insertIdx cmp col i l).Perm (i :: l) := by
  induction l with
  | nil => exact List.Perm.refl _
  | cons j js ih =>
    rw [World.insertIdx]
    split
    · exact List.Perm.refl _
    · exact ((ih.cons j).trans (List.Perm.swap i j js))

theorem sortIndices_perm (cmp : Val → Val → Bool) (col : Column) (l : List Nat) :
    (World.sortIndices cmp col l).Perm l := by
  induction l with
  | nil => exact List.Perm.refl _
  | cons x xs ih =>
    exact (insertIdx_perm cmp col x _).trans (ih.cons x)

theorem getD_eq_get {α : Type} (l : List α) (d : α) {i : Nat}
    (h : i < l.length) : l.getD i d = l.get ⟨i, h⟩ := by
  rw [List.getD_eq_getElem?_getD, List.getElem?_eq_getElem h]
  rfl

theorem nodup_getD_inj {α : Type} (l : List α) (d : α) (h : l.Nodup)
    {i j : Nat} (hi : i < l.length) (hj : j < l.length)
    (he : l.getD i d = l.getD j d) : i = j := by
  rw [getD_eq_get l d hi, getD_eq_get l d hj] at he
  exact congrArg Fin.val ((List.nodup_iff_injective_get.mp h) he)

theorem exists_getD {α : Type} (l : List α) (d : α) {x : α} (h : x ∈ l) :
    ∃ k, k < l.length ∧ l.getD k d = x := by
  rcases List.mem_iff_get.mp h with ⟨⟨k, hk⟩, hx⟩
  exact ⟨k, hk, by rw [getD_eq_get l d hk]; exact hx⟩

theorem foldRR_generations (l : List Entity) (off : Nat) (w1 : World) :
    ((enumFrom off l).foldl (fun wa p => wa.setRecordRow p.2.index p.1)
      w1).generations = w1.generations := by
  induction l generalizing off w1 with
  | nil => rfl
  | cons x xs ih =>
    rw [enumFrom, List.foldl_cons, ih]
    rfl

theorem foldRR_archetypes (l : List Entity) (off : Nat) (w1 : World) :
    ((enumFrom off l).foldl (fun wa p => wa.setRecordRow p.2.index p.1)
      w1).archetypes = w1.archetypes := by
  induction l generalizing off w1 with
  | nil => rfl
  | cons x xs ih =>
    rw [enumFrom, List.foldl_cons, ih]
    rfl

theorem foldRR_free_list (l : List Entity) (off : Nat) (w1 : World) :
    ((enumFrom off l).foldl (fun wa p => wa.setRecordRow p.2.index p.1)
      w1).free_list = w1.free_list := by
  induction l generalizing off w1 with
  | nil => rfl
  | cons x xs ih =>
    rw [enumFrom, List.foldl_cons, ih]
    rfl

theorem foldRR_records_length (l : List Entity) (off : Nat) (w1 : World) :
    ((enumFrom off l).foldl (fun wa p => wa.setRecordRow p.2.index p.1)
      w1).records.length = w1.records.length := by
  induction l generalizing off w1 with
  | nil => rfl
  | cons x xs ih =>
    rw [enumFrom, List.foldl_cons, ih, World.setRecordRow, setRecord_records,
      List.length_set]

theorem foldRR_findArchetype (l : List Entity) (off : Nat) (w1 : World)
    (ts : List ComponentTypeID) :
    ((enumFrom off l).foldl (fun wa p => wa.setRecordRow p.2.index p.1)
      w1).findArchetype ts = w1.findArchetype ts := by
  rw [World.findArchetype, foldRR_archetypes, World.findArchetype]

theorem foldRR_genOf (l : List Entity) (off : Nat) (w1 : World) (j : Nat) :
    ((enumFrom off l).foldl (fun wa p => wa.setRecordRow p.2.index p.1)
      w1).genOf j = w1.genOf j := by
  rw [World.genOf, foldRR_generations, World.genOf]

theorem foldRR_recordOf_ne (l : List Entity) (off : Nat) (w1 : World) (j : Nat)
    (h : ∀ x ∈ l, x.index ≠ j) :
    ((enumFrom off l).foldl (fun wa p => wa.setRecordRow p.2.index p.1)
      w1).recordOf j = w1.recordOf j := by
  induction l generalizing off w1 with
  | nil => rfl
  | cons x xs ih =>
    rw [enumFrom, List.foldl_cons, ih _ _ (fun y hy => h y (List.mem_cons_of_mem _ hy)),
      World.setRecordRow, recordOf_setRecord_ne _ _ _ _ (h x (List.mem_cons_self _ _))]

theorem foldRR_recordOf_mem (l : List Entity) (off : Nat) (w1 : World) (k : Nat)
    (hk : k < l.length)
    (hinj : ∀ k1 k2, k1 < l.length → k2 < l.length →
      (l.getD k1 INVALID_ENTITY).index = (l.getD k2 INVALID_ENTITY).index → k1 = k2)
    (hlen : (l.getD k INVALID_ENTITY).index < w1.records.length) :
    ((enumFrom off l).foldl (fun wa p => wa.setRecordRow p.2.index p.1)
      w1).recordOf ((l.getD k INVALID_ENTITY).index)
      = ⟨(w1.recordOf ((l.getD k INVALID_ENTITY).index)).archetype, off + k⟩ := by
  induction l generalizing off w1 k with
  | nil => exact absurd hk (by simp)
  | cons x xs ih =>
    rcases k with _ | k'
    · have hne : ∀ y ∈ xs, y.index ≠ x.index := by
        intro y hy hxy
        rcases exists_getD xs INVALID_ENTITY hy with ⟨m, hm, hmy⟩
        have := hinj (m + 1) 0 (by simpa using Nat.succ_lt_succ hm) (by simp)
          (by rw [show ((x :: xs).getD (m + 1) INVALID_ENTITY)
                = xs.getD m INVALID_ENTITY from rfl, hmy]
              exact hxy)
        cases this
      rw [enumFrom, List.foldl_cons]
      have hlen2 : x.index < w1.records.length := hlen
      have hgd : ((x :: xs).getD 0 INVALID_ENTITY) = x := rfl
      rw [hgd]
      rw [foldRR_recordOf_ne _ _ _ _ hne, World.setRecordRow,
        recordOf_setRecord_self _ _ _ hlen2]
      rfl
    · rw [enumFrom, List.foldl_cons]
      have hgd : ((x :: xs).getD (k' + 1) INVALID_ENTITY)
          = xs.getD k' INVALID_ENTITY := rfl
      rw [hgd]
      have hk' : k' < xs.length := by simpa using hk
      have hxne : x.index ≠ (xs.getD k' INVALID_ENTITY).index := by
        intro hxy
        have := hinj 0 (k' + 1) (by simp) (by simpa using Nat.succ_lt_succ hk')
          (by simpa using hxy)
        cases this
      have hinj' : ∀ k1 k2, k1 < xs.length → k2 < xs.length →
          (xs.getD k1 INVALID_ENTITY).index = (xs.getD k2 INVALID_ENTITY).index →
            k1 = k2 := by
        intro k1 k2 h1 h2 hh
        have := hinj (k1 + 1) (k2 + 1) (by simpa using Nat.succ_lt_succ h1)
          (by simpa using Nat.succ_lt_succ h2) (by simpa using hh)
        omega
      have hlen' : (xs.getD k' INVALID_ENTITY).index
          < (w1.setRecordRow x.index off).records.length := by
        rw [World.setRecordRow, setRecord_records, List.length_set]
        exact hlen
      rw [ih _ _ k' hk' hinj' hlen']
      rw [World.setRecordRow, recordOf_setRecord_ne _ _ _ _ hxne]
      have hoff : off + 1 + k' = off + (k' + 1) := by omega
      rw [hoff]
/-! ### Permuting one archetype preserves the invariant -/

set_option maxHeartbeats 1600000 in
theorem WF_permuteArch {w : World} {ts : List ComponentTypeID} {a : Archetype}
    {perm : List Nat} (hWF : w.WFb = true)
    (hfind : w.findArchetype ts = some a)
    (hperm : perm.Perm (List.range a.entities.length)) :
    ((enumFrom 0 (World.applyPerm INVALID_ENTITY a.entities perm)).foldl
      (fun wa p => wa.setRecordRow p.2.index p.1)
      (w.updateArch ts (fun _ =>
        (⟨a.type_set,
          a.columns.map (fun cv => (cv.1, World.applyPerm 0 cv.2 perm)),
          World.applyPerm INVALID_ENTITY a.entities perm⟩ : Archetype)))).WFb
      = true := by
  rcases findArchetype_some hfind with ⟨hmem, hats⟩
  rcases (WFb_iff w).mp hWF with ⟨hlen, hrecA, harch, hnd, hfree, hfnd, hg0, hr0, hf0⟩
  have hpermlen : perm.length = a.entities.length := by
    rw [hperm.length_eq, List.length_range]
  have hpermmem : ∀ x ∈ perm, x < a.entities.length := fun x hx =>
    List.mem_range.mp (hperm.mem_iff.mp hx)
  have hpermnd : perm.Nodup := hperm.nodup_iff.mpr (List.nodup_range _)
  have hpermlt : ∀ k, k < a.entities.length → perm.getD k 0 < a.entities.length :=
    fun k hk => hpermmem _ (mem_getD _ _ _ (by rw [hpermlen]; exact hk))
  have hlenA2 : (World.applyPerm INVALID_ENTITY a.entities perm).length
      = a.entities.length := by
    rw [World.applyPerm, List.length_map, hpermlen]
  have hgetA2 : ∀ k, k < a.entities.length →
      (World.applyPerm INVALID_ENTITY a.entities perm).getD k INVALID_ENTITY
        = a.entities.getD (perm.getD k 0) INVALID_ENTITY := by
    intro k hk
    rw [World.applyPerm]
    exact getD_map _ _ _ _ 0 (by rw [hpermlen]; exact hk)
  have hinj2 : ∀ k1 k2,
      k1 < (World.applyPerm INVALID_ENTITY a.entities perm).length →
      k2 < (World.applyPerm INVALID_ENTITY a.entities perm).length →
      ((World.applyPerm INVALID_ENTITY a.entities perm).getD k1
        INVALID_ENTITY).index =
      ((World.applyPerm INVALID_ENTITY a.entities perm).getD k2
        INVALID_ENTITY).index → k1 = k2 := by
    intro k1 k2 h1 h2 he
    rw [hlenA2] at h1 h2
    rw [hgetA2 k1 h1, hgetA2 k2 h2] at he
    have h3 := (WF_index_unique hWF hmem hmem (hpermlt k1 h1) (hpermlt k2 h2) he).2
    exact nodup_getD_inj perm 0 hpermnd (by rw [hpermlen]; exact h1)
      (by rw [hpermlen]; exact h2) h3
  have hmemidx : ∀ x ∈ World.applyPerm INVALID_ENTITY a.entities perm,
      ∃ i, i < a.entities.length ∧ x = a.entities.getD i INVALID_ENTITY := by
    intro x hx
    rcases List.mem_map.mp hx with ⟨i, hip, hxe⟩
    exact ⟨i, hpermmem i hip, hxe.symm⟩
  have hconstts : ∀ x : Archetype, x.type_set = ts →
      ((⟨a.type_set,
        a.columns.map (fun cv => (cv.1, World.applyPerm 0 cv.2 perm)),
        World.applyPerm INVALID_ENTITY a.entities perm⟩ : Archetype)).type_set
        = x.type_set := by
    intro x hx
    show a.type_set = x.type_set
    rw [hats, hx]
  have hfindWts :
      ((enumFrom 0 (World.applyPerm INVALID_ENTITY a.entities perm)).foldl
        (fun wa p => wa.setRecordRow p.2.index p.1)
        (w.updateArch ts (fun _ =>
          (⟨a.type_set,
            a.columns.map (fun cv => (cv.1, World.applyPerm 0 cv.2 perm)),
            World.applyPerm INVALID_ENTITY a.entities perm⟩ :
              Archetype)))).findArchetype ts
        = some (⟨a.type_set,
            a.columns.map (fun cv => (cv.1, World.applyPerm 0 cv.2 perm)),
            World.applyPerm INVALID_ENTITY a.entities perm⟩ : Archetype) := by
    rw [foldRR_findArchetype]
    exact findArchetype_updateArch_self _ hconstts hfind
  have hfindWo : ∀ ts2, ts2 ≠ ts →
      ((enumFrom 0 (World.applyPerm INVALID_ENTITY a.entities perm)).foldl
        (fun wa p => wa.setRecordRow p.2.index p.1)
        (w.updateArch ts (fun _ =>
          (⟨a.type_set,
            a.columns.map (fun cv => (cv.1, World.applyPerm 0 cv.2 perm)),
            World.applyPerm INVALID_ENTITY a.entities perm⟩ :
              Archetype)))).findArchetype ts2 = w.findArchetype ts2 := by
    intro ts2 h2
    rw [foldRR_findArchetype]
    exact findArchetype_updateArch_other _ hconstts h2
  have hWlen :
      ((enumFrom 0 (World.applyPerm INVALID_ENTITY a.entities perm)).foldl
        (fun wa p => wa.setRecordRow p.2.index p.1)
        (w.updateArch ts (fun _ =>
          (⟨a.type_set,
            a.columns.map (fun cv => (cv.1, World.applyPerm 0 cv.2 perm)),
            World.applyPerm INVALID_ENTITY a.entities perm⟩ :
              Archetype)))).records.length = w.records.length := by
    rw [foldRR_records_length, updateArch_records]
  have hWgen : ∀ j,
      ((enumFrom 0 (World.applyPerm INVALID_ENTITY a.entities perm)).foldl
        (fun wa p => wa.setRecordRow p.2.index p.1)
        (w.updateArch ts (fun _ =>
          (⟨a.type_set,
            a.columns.map (fun cv => (cv.1, World.applyPerm 0 cv.2 perm)),
            World.applyPerm INVALID_ENTITY a.entities perm⟩ :
              Archetype)))).genOf j = w.genOf j := by
    intro j
    rw [foldRR_genOf]
    rfl
  have hWfree :
      ((enumFrom 0 (World.applyPerm INVALID_ENTITY a.entities perm)).foldl
        (fun wa p => wa.setRecordRow p.2.index p.1)
        (w.updateArch ts (fun _ =>
          (⟨a.type_set,
            a.columns.map (fun cv => (cv.1, World.applyPerm 0 cv.2 perm)),
            World.applyPerm INVALID_ENTITY a.entities perm⟩ :
              Archetype)))).free_list = w.free_list := by
    rw [foldRR_free_list]
    rfl
  have hWarchs :
      ((enumFrom 0 (World.applyPerm INVALID_ENTITY a.entities perm)).foldl
        (fun wa p => wa.setRecordRow p.2.index p.1)
        (w.updateArch ts (fun _ =>
          (⟨a.type_set,
            a.columns.map (fun cv => (cv.1, World.applyPerm 0 cv.2 perm)),
            World.applyPerm INVALID_ENTITY a.entities perm⟩ :
              Archetype)))).archetypes
        = w.archetypes.map (fun x => if x.type_set == ts then
            (⟨a.type_set,
              a.columns.map (fun cv => (cv.1, World.applyPerm 0 cv.2 perm)),
              World.applyPerm INVALID_ENTITY a.entities perm⟩ : Archetype)
          else x) := by
    rw [foldRR_archetypes, updateArch_archetypes]
  have hrec_ne : ∀ j,
      (∀ x ∈ World.applyPerm INVALID_ENTITY a.entities perm, x.index ≠ j) →
      ((enumFrom 0 (World.applyPerm INVALID_ENTITY a.entities perm)).foldl
        (fun wa p => wa.setRecordRow p.2.index p.1)
        (w.updateArch ts (fun _ =>
          (⟨a.type_set,
            a.columns.map (fun cv => (cv.1, World.applyPerm 0 cv.2 perm)),
            World.applyPerm INVALID_ENTITY a.entities perm⟩ :
              Archetype)))).recordOf j = w.recordOf j := by
    intro j hj
    rw [foldRR_recordOf_ne _ _ _ _ hj, recordOf_updateArch]
  have hrecW_mem : ∀ k, k < a.entities.length →
      ((enumFrom 0 (World.applyPerm INVALID_ENTITY a.entities perm)).foldl
        (fun wa p => wa.setRecordRow p.2.index p.1)
        (w.updateArch ts (fun _ =>
          (⟨a.type_set,
            a.columns.map (fun cv => (cv.1, World.applyPerm 0 cv.2 perm)),
            World.applyPerm INVALID_ENTITY a.entities perm⟩ :
              Archetype)))).recordOf
        (((World.applyPerm INVALID_ENTITY a.entities perm).getD k
          INVALID_ENTITY).index)
        = ⟨(w.recordOf (((World.applyPerm INVALID_ENTITY a.entities perm).getD k
            INVALID_ENTITY).index)).archetype, k⟩ := by
    intro k hk
    have hidxlt : ((World.applyPerm INVALID_ENTITY a.entities perm).getD k
        INVALID_ENTITY).index
        < (w.updateArch ts (fun _ =>
          (⟨a.type_set,
            a.columns.map (fun cv => (cv.1, World.applyPerm 0 cv.2 perm)),
            World.applyPerm INVALID_ENTITY a.entities perm⟩ :
              Archetype))).records.length := by
      rw [updateArch_records, hgetA2 k hk]
      exact (WF_arch_row hWF hmem (hpermlt k hk)).1
    have h1 := foldRR_recordOf_mem
      (World.applyPerm INVALID_ENTITY a.entities perm) 0 _ k
      (by rw [hlenA2]; exact hk) hinj2 hidxlt
    rw [Nat.zero_add] at h1
    exact h1
  have hnotmem_of : ∀ j, (w.recordOf j).archetype ≠ some a.type_set →
      ∀ x ∈ World.applyPerm INVALID_ENTITY a.entities perm, x.index ≠ j := by
    intro j hj x hx hxj
    rcases hmemidx x hx with ⟨i, hi, hxe⟩
    have hxr := (WF_arch_row hWF hmem hi).2.1
    rw [← hxe, hxj] at hxr
    rw [hxr] at hj
    exact hj rfl
  apply (WFb_iff _).mpr
  refine ⟨?_, ?_, ?_, ?_, ?_, ?_, ?_, ?_, ?_⟩
  · rw [hWlen]
    rw [show ((enumFrom 0 (World.applyPerm INVALID_ENTITY a.entities perm)).foldl
      (fun wa p => wa.setRecordRow p.2.index p.1)
      (w.updateArch ts (fun _ =>
        (⟨a.type_set,
          a.columns.map (fun cv => (cv.1, World.applyPerm 0 cv.2 perm)),
          World.applyPerm INVALID_ENTITY a.entities perm⟩ :
            Archetype)))).generations = w.generations from by
      rw [foldRR_generations]
      rfl]
    exact hlen
  · intro j hj
    rw [hWlen] at hj
    rcases hr : (w.recordOf j).archetype with _ | ts2
    · exact recOKb_none (by
        rw [hrec_ne j (hnotmem_of j (by rw [hr]; simp))]
        exact hr)
    · rcases recOKb_live (hrecA j hj) hr with ⟨b, hfb, hrowb, hentb⟩
      by_cases hts2 : ts2 = ts
      · subst hts2
        have hba : a = b := by
          rw [hfind] at hfb
          exact Option.some.inj hfb
        subst hba
        have hrp : (w.recordOf j).row ∈ perm :=
          hperm.mem_iff.mpr (List.mem_range.mpr hrowb)
        rcases exists_getD perm 0 hrp with ⟨k, hkp, hkr⟩
        have hkn : k < a.entities.length := by rw [← hpermlen]; exact hkp
        have hja2 : ((World.applyPerm INVALID_ENTITY a.entities perm).getD k
            INVALID_ENTITY) = ⟨j, w.genOf j⟩ := by
          rw [hgetA2 k hkn, hkr]
          exact hentb
        have hjidx : ((World.applyPerm INVALID_ENTITY a.entities perm).getD k
            INVALID_ENTITY).index = j := by rw [hja2]
        have hrecWj := hrecW_mem k hkn
        rw [hjidx] at hrecWj
        refine recOKb_some (by simp only [hrecWj]; exact hr) hfindWts ?_ ?_
        · simp only [hrecWj]
          show k < (World.applyPerm INVALID_ENTITY a.entities perm).length
          rw [hlenA2]
          exact hkn
        · simp only [hrecWj]
          show (World.applyPerm INVALID_ENTITY a.entities perm).getD k
            INVALID_ENTITY = _
          rw [hja2, hWgen]
      · have hne2 : ∀ x ∈ World.applyPerm INVALID_ENTITY a.entities perm,
            x.index ≠ j := hnotmem_of j (by
          rw [hr, hats]
          intro hcon
          exact hts2 (Option.some.inj hcon))
        refine recOKb_some (by rw [hrec_ne j hne2]; exact hr)
          (by rw [hfindWo ts2 hts2]; exact hfb) ?_ ?_
        · rw [hrec_ne j hne2]
          exact hrowb
        · rw [hrec_ne j hne2, hentb, hWgen]
  · intro b' hb'
    rw [hWarchs] at hb'
    rcases List.mem_map.mp hb' with ⟨b, hbmem, hbeq⟩
    by_cases hbts : b.type_set = ts
    · have hba : a = b := List.inj_on_of_nodup_map hnd hmem hbmem
        (by rw [hats, hbts])
      subst hba
      rw [if_pos (by simp [hbts])] at hbeq
      subst hbeq
      apply (archOKb_iff _ _).mpr
      refine ⟨?_, ?_, ?_, ?_⟩
      · show (a.columns.map (fun cv =>
          (cv.1, World.applyPerm 0 cv.2 perm))).map Prod.fst = a.type_set
        rw [map_fst_of_keyfix (fun cv => (cv.1, World.applyPerm 0 cv.2 perm))
          (fun cv => rfl)]
        exact (WF_arch_parts hWF hmem).1
      · show strictAsc a.type_set = true
        exact (WF_arch_parts hWF hmem).2.1
      · intro cv hcv
        rcases List.mem_map.mp hcv with ⟨cv0, hcv0, hcveq⟩
        rw [← hcveq]
        show (World.applyPerm 0 cv0.2 perm).length
          = (World.applyPerm INVALID_ENTITY a.entities perm).length
        rw [World.applyPerm, World.applyPerm, List.length_map, List.length_map]
      · intro r hrlt
        have hr' : r < a.entities.length := by
          rw [← hlenA2]
          exact hrlt
        rcases WF_arch_row hWF hmem (hpermlt r hr') with ⟨h1, h2, h3⟩
        refine ⟨?_, ?_, ?_⟩
        · show ((World.applyPerm INVALID_ENTITY a.entities perm).getD r
            INVALID_ENTITY).index < _
          rw [hgetA2 r hr', hWlen]
          exact h1
        · show ((enumFrom 0 (World.applyPerm INVALID_ENTITY a.entities
              perm)).foldl (fun wa p => wa.setRecordRow p.2.index p.1)
            (w.updateArch ts (fun _ =>
              (⟨a.type_set,
                a.columns.map (fun cv => (cv.1, World.applyPerm 0 cv.2 perm)),
                World.applyPerm INVALID_ENTITY a.entities perm⟩ :
                  Archetype)))).recordOf
            (((World.applyPerm INVALID_ENTITY a.entities perm).getD r
              INVALID_ENTITY).index) = ⟨some a.type_set, r⟩
          rw [hrecW_mem r hr', hgetA2 r hr', h2]
        · show ((enumFrom 0 (World.applyPerm INVALID_ENTITY a.entities
              perm)).foldl (fun wa p => wa.setRecordRow p.2.index p.1)
            (w.updateArch ts (fun _ =>
              (⟨a.type_set,
                a.columns.map (fun cv => (cv.1, World.applyPerm 0 cv.2 perm)),
                World.applyPerm INVALID_ENTITY a.entities perm⟩ :
                  Archetype)))).genOf
            (((World.applyPerm INVALID_ENTITY a.entities perm).getD r
              INVALID_ENTITY).index)
            = ((World.applyPerm INVALID_ENTITY a.entities perm).getD r
              INVALID_ENTITY).generation
          rw [hWgen, hgetA2 r hr']
          exact h3
    · rw [if_neg (by simp [hbts])] at hbeq
      subst hbeq
      rcases (archOKb_iff w b).mp (harch b hbmem) with ⟨hk, hA, hp, hrows⟩
      apply (archOKb_iff _ _).mpr
      refine ⟨hk, hA, hp, ?_⟩
      intro r hrlt
      rcases hrows r hrlt with ⟨h1, h2, h3⟩
      have hne2 : ∀ x ∈ World.applyPerm INVALID_ENTITY a.entities perm,
          x.index ≠ (b.entities.getD r INVALID_ENTITY).index := by
        refine hnotmem_of _ ?_
        rw [h2, hats]
        intro hcon
        exact hbts ((Option.some.inj hcon).symm ▸ rfl)
      refine ⟨by rw [hWlen]; exact h1, ?_, by rw [hWgen]; exact h3⟩
      rw [hrec_ne _ hne2]
      exact h2
  · rw [hWarchs, map_typeset_update _ _ _ hconstts]
    exact hnd
  · intro i hi
    rw [hWfree] at hi
    rcases (freeOKb_iff w i).mp (hfree i hi) with ⟨h1, h2⟩
    have hne2 : ∀ x ∈ World.applyPerm INVALID_ENTITY a.entities perm,
        x.index ≠ i := hnotmem_of i (by rw [h2]; simp)
    exact (freeOKb_iff _ _).mpr
      ⟨by rw [hWlen]; exact h1, by rw [hrec_ne i hne2]; exact h2⟩
  · rw [hWfree]
    exact hfnd
  · rw [hWgen]
    exact hg0
  · have hne2 : ∀ x ∈ World.applyPerm INVALID_ENTITY a.entities perm,
        x.index ≠ 0 := hnotmem_of 0 (by rw [hr0]; simp)
    rw [hrec_ne 0 hne2]
    exact hr0
  · rw [hWfree]
    exact hf0

/-! ### sort preserves the invariant -/

theorem WF_sortStep {w : World} (ts : List ComponentTypeID) (cid : ComponentTypeID)
    (cmp : Val → Val → Bool) (hWF : w.WFb = true) :
    (w.sortStep ts cid cmp).WFb = true := by
  rw [World.sortStep]
  split
  case isFalse => exact hWF
  case isTrue hcond =>
  rcases hfind : w.findArchetype ts with _ | a
  · exfalso
    rw [World.archetypeGet, hfind] at hcond
    simp [Archetype.hasComponent] at hcond
  · rw [archetypeGet_eq hfind]
    exact WF_permuteArch hWF hfind
      (sortIndices_perm cmp
        ((Option.map Prod.snd (List.find? (fun cv => cv.1 == cid) a.columns)).getD [])
        (List.range a.count))

theorem WF_sort {w w' : World} {cid : ComponentTypeID} {cmp : Val → Val → Bool}
    (hWF : w.WFb = true) (hc : w.sort cid cmp = some w') : w'.WFb = true := by
  rw [World.sort] at hc
  by_cases hit : w.iterating ≠ 0
  · rw [if_pos hit] at hc
    cases hc
  rw [if_neg hit, Option.some.injEq] at hc
  rw [← hc]
  clear hc hit
  generalize (w.archetypes.map (fun a => a.type_set)) = tss
  induction tss generalizing w with
  | nil => exact hWF
  | cons ts rest ih =>
    rw [List.foldl_cons]
    exact ih (WF_sortStep ts cid cmp hWF)

/-! ### cached_query preserves the invariant -/

theorem WF_cachedQuery {w w' : World} {inc exc : List ComponentTypeID}
    {res : List (List ComponentTypeID)}
    (hWF : w.WFb = true) (hc : w.cachedQuery inc exc = some (w', res)) :
    w'.WFb = true := by
  rw [World.cachedQuery] at hc
  split at hc
  case isTrue => cases hc
  case isFalse =>
  simp only [] at hc
  split at hc <;>
  · rw [Option.some.injEq, Prod.mk.injEq] at hc
    rw [← hc.1, WFb_setCacheEntry]
    exact hWF

/-! ### add_raw refines add (identical world effect) -/

theorem add_raw_fst (w : World) (e : Entity) (cid : ComponentTypeID) (v : Val) :
    (w.add_raw e cid v).map Prod.fst = w.add e cid v := by
  rw [World.add_raw, World.add]
  by_cases hit : w.iterating ≠ 0
  · rw [if_pos hit, if_pos hit]
    rfl
  rw [if_neg hit, if_neg hit]
  by_cases ha : w.alive e = true
  case neg =>
    rw [if_pos (show (!w.alive e) = true by revert ha; cases w.alive e <;> simp),
      if_pos (show (!w.alive e) = true by revert ha; cases w.alive e <;> simp)]
    rfl
  rw [if_neg (show ¬ ((!w.alive e) = true) by simp [ha]),
    if_neg (show ¬ ((!w.alive e) = true) by simp [ha])]
  by_cases hhas : (w.archetypeGet
      ((w.recordOf e.index).archetype.getD [])).hasComponent cid = true
  · rw [if_pos hhas, if_pos hhas]
    rfl
  · rw [if_neg hhas, if_neg hhas]
    rfl

theorem WF_add_raw {w w' : World} {e : Entity} {cid : ComponentTypeID} {v : Val}
    {b : Bool} (hWF : w.WFb = true) (hc : w.add_raw e cid v = some (w', b)) :
    w'.WFb = true := by
  have h1 : w.add e cid v = some w' := by
    rw [← add_raw_fst, hc]
    rfl
  exact WF_add hWF h1

/-! ### flush preserves the invariant -/

theorem WF_flushOne {w w' : World} {c : Cmd} {k : Nat} (hWF : w.WFb = true)
    (hc : w.flushOne c = some (w', k)) : w'.WFb = true := by
  cases c with
  | destroyCmd e =>
    rw [World.flushOne] at hc
    rcases hd : w.destroy e with _ | w1
    · rw [hd] at hc
      cases hc
    · rw [hd] at hc
      simp only [Option.map_some', Option.some.injEq, Prod.mk.injEq] at hc
      exact hc.1 ▸ WF_destroy hWF hd
  | addCmd e cid v =>
    rw [World.flushOne] at hc
    rcases hd : w.add_raw e cid v with _ | ⟨w1, b⟩
    · rw [hd] at hc
      cases hc
    · rw [hd] at hc
      simp only [Option.some.injEq, Prod.mk.injEq] at hc
      exact hc.1 ▸ WF_add_raw hWF hd
  | removeCmd e cid =>
    rw [World.flushOne] at hc
    rcases hd : w.remove e cid with _ | w1
    · rw [hd] at hc
      cases hc
    · rw [hd] at hc
      simp only [Option.map_some', Option.some.injEq, Prod.mk.injEq] at hc
      exact hc.1 ▸ WF_remove hWF hd
  | createWithCmd comps =>
    rw [World.flushOne] at hc
    rcases hd : w.create_with comps with _ | p
    · rw [hd] at hc
      cases hc
    · rw [hd] at hc
      simp only [Option.map_some', Option.some.injEq, Prod.mk.injEq] at hc
      exact hc.1 ▸ WF_create_with hWF (by rw [hd])

theorem WF_flushGo : ∀ {cmds : List Cmd} {w w' : World}, w.WFb = true →
    w.flushGo cmds = some w' → w'.WFb = true := by
  intro cmds
  induction cmds with
  | nil =>
    intro w w' hWF hc
    rw [World.flushGo, Option.some.injEq] at hc
    exact hc ▸ hWF
  | cons c rest ih =>
    intro w w' hWF hc
    rw [World.flushGo] at hc
    rcases hd : w.flushOne c with _ | ⟨w1, k⟩
    · rw [hd] at hc
      cases hc
    · rw [hd] at hc
      exact ih (WF_flushOne hWF hd) hc

theorem WF_flushDeferred {w w' : World} {cmds : List Cmd} (hWF : w.WFb = true)
    (hc : w.flushDeferred cmds = some w') : w'.WFb = true := by
  rw [World.flushDeferred] at hc
  by_cases hit : w.iterating ≠ 0
  · rw [if_pos hit] at hc
    cases hc
  · rw [if_neg hit] at hc
    exact WF_flushGo hWF hc

/-! ### The fresh world satisfies the invariant; reachability preserves it -/

theorem WF_init : World.init.WFb = true := by decide

theorem WF_reachable {w : World} (h : World.Reachable w) : w.WFb = true := by
  induction h with
  | init => exact WF_init
  | create _ hc ih => exact WF_create ih hc
  | create_with _ hc ih => exact WF_create_with ih hc
  | destroy _ hc ih => exact WF_destroy ih hc
  | add _ hc ih => exact WF_add ih hc
  | remove _ hc ih => exact WF_remove ih hc
  | sort _ hc ih => exact WF_sort ih hc
  | flush _ hc ih => exact WF_flushDeferred ih hc
  | query _ hc ih => exact WF_cachedQuery ih hc

/-! ### Allocation and destruction effect lemmas -/

theorem allocIndex_concat {w : World} {l : List Nat} {i : Nat}
    (h : w.free_list = l ++ [i]) :
    w.allocIndex = ({ w with free_list := l }, i) := by
  rcases l with _ | ⟨x, xs⟩
  · simp only [List.nil_append] at h
    rw [allocIndex_cons h]
    rfl
  · have h2 : w.free_list = x :: (xs ++ [i]) := by rw [h]; rfl
    rw [allocIndex_cons h2]
    rw [show (x :: (xs ++ [i])).dropLast = x :: xs from by
      rw [show x :: (xs ++ [i]) = (x :: xs) ++ [i] from rfl, List.dropLast_concat]]
    rw [show (x :: (xs ++ [i])).getLastD 0 = i from by
      rw [getLastD_eq_getD,
        show x :: (xs ++ [i]) = (x :: xs) ++ [i] from rfl]
      simp only [List.length_append, List.length_cons, List.length_singleton,
        Nat.add_sub_cancel]
      exact getD_append_len _ _ _]

theorem destroy_effects {w w1 : World} {e : Entity} (hWF : w.WFb = true)
    (he : w.alive e = true) (hd : w.destroy e = some w1) :
    w.iterating = 0 ∧ w1.iterating = 0 ∧
    w1.free_list = w.free_list ++ [e.index] ∧
    w1.generations = w.generations.set e.index ((e.generation + 1) % UINT32_MOD) ∧
    w1.records.length = w.records.length ∧
    w1.recordOf e.index = nilRecord := by
  by_cases hit : w.iterating = 0
  case neg =>
    rw [World.destroy, if_pos hit] at hd
    cases hd
  rcases WF_live hWF he with ⟨ts, a, hts, hfind, hmem, hats, hrow, hent, hidx, hgen⟩
  rw [World.destroy, if_neg (by simp [hit]), if_neg (by simp [he])] at hd
  simp only [hts, Option.getD_some, archetypeGet_eq hfind, World.setRecordRow,
    fireRemoveFold_eq] at hd
  by_cases hsw : (a.swapRemove ((w.recordOf e.index).row)).2 ≠ INVALID_ENTITY
  · rw [if_pos hsw, Option.some.injEq] at hd
    refine ⟨hit, ?_, ?_, ?_, ?_, ?_⟩
    · rw [← hd]
      exact hit
    · rw [← hd]
      rfl
    · rw [← hd]
      show w.generations.set e.index ((w.genOf e.index + 1) % UINT32_MOD) = _
      rw [hgen]
    · rw [← hd]
      show (((w.records.set ((a.swapRemove ((w.recordOf e.index).row)).2.index)
          ⟨(w.recordOf ((a.swapRemove ((w.recordOf e.index).row)).2.index)).archetype,
            (w.recordOf e.index).row⟩)).set e.index nilRecord).length
        = w.records.length
      simp
    · rw [← hd]
      show ((w.setRecord ((a.swapRemove ((w.recordOf e.index).row)).2.index)
          ⟨(w.recordOf ((a.swapRemove ((w.recordOf e.index).row)).2.index)).archetype,
            (w.recordOf e.index).row⟩).setRecord e.index nilRecord).recordOf e.index
        = nilRecord
      exact recordOf_setRecord_self _ _ _ (by simpa using hidx)
  · rw [if_neg hsw, Option.some.injEq] at hd
    refine ⟨hit, ?_, ?_, ?_, ?_, ?_⟩
    · rw [← hd]
      exact hit
    · rw [← hd]
      rfl
    · rw [← hd]
      show w.generations.set e.index ((w.genOf e.index + 1) % UINT32_MOD) = _
      rw [hgen]
    · rw [← hd]
      show ((w.records.set e.index nilRecord)).length = w.records.length
      simp
    · rw [← hd]
      show ((w.updateArch ts (fun _ => (a.swapRemove ((w.recordOf e.index).row)).1)).setRecord
          e.index nilRecord).recordOf e.index = nilRecord
      exact recordOf_setRecord_self _ _ _ (by simpa using hidx)

/-! ### Query cache soundness machinery -/

theorem archetypeGet_type_set (w : World) (ts : List ComponentTypeID) :
    (w.archetypeGet ts).type_set = ts := by
  rw [World.archetypeGet]
  rcases hfind : w.findArchetype ts with _ | a
  · rfl
  · rw [Option.getD_some]
    exact (findArchetype_some hfind).2

theorem allocIndex_fields (w : World) :
    (w.allocIndex).1.query_cache = w.query_cache ∧
    (w.allocIndex).1.archetype_generation = w.archetype_generation ∧
    (w.allocIndex).1.archetypes = w.archetypes := by
  rcases hfl : w.free_list with _ | ⟨x, xs⟩
  · rw [allocIndex_nil hfl]
    exact ⟨rfl, rfl, rfl⟩
  · rw [allocIndex_cons hfl]
    exact ⟨rfl, rfl, rfl⟩

@[simp] theorem withEvents_cache (w : World) (E : List HookEvent) :
    ({ w with events := E } : World).query_cache = w.query_cache := rfl
@[simp] theorem withEvents_archgen (w : World) (E : List HookEvent) :
    ({ w with events := E } : World).archetype_generation = w.archetype_generation := rfl
@[simp] theorem withEvents_archetypes (w : World) (E : List HookEvent) :
    ({ w with events := E } : World).archetypes = w.archetypes := rfl

theorem foldRR_cache (l : List Entity) (off : Nat) (w1 : World) :
    ((enumFrom off l).foldl (fun wa p => wa.setRecordRow p.2.index p.1)
      w1).query_cache = w1.query_cache := by
  induction l generalizing off w1 with
  | nil => rfl
  | cons x xs ih =>
    rw [enumFrom, List.foldl_cons, ih]
    rfl

theorem foldRR_archgen (l : List Entity) (off : Nat) (w1 : World) :
    ((enumFrom off l).foldl (fun wa p => wa.setRecordRow p.2.index p.1)
      w1).archetype_generation = w1.archetype_generation := by
  induction l generalizing off w1 with
  | nil => rfl
  | cons x xs ih =>
    rw [enumFrom, List.foldl_cons, ih]
    rfl

theorem filter_map_typeset (p : List ComponentTypeID → Bool) (l : List Archetype) :
    (l.filter (fun a => p a.type_set)).map (fun a => a.type_set)
      = (l.map (fun a => a.type_set)).filter p := by
  induction l with
  | nil => rfl
  | cons a rest ih =>
    by_cases hp : p a.type_set = true
    · simp [List.filter_cons, hp, ih]
    · simp [List.filter_cons, hp, ih]

theorem scanMatches_eq (w : World) (inc exc : List ComponentTypeID) :
    w.scanMatches inc exc = (w.archetypes.map (fun a => a.type_set)).filter
      (fun ts => archetypeMatches (bitsOf ts) (bitsOf inc) (bitsOf exc)) := by
  rw [World.scanMatches]
  exact filter_map_typeset
    (fun ts => archetypeMatches (bitsOf ts) (bitsOf inc) (bitsOf exc)) w.archetypes

theorem mem_scanMatches {w : World} {inc exc : List ComponentTypeID}
    {ts : List ComponentTypeID} :
    ts ∈ w.scanMatches inc exc ↔ ∃ a, a ∈ w.archetypes ∧ a.type_set = ts ∧
      archetypeMatches (bitsOf a.type_set) (bitsOf inc) (bitsOf exc) = true := by
  rw [World.scanMatches]
  constructor
  · intro h
    rcases List.mem_map.mp h with ⟨a, hamem, hats⟩
    rcases List.mem_filter.mp hamem with ⟨ha, hmatch⟩
    exact ⟨a, ha, hats, hmatch⟩
  · intro ⟨a, ha, hats, hm⟩
    exact List.mem_map.mpr ⟨a, List.mem_filter.mpr ⟨ha, hm⟩, hats⟩

theorem cacheOK_eqs {w w' : World} (hc : w'.query_cache = w.query_cache)
    (hg : w'.archetype_generation = w.archetype_generation)
    (hts : w'.archetypes.map (fun a => a.type_set)
      = w.archetypes.map (fun a => a.type_set))
    (h : w.cacheOKb = true) : w'.cacheOKb = true := by
  have hscan : ∀ i x : List ComponentTypeID, w'.scanMatches i x = w.scanMatches i x := by
    intro i x
    rw [scanMatches_eq, scanMatches_eq, hts]
  rw [World.cacheOKb, List.all_eq_true] at h ⊢
  intro p hp
  have h2 := h p (by rw [← hc]; exact hp)
  simp only [] at h2 ⊢
  rw [hg, hscan]
  exact h2

theorem cacheOK_bump {w w' : World} (hc : w'.query_cache = w.query_cache)
    (hg : w.archetype_generation < w'.archetype_generation)
    (h : w.cacheOKb = true) : w'.cacheOKb = true := by
  rw [World.cacheOKb, List.all_eq_true] at h ⊢
  intro p hp
  have h2 := h p (by rw [← hc]; exact hp)
  simp only [] at h2 ⊢
  simp only [Bool.and_eq_true, Bool.or_eq_true, decide_eq_true_eq, bne_iff_ne] at h2 ⊢
  refine ⟨by omega, Or.inl (by omega)⟩

theorem cachePres_getOrCreate (w : World) (ts : List ComponentTypeID) :
    (w.getOrCreateArchetype ts).query_cache = w.query_cache ∧
    (((w.getOrCreateArchetype ts).archetype_generation = w.archetype_generation ∧
      (w.getOrCreateArchetype ts).archetypes.map (fun a => a.type_set)
        = w.archetypes.map (fun a => a.type_set)) ∨
     (w.archetype_generation < (w.getOrCreateArchetype ts).archetype_generation ∧
      (w.getOrCreateArchetype ts).archetypes.length + w.archetype_generation ≤
        w.archetypes.length + (w.getOrCreateArchetype ts).archetype_generation)) := by
  rcases hfind : w.findArchetype ts with _ | a
  · rw [getOrCreate_new hfind]
    refine ⟨rfl, Or.inr ⟨by simp, ?_⟩⟩
    simp only [List.length_append, List.length_singleton]
    omega
  · rw [getOrCreate_found hfind]
    exact ⟨rfl, Or.inl ⟨rfl, rfl⟩⟩

theorem cachePres_trans {w1 w2 w3 : World}
    (hc1 : w2.query_cache = w1.query_cache)
    (hd1 : (w2.archetype_generation = w1.archetype_generation ∧
        w2.archetypes.map (fun a => a.type_set) = w1.archetypes.map (fun a => a.type_set)) ∨
      (w1.archetype_generation < w2.archetype_generation ∧
        w2.archetypes.length + w1.archetype_generation ≤
          w1.archetypes.length + w2.archetype_generation))
    (hc2 : w3.query_cache = w2.query_cache)
    (hd2 : (w3.archetype_generation = w2.archetype_generation ∧
        w3.archetypes.map (fun a => a.type_set) = w2.archetypes.map (fun a => a.type_set)) ∨
      (w2.archetype_generation < w3.archetype_generation ∧
        w3.archetypes.length + w2.archetype_generation ≤
          w2.archetypes.length + w3.archetype_generation)) :
    w3.query_cache = w1.query_cache ∧
    ((w3.archetype_generation = w1.archetype_generation ∧
        w3.archetypes.map (fun a => a.type_set) = w1.archetypes.map (fun a => a.type_set)) ∨
      (w1.archetype_generation < w3.archetype_generation ∧
        w3.archetypes.length + w1.archetype_generation ≤
          w1.archetypes.length + w3.archetype_generation)) := by
  refine ⟨by rw [hc2, hc1], ?_⟩
  rcases hd1 with ⟨hg1, ht1⟩ | ⟨hl1, hn1⟩
  · have hlen1 : w2.archetypes.length = w1.archetypes.length := by
      have := congrArg List.length ht1
      simpa using this
    rcases hd2 with ⟨hg2, ht2⟩ | ⟨hl2, hn2⟩
    · exact Or.inl ⟨by rw [hg2, hg1], by rw [ht2, ht1]⟩
    · exact Or.inr ⟨by omega, by omega⟩
  · rcases hd2 with ⟨hg2, ht2⟩ | ⟨hl2, hn2⟩
    · have hlen2 : w3.archetypes.length = w2.archetypes.length := by
        have := congrArg List.length ht2
        simpa using this
      exact Or.inr ⟨by omega, by omega⟩
    · exact Or.inr ⟨by omega, by omega⟩

theorem migrate_cacheFacts (u : World) (e : Entity)
    (oldTs newTs : List ComponentTypeID) (row : Nat) :
    (u.migrateEntity e oldTs newTs row).query_cache = u.query_cache ∧
    (u.migrateEntity e oldTs newTs row).archetype_generation
      = u.archetype_generation ∧
    (u.migrateEntity e oldTs newTs row).archetypes.map (fun a => a.type_set)
      = u.archetypes.map (fun a => a.type_set) := by
  rw [World.migrateEntity]
  refine ⟨?_, ?_, ?_⟩
  · rw [setRecord_cache]
    split
    · rw [World.setRecordRow, setRecord_cache, updateArch_cache, updateArch_cache,
        updateArch_cache]
    · rw [updateArch_cache, updateArch_cache, updateArch_cache]
  · rw [setRecord_archgen]
    split
    · rw [World.setRecordRow, setRecord_archgen, updateArch_archgen, updateArch_archgen,
        updateArch_archgen]
    · rw [updateArch_archgen, updateArch_archgen, updateArch_archgen]
  · have hpr : ∀ x : Archetype, x.type_set = oldTs →
        ((((u.updateArch newTs (fun na =>
            { na with columns := na.columns.map (fun cv =>
                match (u.archetypeGet oldTs).getValue cv.1 row with
                | some v => (cv.1, cv.2 ++ [v])
                | none => cv) })).updateArch newTs
              (fun a => a.pushEntity e)).archetypeGet oldTs).swapRemove
          row).1.type_set = x.type_set := by
      intro x hx
      rw [swapRemove_type_set, archetypeGet_type_set, hx]
    rw [setRecord_archetypes]
    split
    · rw [World.setRecordRow, setRecord_archetypes, updateArch_archetypes,
        map_typeset_update _ _ _ hpr, updateArch_archetypes,
        map_typeset_update _ newTs (fun a => a.pushEntity e) (fun x _ => rfl),
        updateArch_archetypes,
        map_typeset_update _ newTs (fun na =>
          { na with columns := na.columns.map (fun cv =>
              match (u.archetypeGet oldTs).getValue cv.1 row with
              | some v => (cv.1, cv.2 ++ [v])
              | none => cv) }) (fun x _ => rfl)]
    · rw [updateArch_archetypes,
        map_typeset_update _ _ _ hpr, updateArch_archetypes,
        map_typeset_update _ newTs (fun a => a.pushEntity e) (fun x _ => rfl),
        updateArch_archetypes,
        map_typeset_update _ newTs (fun na =>
          { na with columns := na.columns.map (fun cv =>
              match (u.archetypeGet oldTs).getValue cv.1 row with
              | some v => (cv.1, cv.2 ++ [v])
              | none => cv) }) (fun x _ => rfl)]

theorem cacheFacts_destroy {w w' : World} {e : Entity} (hWF : w.WFb = true)
    (hd : w.destroy e = some w') :
    w'.query_cache = w.query_cache ∧
    w'.archetype_generation = w.archetype_generation ∧
    w'.archetypes.map (fun a => a.type_set) = w.archetypes.map (fun a => a.type_set) := by
  by_cases hit : w.iterating = 0
  case neg =>
    rw [World.destroy, if_pos hit] at hd
    cases hd
  by_cases ha : w.alive e = true
  case neg =>
    rw [World.destroy, if_neg (by simp [hit]),
      if_pos (by revert ha; cases w.alive e <;> simp)] at hd
    have hW := Option.some.inj hd
    rw [← hW]
    exact ⟨rfl, rfl, rfl⟩
  rcases WF_live hWF ha with ⟨ts, a, hts, hfind, hmem, hats, hrow, hent, hidx, hgen⟩
  rw [World.destroy, if_neg (by simp [hit]), if_neg (by simp [ha])] at hd
  simp only [hts, Option.getD_some, archetypeGet_eq hfind, World.setRecordRow,
    fireRemoveFold_eq] at hd
  have hpr : ∀ x : Archetype, x.type_set = ts →
      ((a.swapRemove ((w.recordOf e.index).row)).1).type_set = x.type_set := by
    intro x hx
    rw [swapRemove_type_set, hats, hx]
  by_cases hsw : (a.swapRemove ((w.recordOf e.index).row)).2 ≠ INVALID_ENTITY
  · rw [if_pos hsw, Option.some.injEq] at hd
    refine ⟨by rw [← hd]; rfl, by rw [← hd]; rfl, ?_⟩
    rw [← hd]
    show (w.archetypes.map (fun x => if x.type_set == ts then
        (a.swapRemove ((w.recordOf e.index).row)).1 else x)).map (fun a => a.type_set)
      = w.archetypes.map (fun a => a.type_set)
    exact map_typeset_update _ _ _ hpr
  · rw [if_neg hsw, Option.some.injEq] at hd
    refine ⟨by rw [← hd]; rfl, by rw [← hd]; rfl, ?_⟩
    rw [← hd]
    show (w.archetypes.map (fun x => if x.type_set == ts then
        (a.swapRemove ((w.recordOf e.index).row)).1 else x)).map (fun a => a.type_set)
      = w.archetypes.map (fun a => a.type_set)
    exact map_typeset_update _ _ _ hpr

theorem cacheFacts_create {w w' : World} {e : Entity} (hc : w.create = some (w', e)) :
    w'.query_cache = w.query_cache ∧
    ((w'.archetype_generation = w.archetype_generation ∧
      w'.archetypes.map (fun a => a.type_set) = w.archetypes.map (fun a => a.type_set)) ∨
     (w.archetype_generation < w'.archetype_generation ∧
      w'.archetypes.length + w.archetype_generation ≤
        w.archetypes.length + w'.archetype_generation)) := by
  rw [World.create] at hc
  by_cases hit : w.iterating ≠ 0
  · rw [if_pos hit] at hc
    cases hc
  rw [if_neg hit] at hc
  simp only [] at hc
  rw [Option.some.injEq, Prod.mk.injEq] at hc
  rcases hc with ⟨hW, _⟩
  rcases allocIndex_fields w with ⟨hac, hag, haa⟩
  rcases cachePres_getOrCreate (w.allocIndex).1 [] with ⟨hgc, hgd⟩
  constructor
  · rw [← hW, setRecord_cache, updateArch_cache, hgc, hac]
  · rcases hgd with ⟨hg1, hg2⟩ | ⟨hl1, hn1⟩
    · left
      refine ⟨by rw [← hW, setRecord_archgen, updateArch_archgen, hg1, hag], ?_⟩
      rw [← hW, setRecord_archetypes, updateArch_archetypes,
        map_typeset_update _ [] (fun a => a.pushEntity
          ⟨(w.allocIndex).2, (w.allocIndex).1.genOf (w.allocIndex).2⟩) (fun x _ => rfl),
        hg2, haa]
    · right
      refine ⟨?_, ?_⟩
      · rw [← hW, setRecord_archgen, updateArch_archgen]
        rw [hag] at hl1
        exact hl1
      · rw [← hW, setRecord_archgen, updateArch_archgen, setRecord_archetypes,
          updateArch_archetypes, List.length_map]
        rw [hag, haa] at hn1
        exact hn1

theorem fireAddFold_fields (comps : List (ComponentTypeID × Val)) (e : Entity) :
    ∀ w : World,
    (comps.foldl (fun wa cv => wa.fireAdd cv.1 e) w).query_cache = w.query_cache ∧
    (comps.foldl (fun wa cv => wa.fireAdd cv.1 e) w).archetype_generation
      = w.archetype_generation ∧
    (comps.foldl (fun wa cv => wa.fireAdd cv.1 e) w).archetypes = w.archetypes := by
  induction comps with
  | nil => exact fun w => ⟨rfl, rfl, rfl⟩
  | cons cv rest ih =>
    intro w
    rw [List.foldl_cons]
    rcases ih (w.fireAdd cv.1 e) with ⟨h1, h2, h3⟩
    exact ⟨by rw [h1]; rfl, by rw [h2]; rfl, by rw [h3]; rfl⟩

theorem cacheFacts_create_with {w w' : World} {comps : List (ComponentTypeID × Val)}
    {e : Entity} (hc : w.create_with comps = some (w', e)) :
    w'.query_cache = w.query_cache ∧
    ((w'.archetype_generation = w.archetype_generation ∧
      w'.archetypes.map (fun a => a.type_set) = w.archetypes.map (fun a => a.type_set)) ∨
     (w.archetype_generation < w'.archetype_generation ∧
      w'.archetypes.length + w.archetype_generation ≤
        w.archetypes.length + w'.archetype_generation)) := by
  rw [World.create_with] at hc
  by_cases hit : w.iterating ≠ 0
  · rw [if_pos hit] at hc
    cases hc
  rw [if_neg hit] at hc
  simp only [] at hc
  generalize hTS : sortIds (comps.map Prod.fst) = ts0 at hc
  generalize hP : (w.getOrCreateArchetype ts0).allocIndex = P at hc
  split at hc
  swap
  · cases hc
  rename_i hpar
  rw [Option.some.injEq, Prod.mk.injEq] at hc
  rcases hc with ⟨hW, _⟩
  have hPc : P.1.query_cache = (w.getOrCreateArchetype ts0).query_cache := by
    rw [← hP]
    exact (allocIndex_fields _).1
  have hPg : P.1.archetype_generation
      = (w.getOrCreateArchetype ts0).archetype_generation := by
    rw [← hP]
    exact (allocIndex_fields _).2.1
  have hPa : P.1.archetypes = (w.getOrCreateArchetype ts0).archetypes := by
    rw [← hP]
    exact (allocIndex_fields _).2.2
  rcases cachePres_getOrCreate w ts0 with ⟨hgc, hgd⟩
  have hc5 : w'.query_cache = w.query_cache := by
    rw [← hW, (fireAddFold_fields _ _ _).1, setRecord_cache, foldl_updateArch,
      updateArch_cache, updateArch_cache, hPc, hgc]
  have hg5 : w'.archetype_generation
      = (w.getOrCreateArchetype ts0).archetype_generation := by
    rw [← hW, (fireAddFold_fields _ _ _).2.1, setRecord_archgen, foldl_updateArch,
      updateArch_archgen, updateArch_archgen, hPg]
  have ht5 : w'.archetypes.map (fun a => a.type_set)
      = (w.getOrCreateArchetype ts0).archetypes.map (fun a => a.type_set) := by
    rw [← hW, (fireAddFold_fields _ _ _).2.2, setRecord_archetypes, foldl_updateArch,
      updateArch_archetypes,
      map_typeset_update _ ts0 (fun a => comps.foldl
        (fun x cv => x.pushRawInto cv.1 cv.2) a)
        (fun x _ => by rw [foldPush_type_set]),
      updateArch_archetypes,
      map_typeset_update _ ts0 (fun a => a.pushEntity ⟨P.2, P.1.genOf P.2⟩)
        (fun x _ => rfl),
      hPa]
  have hl5 : w'.archetypes.length
      = (w.getOrCreateArchetype ts0).archetypes.length := by
    have := congrArg List.length ht5
    simpa using this
  refine ⟨hc5, ?_⟩
  rcases hgd with ⟨hg1, hg2⟩ | ⟨hl1, hn1⟩
  · exact Or.inl ⟨by rw [hg5, hg1], by rw [ht5, hg2]⟩
  · refine Or.inr ⟨by rw [hg5]; exact hl1, ?_⟩
    rw [hg5, hl5]
    exact hn1

theorem cacheFacts_add {w w' : World} {e : Entity} {cid : ComponentTypeID} {v : Val}
    (hWF : w.WFb = true) (hc : w.add e cid v = some w') :
    w'.query_cache = w.query_cache ∧
    ((w'.archetype_generation = w.archetype_generation ∧
      w'.archetypes.map (fun a => a.type_set) = w.archetypes.map (fun a => a.type_set)) ∨
     (w.archetype_generation < w'.archetype_generation ∧
      w'.archetypes.length + w.archetype_generation ≤
        w.archetypes.length + w'.archetype_generation)) := by
  rw [World.add] at hc
  by_cases hit : w.iterating ≠ 0
  · rw [if_pos hit] at hc
    cases hc
  rw [if_neg hit] at hc
  by_cases ha : w.alive e = true
  case neg =>
    rw [if_pos (by revert ha; cases w.alive e <;> simp)] at hc
    have hW := Option.some.inj hc
    rw [← hW]
    exact ⟨rfl, Or.inl ⟨rfl, rfl⟩⟩
  rw [if_neg (by simp [ha])] at hc
  rcases WF_live hWF ha with ⟨ts, a, hts, hfind, hmem, hats, hrow, hent, hidx, hgen⟩
  simp only [hts, Option.getD_some, archetypeGet_eq hfind] at hc
  by_cases hhas : a.hasComponent cid = true
  · rw [if_pos hhas, Option.some.injEq] at hc
    refine ⟨by rw [← hc]; rfl, Or.inl ⟨by rw [← hc]; rfl, ?_⟩⟩
    rw [← hc]
    show (w.archetypes.map (fun x => if x.type_set == ts then
        { x with columns := setCol cid ((w.recordOf e.index).row) v x.columns }
      else x)).map (fun a => a.type_set) = w.archetypes.map (fun a => a.type_set)
    exact map_typeset_update _ _ _ (fun x _ => rfl)
  · rw [if_neg hhas, Option.some.injEq] at hc
    rcases cachePres_getOrCreate w (World.addTargetTs ts cid) with ⟨hgc, hgd⟩
    rcases migrate_cacheFacts (w.getOrCreateArchetype (World.addTargetTs ts cid)) e ts
      (World.addTargetTs ts cid) ((w.recordOf e.index).row) with ⟨hmc, hmg, hmt⟩
    constructor
    · rw [← hc, fireAdd_cache, updateArch_cache, hmc, hgc]
    · rcases hgd with ⟨hg1, hg2⟩ | ⟨hl1, hn1⟩
      · left
        refine ⟨by rw [← hc, fireAdd_archgen, updateArch_archgen, hmg, hg1], ?_⟩
        rw [← hc, fireAdd_archetypes, updateArch_archetypes,
          map_typeset_update _ (World.addTargetTs ts cid)
            (fun a => a.pushRawInto cid v) (fun x _ => rfl),
          hmt, hg2]
      · right
        have hmlen : ((w.getOrCreateArchetype
            (World.addTargetTs ts cid)).migrateEntity e ts (World.addTargetTs ts cid)
              ((w.recordOf e.index).row)).archetypes.length
            = (w.getOrCreateArchetype (World.addTargetTs ts cid)).archetypes.length := by
          have := congrArg List.length hmt
          simpa using this
        refine ⟨by rw [← hc, fireAdd_archgen, updateArch_archgen, hmg]; exact hl1, ?_⟩
        rw [← hc, fireAdd_archgen, updateArch_archgen, fireAdd_archetypes,
          updateArch_archetypes, List.length_map, hmg, hmlen]
        exact hn1

theorem cacheFacts_remove {w w' : World} {e : Entity} {cid : ComponentTypeID}
    (hWF : w.WFb = true) (hc : w.remove e cid = some w') :
    w'.query_cache = w.query_cache ∧
    ((w'.archetype_generation = w.archetype_generation ∧
      w'.archetypes.map (fun a => a.type_set) = w.archetypes.map (fun a => a.type_set)) ∨
     (w.archetype_generation < w'.archetype_generation ∧
      w'.archetypes.length + w.archetype_generation ≤
        w.archetypes.length + w'.archetype_generation)) := by
  rw [World.remove] at hc
  by_cases hit : w.iterating ≠ 0
  · rw [if_pos hit] at hc
    cases hc
  rw [if_neg hit] at hc
  by_cases ha : w.alive e = true
  case neg =>
    rw [if_pos (by revert ha; cases w.alive e <;> simp)] at hc
    have hW := Option.some.inj hc
    rw [← hW]
    exact ⟨rfl, Or.inl ⟨rfl, rfl⟩⟩
  rw [if_neg (by simp [ha])] at hc
  rcases WF_live hWF ha with ⟨ts, a, hts, hfind, hmem, hats, hrow, hent, hidx, hgen⟩
  simp only [hts, Option.getD_some, archetypeGet_eq hfind] at hc
  by_cases hhas : a.hasComponent cid = true
  case neg =>
    rw [if_pos (by revert hhas; cases a.hasComponent cid <;> simp)] at hc
    have hW := Option.some.inj hc
    rw [← hW]
    exact ⟨rfl, Or.inl ⟨rfl, rfl⟩⟩
  rw [if_neg (by simp [hhas]), Option.some.injEq] at hc
  rcases cachePres_getOrCreate w (World.removeTargetTs ts cid) with ⟨hgc, hgd⟩
  rcases migrate_cacheFacts ((w.getOrCreateArchetype
    (World.removeTargetTs ts cid)).fireRemove cid e) e ts
    (World.removeTargetTs ts cid) ((w.recordOf e.index).row) with ⟨hmc, hmg, hmt⟩
  constructor
  · rw [← hc, hmc, fireRemove_cache, hgc]
  · rcases hgd with ⟨hg1, hg2⟩ | ⟨hl1, hn1⟩
    · left
      refine ⟨by rw [← hc, hmg, fireRemove_archgen, hg1], ?_⟩
      rw [← hc, hmt, fireRemove_archetypes, hg2]
    · right
      have hmlen : (((w.getOrCreateArchetype
          (World.removeTargetTs ts cid)).fireRemove cid e).migrateEntity e ts
            (World.removeTargetTs ts cid)
            ((w.recordOf e.index).row)).archetypes.length
          = (w.getOrCreateArchetype (World.removeTargetTs ts cid)).archetypes.length := by
        have := congrArg List.length hmt
        simpa using this
      refine ⟨by rw [← hc, hmg, fireRemove_archgen]; exact hl1, ?_⟩
      rw [← hc, hmg, fireRemove_archgen, hmlen]
      exact hn1

theorem cacheFacts_sortStep (w : World) (ts : List ComponentTypeID)
    (cid : ComponentTypeID) (cmp : Val → Val → Bool) :
    (w.sortStep ts cid cmp).query_cache = w.query_cache ∧
    (w.sortStep ts cid cmp).archetype_generation = w.archetype_generation ∧
    (w.sortStep ts cid cmp).archetypes.map (fun a => a.type_set)
      = w.archetypes.map (fun a => a.type_set) := by
  rw [World.sortStep]
  split
  · refine ⟨?_, ?_, ?_⟩
    · rw [foldRR_cache, updateArch_cache]
    · rw [foldRR_archgen, updateArch_archgen]
    · rw [foldRR_archetypes, updateArch_archetypes,
        map_typeset_update _ _ _ (fun x hx => by
          show (w.archetypeGet ts).type_set = x.type_set
          rw [archetypeGet_type_set, hx])]
  · exact ⟨rfl, rfl, rfl⟩

theorem cacheFacts_sortFold (cid : ComponentTypeID) (cmp : Val → Val → Bool) :
    ∀ (L : List (List ComponentTypeID)) (w : World),
    ((L.foldl (fun wa ts => wa.sortStep ts cid cmp) w).query_cache = w.query_cache ∧
    (L.foldl (fun wa ts => wa.sortStep ts cid cmp) w).archetype_generation
      = w.archetype_generation ∧
    (L.foldl (fun wa ts => wa.sortStep ts cid cmp) w).archetypes.map
        (fun a => a.type_set)
      = w.archetypes.map (fun a => a.type_set)) := by
  intro L
  induction L with
  | nil => exact fun w => ⟨rfl, rfl, rfl⟩
  | cons t rest ih =>
    intro w
    rw [List.foldl_cons]
    rcases ih (w.sortStep t cid cmp) with ⟨h1, h2, h3⟩
    rcases cacheFacts_sortStep w t cid cmp with ⟨g1, g2, g3⟩
    exact ⟨by rw [h1, g1], by rw [h2, g2], by rw [h3, g3]⟩

theorem cacheFacts_sort {w w' : World} {cid : ComponentTypeID}
    {cmp : Val → Val → Bool} (hs : w.sort cid cmp = some w') :
    w'.query_cache = w.query_cache ∧
    w'.archetype_generation = w.archetype_generation ∧
    w'.archetypes.map (fun a => a.type_set) = w.archetypes.map (fun a => a.type_set) := by
  rw [World.sort] at hs
  by_cases hit : w.iterating ≠ 0
  · rw [if_pos hit] at hs
    cases hs
  rw [if_neg hit, Option.some.injEq] at hs
  rw [← hs]
  exact cacheFacts_sortFold cid cmp _ w

theorem cacheFacts_add_raw {w w' : World} {e : Entity} {cid : ComponentTypeID} {v : Val}
    {b : Bool} (hWF : w.WFb = true) (hc : w.add_raw e cid v = some (w', b)) :
    w'.query_cache = w.query_cache ∧
    ((w'.archetype_generation = w.archetype_generation ∧
      w'.archetypes.map (fun a => a.type_set) = w.archetypes.map (fun a => a.type_set)) ∨
     (w.archetype_generation < w'.archetype_generation ∧
      w'.archetypes.length + w.archetype_generation ≤
        w.archetypes.length + w'.archetype_generation)) := by
  have h1 : w.add e cid v = some w' := by
    rw [← add_raw_fst, hc]
    rfl
  exact cacheFacts_add hWF h1

theorem cacheFacts_flushOne {w w' : World} {c : Cmd} {k : Nat} (hWF : w.WFb = true)
    (hc : w.flushOne c = some (w', k)) :
    w'.query_cache = w.query_cache ∧
    ((w'.archetype_generation = w.archetype_generation ∧
      w'.archetypes.map (fun a => a.type_set) = w.archetypes.map (fun a => a.type_set)) ∨
     (w.archetype_generation < w'.archetype_generation ∧
      w'.archetypes.length + w.archetype_generation ≤
        w.archetypes.length + w'.archetype_generation)) := by
  cases c with
  | destroyCmd e =>
    rw [World.flushOne] at hc
    rcases hd : w.destroy e with _ | w1
    · rw [hd] at hc
      cases hc
    · rw [hd] at hc
      simp only [Option.map_some', Option.some.injEq, Prod.mk.injEq] at hc
      rcases cacheFacts_destroy hWF hd with ⟨h1, h2, h3⟩
      rw [← hc.1]
      exact ⟨h1, Or.inl ⟨h2, h3⟩⟩
  | addCmd e cid v =>
    rw [World.flushOne] at hc
    rcases hd : w.add_raw e cid v with _ | ⟨w1, b⟩
    · rw [hd] at hc
      cases hc
    · rw [hd] at hc
      simp only [Option.some.injEq, Prod.mk.injEq] at hc
      rw [← hc.1]
      exact cacheFacts_add_raw hWF hd
  | removeCmd e cid =>
    rw [World.flushOne] at hc
    rcases hd : w.remove e cid with _ | w1
    · rw [hd] at hc
      cases hc
    · rw [hd] at hc
      simp only [Option.map_some', Option.some.injEq, Prod.mk.injEq] at hc
      rw [← hc.1]
      exact cacheFacts_remove hWF hd
  | createWithCmd comps =>
    rw [World.flushOne] at hc
    rcases hd : w.create_with comps with _ | p
    · rw [hd] at hc
      cases hc
    · rw [hd] at hc
      simp only [Option.map_some', Option.some.injEq, Prod.mk.injEq] at hc
      rw [← hc.1]
      exact cacheFacts_create_with (by rw [hd])

theorem cacheFacts_flushGo : ∀ {cmds : List Cmd} {w w' : World}, w.WFb = true →
    w.flushGo cmds = some w' →
    w'.query_cache = w.query_cache ∧
    ((w'.archetype_generation = w.archetype_generation ∧
      w'.archetypes.map (fun a => a.type_set) = w.archetypes.map (fun a => a.type_set)) ∨
     (w.archetype_generation < w'.archetype_generation ∧
      w'.archetypes.length + w.archetype_generation ≤
        w.archetypes.length + w'.archetype_generation)) := by
  intro cmds
  induction cmds with
  | nil =>
    intro w w' hWF hc
    rw [World.flushGo, Option.some.injEq] at hc
    rw [← hc]
    exact ⟨rfl, Or.inl ⟨rfl, rfl⟩⟩
  | cons c rest ih =>
    intro w w' hWF hc
    rw [World.flushGo] at hc
    rcases hd : w.flushOne c with _ | ⟨w1, k⟩
    · rw [hd] at hc
      cases hc
    · rw [hd] at hc
      rcases cacheFacts_flushOne hWF hd with ⟨f1, f2⟩
      rcases ih (WF_flushOne hWF hd) hc with ⟨g1, g2⟩
      exact cachePres_trans f1 f2 g1 g2

theorem cacheFacts_flushDeferred {w w' : World} {cmds : List Cmd} (hWF : w.WFb = true)
    (hc : w.flushDeferred cmds = some w') :
    w'.query_cache = w.query_cache ∧
    ((w'.archetype_generation = w.archetype_generation ∧
      w'.archetypes.map (fun a => a.type_set) = w.archetypes.map (fun a => a.type_set)) ∨
     (w.archetype_generation < w'.archetype_generation ∧
      w'.archetypes.length + w.archetype_generation ≤
        w.archetypes.length + w'.archetype_generation)) := by
  rw [World.flushDeferred] at hc
  by_cases hit : w.iterating ≠ 0
  · rw [if_pos hit] at hc
    cases hc
  · rw [if_neg hit] at hc
    exact cacheFacts_flushGo hWF hc

theorem cacheOK_setCacheEntry {w : World} {key : QueryKey} {entry : QueryCacheEntry}
    (hOK : w.cacheOKb = true)
    (hle : entry.generation ≤ w.archetype_generation)
    (heq : entry.generation = w.archetype_generation →
      entry.archetypes = w.scanMatches key.include_ids key.exclude_ids) :
    (w.setCacheEntry key entry).cacheOKb = true := by
  have hent : ∀ q : QueryKey × QueryCacheEntry, q = (key, entry) →
      (decide (q.2.generation ≤ (w.setCacheEntry key entry).archetype_generation) &&
        (q.2.generation != (w.setCacheEntry key entry).archetype_generation ||
          (q.2.archetypes == (w.setCacheEntry key entry).scanMatches q.1.include_ids
            q.1.exclude_ids))) = true := by
    intro q hq
    subst hq
    simp only [Bool.and_eq_true, Bool.or_eq_true, decide_eq_true_eq, bne_iff_ne,
      beq_iff_eq]
    refine ⟨hle, ?_⟩
    by_cases hg : entry.generation = w.archetype_generation
    · exact Or.inr (heq hg)
    · exact Or.inl hg
  have hold : ∀ q ∈ w.query_cache,
      (decide (q.2.generation ≤ (w.setCacheEntry key entry).archetype_generation) &&
        (q.2.generation != (w.setCacheEntry key entry).archetype_generation ||
          (q.2.archetypes == (w.setCacheEntry key entry).scanMatches q.1.include_ids
            q.1.exclude_ids))) = true := by
    intro q hq
    rw [World.cacheOKb, List.all_eq_true] at hOK
    exact hOK q hq
  rw [World.cacheOKb, List.all_eq_true]
  intro p hp
  rw [World.setCacheEntry] at hp
  simp only [] at hp
  split at hp
  · rcases List.mem_map.mp hp with ⟨q, hqmem, hqe⟩
    by_cases hqk : (q.1 == key) = true
    · rw [if_pos hqk] at hqe
      exact hent p hqe.symm
    · rw [if_neg hqk] at hqe
      rw [← hqe]
      exact hold q hqmem
  · rcases List.mem_append.mp hp with hq | hq
    · exact hold p hq
    · rw [List.mem_singleton] at hq
      exact hent p hq

theorem cachedQuery_exact {w w' : World} {inc exc : List ComponentTypeID}
    {res : List (List ComponentTypeID)}
    (hOK : w.cacheOKb = true) (hLen : w.archetypes.length ≤ w.archetype_generation)
    (hq : w.cachedQuery inc exc = some (w', res)) :
    (∀ ts, ts ∈ res ↔ ∃ a, a ∈ w.archetypes ∧ a.type_set = ts ∧
      archetypeMatches (bitsOf a.type_set) (bitsOf inc) (bitsOf exc) = true) ∧
    w'.cacheOKb = true ∧ w'.archetypes = w.archetypes ∧
    w'.archetype_generation = w.archetype_generation := by
  rw [World.cachedQuery] at hq
  by_cases h16 : inc.length > 16 ∨ exc.length > 16
  · rw [if_pos h16] at hq
    cases hq
  rw [if_neg h16] at hq
  simp only [] at hq
  split at hq
  · rw [Option.some.injEq, Prod.mk.injEq] at hq
    rcases hq with ⟨hW, hres⟩
    refine ⟨?_, ?_, by rw [← hW]; rfl, by rw [← hW]; rfl⟩
    · intro ts
      rw [← hres]
      exact mem_scanMatches
    · rw [← hW]
      exact cacheOK_setCacheEntry hOK (le_refl _) (fun _ => rfl)
  · rename_i hne
    rw [Option.some.injEq, Prod.mk.injEq] at hq
    rcases hq with ⟨hW, hres⟩
    have hgeq : (((w.query_cache.find? (fun p => p.1 == (⟨inc, exc⟩ : QueryKey))).map
        Prod.snd).getD ⟨[], 0⟩).generation = w.archetype_generation := by
      by_contra hcon
      exact hne hcon
    have hexact : (((w.query_cache.find? (fun p => p.1 == (⟨inc, exc⟩ : QueryKey))).map
        Prod.snd).getD ⟨[], 0⟩).archetypes = w.scanMatches inc exc := by
      rcases hf : w.query_cache.find? (fun p => p.1 == (⟨inc, exc⟩ : QueryKey))
        with _ | q
      · rw [hf] at hgeq
        simp only [Option.map_none', Option.getD_none] at hgeq
        have hgen0 : w.archetype_generation = 0 := hgeq.symm
        have harch : w.archetypes = [] := by
          rw [hgen0] at hLen
          exact List.length_eq_zero.mp (Nat.le_zero.mp hLen)
        rw [hf]
        simp only [Option.map_none', Option.getD_none]
        rw [scanMatches_eq, harch]
        rfl
      · rw [hf] at hgeq
        simp only [Option.map_some', Option.getD_some] at hgeq
        rw [hf]
        simp only [Option.map_some', Option.getD_some]
        have hqmem : q ∈ w.query_cache := List.mem_of_find?_eq_some hf
        have hkey : q.1 = ⟨inc, exc⟩ := by simpa using List.find?_some hf
        rw [World.cacheOKb, List.all_eq_true] at hOK
        have h3 := hOK q hqmem
        simp only [Bool.and_eq_true, Bool.or_eq_true, decide_eq_true_eq, bne_iff_ne,
          beq_iff_eq] at h3
        rcases h3.2 with hne2 | hsc
        · exact absurd hgeq hne2
        · rw [hkey] at hsc
          exact hsc
    refine ⟨?_, ?_, by rw [← hW]; rfl, by rw [← hW]; rfl⟩
    · intro ts
      rw [← hres, hexact]
      exact mem_scanMatches
    · rw [← hW]
      exact cacheOK_setCacheEntry hOK (by rw [hgeq]) (fun _ => hexact)

theorem cacheInv_step {w w' : World}
    (hc : w'.query_cache = w.query_cache)
    (hd : (w'.archetype_generation = w.archetype_generation ∧
        w'.archetypes.map (fun a => a.type_set) = w.archetypes.map (fun a => a.type_set)) ∨
      (w.archetype_generation < w'.archetype_generation ∧
        w'.archetypes.length + w.archetype_generation ≤
          w.archetypes.length + w'.archetype_generation))
    (ih : w.cacheOKb = true ∧ w.archetypes.length ≤ w.archetype_generation) :
    w'.cacheOKb = true ∧ w'.archetypes.length ≤ w'.archetype_generation := by
  obtain ⟨hOK, hLen⟩ := ih
  rcases hd with ⟨hg, ht⟩ | ⟨hl, hn⟩
  · have hlen : w'.archetypes.length = w.archetypes.length := by
      have := congrArg List.length ht
      simpa using this
    exact ⟨cacheOK_eqs hc hg ht hOK, by omega⟩
  · exact ⟨cacheOK_bump hc hl hOK, by omega⟩

theorem cache_reachable {w : World} (h : World.Reachable w) :
    w.cacheOKb = true ∧ w.archetypes.length ≤ w.archetype_generation := by
  induction h with
  | init => exact ⟨by decide, by decide⟩
  | create _ hc ih =>
    rcases cacheFacts_create hc with ⟨h1, h2⟩
    exact cacheInv_step h1 h2 ih
  | create_with _ hc ih =>
    rcases cacheFacts_create_with hc with ⟨h1, h2⟩
    exact cacheInv_step h1 h2 ih
  | destroy hR hc ih =>
    rcases cacheFacts_destroy (WF_reachable hR) hc with ⟨h1, h2, h3⟩
    exact cacheInv_step h1 (Or.inl ⟨h2, h3⟩) ih
  | add hR hc ih =>
    rcases cacheFacts_add (WF_reachable hR) hc with ⟨h1, h2⟩
    exact cacheInv_step h1 h2 ih
  | remove hR hc ih =>
    rcases cacheFacts_remove (WF_reachable hR) hc with ⟨h1, h2⟩
    exact cacheInv_step h1 h2 ih
  | sort _ hc ih =>
    rcases cacheFacts_sort hc with ⟨h1, h2, h3⟩
    exact cacheInv_step h1 (Or.inl ⟨h2, h3⟩) ih
  | flush hR hc ih =>
    rcases cacheFacts_flushDeferred (WF_reachable hR) hc with ⟨h1, h2⟩
    exact cacheInv_step h1 h2 ih
  | query _ hc ih =>
    rcases cachedQuery_exact ih.1 ih.2 hc with ⟨_, hOK, harch, hgen⟩
    refine ⟨hOK, ?_⟩
    rw [harch, hgen]
    exact ih.2

/-! ### Observable effects of add and remove -/

theorem find?_map_keyfix (g : (ComponentTypeID × Column) → (ComponentTypeID × Column))
    (hg : ∀ cv, (g cv).1 = cv.1) (cs : List (ComponentTypeID × Column))
    (c : ComponentTypeID) :
    (cs.map g).find? (fun p => p.1 == c) = (cs.find? (fun p => p.1 == c)).map g := by
  induction cs with
  | nil => rfl
  | cons cv rest ih =>
    by_cases hc : cv.1 = c
    · rw [List.map_cons, List.find?_cons_of_pos _ (by simp [hg, hc]),
        List.find?_cons_of_pos _ (by simp [hc])]
      rfl
    · rw [List.map_cons, List.find?_cons_of_neg _ (by simp [hg, hc]),
        List.find?_cons_of_neg _ (by simp [hc])]
      exact ih

theorem add_cases {w w' : World} {e : Entity} {cid : ComponentTypeID} {v : Val}
    (hWF : w.WFb = true) (ha : w.alive e = true) (hc : w.add e cid v = some w') :
    w'.alive e = true ∧ w'.get e cid = some v ∧ w'.has e cid = true ∧
    (w.has e cid = true → w'.events = w.events ∧ w'.records = w.records) ∧
    (w.has e cid = false → w'.events = w.events ++ [HookEvent.addH cid e]) := by
  rw [World.add] at hc
  by_cases hit : w.iterating ≠ 0
  · rw [if_pos hit] at hc
    cases hc
  rw [if_neg hit, if_neg (by simp [ha])] at hc
  rcases WF_live hWF ha with ⟨ts, a, hts, hfind, hmem, hats, hrow, hent, hidx, hgen⟩
  simp only [hts, Option.getD_some, archetypeGet_eq hfind] at hc
  have hhasw : w.has e cid = a.hasComponent cid := by
    rw [World.has, hts]
    simp only [Option.getD_some, archetypeGet_eq hfind, ha, Bool.true_and]
  by_cases hhas : a.hasComponent cid = true
  · rw [if_pos hhas, Option.some.injEq] at hc
    have halive' : w'.alive e = true := by
      rw [← hc]
      exact ha
    have hfind' : w'.findArchetype ts = some
        { a with columns := setCol cid ((w.recordOf e.index).row) v a.columns } := by
      rw [← hc]
      exact findArchetype_updateArch_self
        (fun x => { x with columns := setCol cid ((w.recordOf e.index).row) v x.columns })
        (fun x _ => rfl) hfind
    have hrec' : w'.recordOf e.index = w.recordOf e.index := by
      rw [← hc]
      rfl
    obtain ⟨cv0, hfcv0⟩ : ∃ cv0, a.columns.find? (fun p => p.1 == cid) = some cv0 :=
      Option.isSome_iff_exists.mp (find?_isSome_iff.mpr ((hasComponent_iff a cid).mp hhas))
    rcases find?_entry hfcv0 with ⟨hcv0mem, hcv0k⟩
    have hcv0len : cv0.2.length = a.entities.length :=
      (WF_arch_parts hWF hmem).2.2 cv0 hcv0mem
    have hhasA : ({ a with columns := setCol cid ((w.recordOf e.index).row) v a.columns }
        : Archetype).hasComponent cid = true := by
      rw [hasComponent_iff]
      show cid ∈ (setCol cid ((w.recordOf e.index).row) v a.columns).map Prod.fst
      rw [setCol, editCol_keys]
      exact (hasComponent_iff a cid).mp hhas
    have hhas' : w'.has e cid = true := by
      rw [World.has, halive', Bool.true_and, hrec', hts]
      show (w'.archetypeGet ts).hasComponent cid = true
      rw [archetypeGet_eq hfind']
      exact hhasA
    refine ⟨halive', ?_, hhas', ?_, ?_⟩
    · rw [World.get, if_neg (by rw [halive']; simp), if_neg (by rw [hhas']; simp),
        hrec', hts, Option.getD_some, archetypeGet_eq hfind', Archetype.getValue]
      show ((setCol cid ((w.recordOf e.index).row) v a.columns).find?
        (fun p => p.1 == cid)).map
          (fun cv => cv.2.getD ((w.recordOf e.index).row) 0) = some v
      rw [setCol, find?_editCol_self, hfcv0]
      show some ((cv0.2.set ((w.recordOf e.index).row) v).getD ((w.recordOf e.index).row) 0)
        = some v
      rw [getD_set_self _ _ _ _ (by rw [hcv0len]; exact hrow)]
    · intro _
      refine ⟨?_, ?_⟩
      · rw [← hc]
        rfl
      · rw [← hc]
        rfl
    · intro hcontra
      rw [hhasw, hhas] at hcontra
      cases hcontra
  · rw [if_neg hhas] at hc
    simp only [Option.some.injEq] at hc
    have hcidts : cid ∉ ts := by
      intro hmem2
      apply hhas
      rw [hasComponent_iff, (WF_arch_parts hWF hmem).1, hats]
      exact hmem2
    have hneq : World.addTargetTs ts cid ≠ ts := by
      intro hh
      have h1 := (sortIds_perm (ts ++ [cid])).length_eq
      rw [show World.addTargetTs ts cid = sortIds (ts ++ [cid]) from rfl] at hh
      rw [hh] at h1
      simp at h1
    have htsnd : ts.Nodup := by
      have h1 := (WF_arch_parts hWF hmem).2.1
      rw [hats] at h1
      exact strictAsc_nodup _ h1
    have hAsc : strictAsc (World.addTargetTs ts cid) = true :=
      sortIds_strictAsc _ ((nodup_append_singleton _ _).mpr ⟨htsnd, hcidts⟩)
    have hWFu := WF_getOrCreate hWF hAsc
    obtain ⟨na, hfindN⟩ : ∃ na,
        (w.getOrCreateArchetype (World.addTargetTs ts cid)).findArchetype
          (World.addTargetTs ts cid) = some na :=
      ⟨_, findArchetype_getOrCreate_self _ _⟩
    have hfindO' : (w.getOrCreateArchetype
        (World.addTargetTs ts cid)).findArchetype ts = some a := by
      rw [findArchetype_getOrCreate_other w (World.addTargetTs ts cid) ts
        (fun hh => hneq hh.symm)]
      exact hfind
    rcases findArchetype_some hfindN with ⟨hnamem, hnats⟩
    have hnaparts := WF_arch_parts hWFu hnamem
    rw [migrateEntity_eq _ e ts (World.addTargetTs ts cid) _ a na hfindO' hfindN hneq,
      ← setRecord_updateArch,
      apply_ite (fun x : World => x.updateArch (World.addTargetTs ts cid)
        (fun y => y.pushRawInto cid v)),
      setRecordRow_updateArch,
      updateArch_swap_ne _ ts (World.addTargetTs ts cid)
        (fun _ => (a.swapRemove ((w.recordOf e.index).row)).1)
        (fun y => y.pushRawInto cid v) (fun hh => hneq hh.symm)
        (fun x hx => by rw [swapRemove_type_set, hats, hx]) (fun x _ => rfl),
      updateArch_compose _ (World.addTargetTs ts cid)
        (fun y => y.pushRawInto cid v)
        (fun x => Archetype.pushEntity
          { x with columns := x.columns.map (fun cv =>
              match a.getValue cv.1 ((w.recordOf e.index).row) with
              | some v0 => (cv.1, cv.2 ++ [v0])
              | none => cv) } e) (fun x _ => rfl)] at hc
    have hcidnew : cid ∈ World.addTargetTs ts cid := by
      rw [World.addTargetTs]
      exact (mem_sortIds _ _).mpr (by simp)
    have hgensC : w'.generations = w.generations := by
      rw [← hc, fireAdd_generations, setRecord_generations]
      split
      · rw [World.setRecordRow, setRecord_generations, updateArch_generations,
          updateArch_generations, getOrCreate_generations]
      · rw [updateArch_generations, updateArch_generations, getOrCreate_generations]
    have hrecC : w'.recordOf e.index =
        ⟨some (World.addTargetTs ts cid), na.entities.length⟩ := by
      rw [← hc, recordOf_fireAdd]
      refine recordOf_setRecord_self _ _ _ ?_
      split
      · rw [World.setRecordRow, setRecord_records, List.length_set, updateArch_records,
          updateArch_records, getOrCreate_records]
        exact hidx
      · rw [updateArch_records, updateArch_records, getOrCreate_records]
        exact hidx
    have hfindC : w'.findArchetype (World.addTargetTs ts cid) = some
        ((Archetype.pushEntity { na with columns := na.columns.map (fun cv =>
            match a.getValue cv.1 ((w.recordOf e.index).row) with
            | some v0 => (cv.1, cv.2 ++ [v0])
            | none => cv) } e).pushRawInto cid v) := by
      rw [← hc, findArchetype_fireAdd, findArchetype_setRecord]
      split
      · rw [World.setRecordRow, findArchetype_setRecord,
          findArchetype_updateArch_other
            (fun _ => (a.swapRemove ((w.recordOf e.index).row)).1)
            (fun x hx => by rw [swapRemove_type_set, hats, hx]) hneq]
        exact findArchetype_updateArch_self
          (fun x => (Archetype.pushEntity { x with columns := x.columns.map (fun cv =>
              match a.getValue cv.1 ((w.recordOf e.index).row) with
              | some v0 => (cv.1, cv.2 ++ [v0])
              | none => cv) } e).pushRawInto cid v)
          (fun x _ => rfl) hfindN
      · rw [findArchetype_updateArch_other
            (fun _ => (a.swapRemove ((w.recordOf e.index).row)).1)
            (fun x hx => by rw [swapRemove_type_set, hats, hx]) hneq]
        exact findArchetype_updateArch_self
          (fun x => (Archetype.pushEntity { x with columns := x.columns.map (fun cv =>
              match a.getValue cv.1 ((w.recordOf e.index).row) with
              | some v0 => (cv.1, cv.2 ++ [v0])
              | none => cv) } e).pushRawInto cid v)
          (fun x _ => rfl) hfindN
    have halive' : w'.alive e = true := by
      apply alive_iff.mpr
      refine ⟨?_, ?_, World.addTargetTs ts cid, by rw [hrecC]⟩
      · rw [hgensC]
        exact (alive_iff.mp ha).1
      · rw [World.genOf, hgensC]
        exact hgen
    obtain ⟨pcv, hfNA⟩ : ∃ pcv, na.columns.find? (fun p => p.1 == cid) = some pcv :=
      Option.isSome_iff_exists.mp (find?_isSome_iff.mpr
        (by rw [hnaparts.1, hnats]; exact hcidnew))
    rcases find?_entry hfNA with ⟨hpcvmem, hpcvk⟩
    have hpcvlen : pcv.2.length = na.entities.length := hnaparts.2.2 pcv hpcvmem
    have hgvnone : a.getValue cid ((w.recordOf e.index).row) = none := by
      rw [Archetype.getValue, show a.columns.find? (fun p => p.1 == cid) = none from
        find?_none_iff.mpr (by
          rw [(WF_arch_parts hWF hmem).1, hats]
          exact hcidts)]
      rfl
    have hkeyfix : ∀ cv : ComponentTypeID × Column,
        ((fun cv : ComponentTypeID × Column =>
          match a.getValue cv.1 ((w.recordOf e.index).row) with
          | some v0 => (cv.1, cv.2 ++ [v0])
          | none => cv) cv).1 = cv.1 := by
      intro cv
      rcases hgv : a.getValue cv.1 ((w.recordOf e.index).row) with _ | v0 <;> simp [hgv]
    have hhas' : w'.has e cid = true := by
      rw [World.has, halive', Bool.true_and, hrecC]
      show (w'.archetypeGet (World.addTargetTs ts cid)).hasComponent cid = true
      rw [archetypeGet_eq hfindC, hasComponent_iff]
      show cid ∈ (pushCol cid v (na.columns.map (fun cv =>
          match a.getValue cv.1 ((w.recordOf e.index).row) with
          | some v0 => (cv.1, cv.2 ++ [v0])
          | none => cv))).map Prod.fst
      rw [pushCol, editCol_keys, map_fst_of_keyfix _ hkeyfix, hnaparts.1, hnats]
      exact hcidnew
    refine ⟨halive', ?_, hhas', ?_, ?_⟩
    · rw [World.get, if_neg (by rw [halive']; simp), if_neg (by rw [hhas']; simp),
        hrecC, Option.getD_some, archetypeGet_eq hfindC, Archetype.getValue]
      show ((pushCol cid v (na.columns.map (fun cv =>
          match a.getValue cv.1 ((w.recordOf e.index).row) with
          | some v0 => (cv.1, cv.2 ++ [v0])
          | none => cv))).find? (fun p => p.1 == cid)).map
        (fun cv => cv.2.getD na.entities.length 0) = some v
      rw [pushCol, find?_editCol_self, find?_map_keyfix _ hkeyfix _ _, hfNA]
      simp only [Option.map_some']
      show some (((match a.getValue pcv.1 ((w.recordOf e.index).row) with
        | some v0 => (pcv.1, pcv.2 ++ [v0])
        | none => pcv).2 ++ [v]).getD na.entities.length 0) = some v
      rw [hpcvk, hgvnone]
      show some ((pcv.2 ++ [v]).getD na.entities.length 0) = some v
      rw [← hpcvlen, getD_append_len]
    · intro hcontra
      rw [hhasw] at hcontra
      exact absurd hcontra hhas
    · intro _
      rw [← hc, fireAdd_events]
      rw [setRecord_events]
      split
      · rw [World.setRecordRow, setRecord_events, updateArch_events, updateArch_events,
          getOrCreate_events]
      · rw [updateArch_events, updateArch_events, getOrCreate_events]

theorem remove_has {w w' : World} {e : Entity} {cid : ComponentTypeID}
    (hWF : w.WFb = true) (he : w.alive e = true)
    (hr : w.remove e cid = some w') : w'.has e cid = false := by
  rw [World.remove] at hr
  by_cases hit : w.iterating ≠ 0
  · rw [if_pos hit] at hr
    cases hr
  rw [if_neg hit, if_neg (by simp [he])] at hr
  rcases WF_live hWF he with ⟨ts, a, hts, hfind, hmem, hats, hrow, hent, hidx, hgen⟩
  simp only [hts, Option.getD_some, archetypeGet_eq hfind] at hr
  by_cases hhas : a.hasComponent cid = true
  case neg =>
    rw [if_pos (by revert hhas; cases a.hasComponent cid <;> simp)] at hr
    have hW : w = w' := Option.some.inj hr
    have hhasf : a.hasComponent cid = false := by
      revert hhas
      cases a.hasComponent cid <;> simp
    rw [← hW, World.has, hts]
    simp only [Option.getD_some, archetypeGet_eq hfind, hhasf, Bool.and_false]
  rw [if_neg (by simp [hhas])] at hr
  simp only [Option.some.injEq] at hr
  have hcidmem : cid ∈ ts := by
    rw [← hats, ← (WF_arch_parts hWF hmem).1]
    exact (hasComponent_iff a cid).mp hhas
  have hcidnew : cid ∉ World.removeTargetTs ts cid := by
    rw [World.removeTargetTs]
    intro hmm
    have := List.of_mem_filter hmm
    simp at this
  have hlenf : (World.removeTargetTs ts cid).length < ts.length := by
    rw [World.removeTargetTs]
    refine List.length_filter_lt_length_iff_exists.mpr ⟨cid, hcidmem, by simp⟩
  have hneq : World.removeTargetTs ts cid ≠ ts := by
    intro hh
    rw [hh] at hlenf
    omega
  have hAsc : strictAsc (World.removeTargetTs ts cid) = true := by
    have h1 := (WF_arch_parts hWF hmem).2.1
    rw [hats] at h1
    rw [strictAsc_iff_pairwise] at h1 ⊢
    exact h1.sublist (List.filter_sublist _)
  have hWFu := WF_getOrCreate hWF hAsc
  obtain ⟨na, hfindN⟩ : ∃ na,
      (w.getOrCreateArchetype (World.removeTargetTs ts cid)).findArchetype
        (World.removeTargetTs ts cid) = some na :=
    ⟨_, findArchetype_getOrCreate_self _ _⟩
  have hfindO' : (w.getOrCreateArchetype (World.removeTargetTs ts cid)).findArchetype ts
      = some a := by
    rw [findArchetype_getOrCreate_other w (World.removeTargetTs ts cid) ts
      (fun hh => hneq hh.symm)]
    exact hfind
  have hfindO2 : ((w.getOrCreateArchetype
      (World.removeTargetTs ts cid)).fireRemove cid e).findArchetype ts = some a := by
    rw [findArchetype_fireRemove]
    exact hfindO'
  have hfindN2 : ((w.getOrCreateArchetype
      (World.removeTargetTs ts cid)).fireRemove cid e).findArchetype
        (World.removeTargetTs ts cid) = some na := by
    rw [findArchetype_fireRemove]
    exact hfindN
  have hnaparts := WF_arch_parts hWFu (findArchetype_some hfindN).1
  have hnats := (findArchetype_some hfindN).2
  rw [migrateEntity_eq _ e ts (World.removeTargetTs ts cid) _ a na hfindO2 hfindN2 hneq]
    at hr
  have hrecC : w'.recordOf e.index =
      ⟨some (World.removeTargetTs ts cid), na.entities.length⟩ := by
    rw [← hr]
    refine recordOf_setRecord_self _ _ _ ?_
    split
    · rw [World.setRecordRow, setRecord_records, List.length_set, updateArch_records,
        updateArch_records, fireRemove_records, getOrCreate_records]
      exact hidx
    · rw [updateArch_records, updateArch_records, fireRemove_records,
        getOrCreate_records]
      exact hidx
  have hfindC : w'.findArchetype (World.removeTargetTs ts cid) = some
      (Archetype.pushEntity { na with columns := na.columns.map (fun cv =>
          match a.getValue cv.1 ((w.recordOf e.index).row) with
          | some v0 => (cv.1, cv.2 ++ [v0])
          | none => cv) } e) := by
    rw [← hr, findArchetype_setRecord]
    split
    · rw [World.setRecordRow, findArchetype_setRecord,
        findArchetype_updateArch_other
          (fun _ => (a.swapRemove ((w.recordOf e.index).row)).1)
          (fun x hx => by rw [swapRemove_type_set, hats, hx]) hneq,
        findArchetype_updateArch_self
          (fun x => Archetype.pushEntity { x with columns := x.columns.map (fun cv =>
              match a.getValue cv.1 ((w.recordOf e.index).row) with
              | some v0 => (cv.1, cv.2 ++ [v0])
              | none => cv) } e)
          (fun x _ => rfl) hfindN2]
    · rw [findArchetype_updateArch_other
          (fun _ => (a.swapRemove ((w.recordOf e.index).row)).1)
          (fun x hx => by rw [swapRemove_type_set, hats, hx]) hneq,
        findArchetype_updateArch_self
          (fun x => Archetype.pushEntity { x with columns := x.columns.map (fun cv =>
              match a.getValue cv.1 ((w.recordOf e.index).row) with
              | some v0 => (cv.1, cv.2 ++ [v0])
              | none => cv) } e)
          (fun x _ => rfl) hfindN2]
  have hkeyfix : ∀ cv : ComponentTypeID × Column,
      ((fun cv : ComponentTypeID × Column =>
        match a.getValue cv.1 ((w.recordOf e.index).row) with
        | some v0 => (cv.1, cv.2 ++ [v0])
        | none => cv) cv).1 = cv.1 := by
    intro cv
    rcases hgv : a.getValue cv.1 ((w.recordOf e.index).row) with _ | v0 <;> simp [hgv]
  have hhasC : (Archetype.pushEntity { na with columns := na.columns.map (fun cv =>
      match a.getValue cv.1 ((w.recordOf e.index).row) with
      | some v0 => (cv.1, cv.2 ++ [v0])
      | none => cv) } e).hasComponent cid = false := by
    cases hcc : (Archetype.pushEntity { na with columns := na.columns.map (fun cv =>
        match a.getValue cv.1 ((w.recordOf e.index).row) with
        | some v0 => (cv.1, cv.2 ++ [v0])
        | none => cv) } e).hasComponent cid
    · rfl
    · exfalso
      apply hcidnew
      have hmm := (hasComponent_iff _ cid).mp hcc
      rw [show (Archetype.pushEntity { na with columns := na.columns.map (fun cv =>
            match a.getValue cv.1 ((w.recordOf e.index).row) with
            | some v0 => (cv.1, cv.2 ++ [v0])
            | none => cv) } e).columns = na.columns.map (fun cv =>
            match a.getValue cv.1 ((w.recordOf e.index).row) with
            | some v0 => (cv.1, cv.2 ++ [v0])
            | none => cv) from rfl,
        map_fst_of_keyfix _ hkeyfix, hnaparts.1, hnats] at hmm
      exact hmm
  rw [World.has, hrecC]
  show (w'.alive e && (w'.archetypeGet (World.removeTargetTs ts cid)).hasComponent cid)
    = false
  rw [archetypeGet_eq hfindC, hhasC, Bool.and_false]

theorem add_raw_consumed {w : World} {e : Entity} {cid : ComponentTypeID} {v : Val}
    (hit : w.iterating = 0) (ha : w.alive e = true) {p : World × Bool}
    (h : w.add_raw e cid v = some p) : p.2 = true := by
  rw [World.add_raw, if_neg (by simp [hit]), if_neg (by simp [ha])] at h
  by_cases hhas : (w.archetypeGet
      ((w.recordOf e.index).archetype.getD [])).hasComponent cid = true
  · rw [if_pos hhas, Option.some.injEq] at h
    rw [← h]
  · rw [if_neg hhas, Option.some.injEq] at h
    rw [← h]

/-! ### Sort correctness machinery -/

theorem pairwise_insertIdx (cmp : Val → Val → Bool) (col : Column)
    (hasym : ∀ x y, cmp x y = true → cmp y x = false)
    (htrans : ∀ x y z, cmp x y = true → cmp y z = true → cmp x z = true)
    (i : Nat) (l : List Nat)
    (h : l.Pairwise (fun p q => cmp (col.getD q 0) (col.getD p 0) = false)) :
    (World.insertIdx cmp col i l).Pairwise
      (fun p q => cmp (col.getD q 0) (col.getD p 0) = false) := by
  induction l with
  | nil => simp [World.insertIdx]
  | cons j js ih =>
    rw [World.insertIdx]
    rcases List.pairwise_cons.mp h with ⟨hj, hjs⟩
    by_cases hc : cmp (col.getD i 0) (col.getD j 0) = true
    · rw [if_pos hc]
      refine List.pairwise_cons.mpr ⟨?_, h⟩
      intro k hk
      rcases List.mem_cons.mp hk with hkj | hkjs
      · rw [hkj]
        exact hasym _ _ hc
      · cases hck : cmp (col.getD k 0) (col.getD i 0)
        · rfl
        · exfalso
          have h1 := htrans _ _ _ hck hc
          rw [hj k hkjs] at h1
          exact Bool.false_ne_true h1
    · rw [if_neg hc]
      refine List.pairwise_cons.mpr ⟨?_, ih hjs⟩
      intro k hk
      have hk2 : k ∈ i :: js := (insertIdx_perm cmp col i js).mem_iff.mp hk
      rcases List.mem_cons.mp hk2 with hki | hkjs
      · rw [hki]
        revert hc
        cases cmp (col.getD i 0) (col.getD j 0) <;> simp
      · exact hj k hkjs

theorem pairwise_sortIndices (cmp : Val → Val → Bool) (col : Column)
    (hasym : ∀ x y, cmp x y = true → cmp y x = false)
    (htrans : ∀ x y z, cmp x y = true → cmp y z = true → cmp x z = true)
    (l : List Nat) :
    (World.sortIndices cmp col l).Pairwise
      (fun p q => cmp (col.getD q 0) (col.getD p 0) = false) := by
  rw [World.sortIndices]
  induction l with
  | nil => exact List.Pairwise.nil
  | cons i is ih =>
    rw [List.foldr_cons]
    exact pairwise_insertIdx cmp col hasym htrans i _ ih

theorem alive_congr {w w' : World} {e : Entity} (hg : w'.generations = w.generations)
    (hr : w'.recordOf e.index = w.recordOf e.index) : w'.alive e = w.alive e := by
  rw [World.alive, World.alive, World.genOf, World.genOf, hg, hr]

theorem get_congr {w w' : World} {e : Entity} (hg : w'.generations = w.generations)
    (hr : w'.recordOf e.index = w.recordOf e.index)
    (hf : w'.findArchetype ((w.recordOf e.index).archetype.getD [])
      = w.findArchetype ((w.recordOf e.index).archetype.getD [])) :
    ∀ c, w'.get e c = w.get e c := by
  intro c
  have halive := alive_congr hg hr
  have harchget : w'.archetypeGet ((w.recordOf e.index).archetype.getD [])
      = w.archetypeGet ((w.recordOf e.index).archetype.getD []) := by
    rw [World.archetypeGet, World.archetypeGet, hf]
  have hhas : w'.has e c = w.has e c := by
    rw [World.has, World.has, halive, hr, harchget]
  rw [World.get, World.get, halive, hhas, hr, harchget]

theorem permuteArch_effects {w : World} {ts : List ComponentTypeID} {a : Archetype}
    {perm : List Nat} {W' : World} (hWF : w.WFb = true)
    (hfind : w.findArchetype ts = some a)
    (hperm : perm.Perm (List.range a.entities.length))
    (hW' : W' = (enumFrom 0 (World.applyPerm INVALID_ENTITY a.entities perm)).foldl
      (fun wa p => wa.setRecordRow p.2.index p.1)
      (w.updateArch ts (fun _ =>
        (⟨a.type_set,
          a.columns.map (fun cv => (cv.1, World.applyPerm 0 cv.2 perm)),
          World.applyPerm INVALID_ENTITY a.entities perm⟩ : Archetype)))) :
    W'.generations = w.generations ∧
    (∀ ts2, ts2 ≠ ts → W'.findArchetype ts2 = w.findArchetype ts2) ∧
    W'.findArchetype ts = some
      (⟨a.type_set,
        a.columns.map (fun cv => (cv.1, World.applyPerm 0 cv.2 perm)),
        World.applyPerm INVALID_ENTITY a.entities perm⟩ : Archetype) ∧
    (∀ e, w.alive e = true → W'.alive e = true ∧ ∀ c, W'.get e c = w.get e c) := by
  rcases findArchetype_some hfind with ⟨hmem, hats⟩
  have hpermlen : perm.length = a.entities.length := by
    rw [hperm.length_eq, List.length_range]
  have hpermmem : ∀ x ∈ perm, x < a.entities.length := fun x hx =>
    List.mem_range.mp (hperm.mem_iff.mp hx)
  have hpermnd : perm.Nodup := hperm.nodup_iff.mpr (List.nodup_range _)
  have hpermlt : ∀ k, k < a.entities.length → perm.getD k 0 < a.entities.length :=
    fun k hk => hpermmem _ (mem_getD _ _ _ (by rw [hpermlen]; exact hk))
  have hlenA2 : (World.applyPerm INVALID_ENTITY a.entities perm).length
      = a.entities.length := by
    rw [World.applyPerm, List.length_map, hpermlen]
  have hgetA2 : ∀ k, k < a.entities.length →
      (World.applyPerm INVALID_ENTITY a.entities perm).getD k INVALID_ENTITY
        = a.entities.getD (perm.getD k 0) INVALID_ENTITY := by
    intro k hk
    rw [World.applyPerm]
    exact getD_map _ _ _ _ 0 (by rw [hpermlen]; exact hk)
  have hinj2 : ∀ k1 k2,
      k1 < (World.applyPerm INVALID_ENTITY a.entities perm).length →
      k2 < (World.applyPerm INVALID_ENTITY a.entities perm).length →
      ((World.applyPerm INVALID_ENTITY a.entities perm).getD k1
        INVALID_ENTITY).index =
      ((World.applyPerm INVALID_ENTITY a.entities perm).getD k2
        INVALID_ENTITY).index → k1 = k2 := by
    intro k1 k2 h1 h2 he
    rw [hlenA2] at h1 h2
    rw [hgetA2 k1 h1, hgetA2 k2 h2] at he
    have h3 := (WF_index_unique hWF hmem hmem (hpermlt k1 h1) (hpermlt k2 h2) he).2
    exact nodup_getD_inj perm 0 hpermnd (by rw [hpermlen]; exact h1)
      (by rw [hpermlen]; exact h2) h3
  have hmemidx : ∀ x ∈ World.applyPerm INVALID_ENTITY a.entities perm,
      ∃ i, i < a.entities.length ∧ x = a.entities.getD i INVALID_ENTITY := by
    intro x hx
    rcases List.mem_map.mp hx with ⟨i, hip, hxe⟩
    exact ⟨i, hpermmem i hip, hxe.symm⟩
  have hconstts : ∀ x : Archetype, x.type_set = ts →
      ((⟨a.type_set,
        a.columns.map (fun cv => (cv.1, World.applyPerm 0 cv.2 perm)),
        World.applyPerm INVALID_ENTITY a.entities perm⟩ : Archetype)).type_set
        = x.type_set := by
    intro x hx
    show a.type_set = x.type_set
    rw [hats, hx]
  have hgens : W'.generations = w.generations := by
    rw [hW', foldRR_generations, updateArch_generations]
  have hfother : ∀ ts2, ts2 ≠ ts → W'.findArchetype ts2 = w.findArchetype ts2 := by
    intro ts2 hne
    rw [hW', foldRR_findArchetype, findArchetype_updateArch_other _ hconstts hne]
  have hfts : W'.findArchetype ts = some
      (⟨a.type_set,
        a.columns.map (fun cv => (cv.1, World.applyPerm 0 cv.2 perm)),
        World.applyPerm INVALID_ENTITY a.entities perm⟩ : Archetype) := by
    rw [hW', foldRR_findArchetype]
    exact findArchetype_updateArch_self _ hconstts hfind
  have hhasA2 : ∀ c, ((⟨a.type_set,
      a.columns.map (fun cv => (cv.1, World.applyPerm 0 cv.2 perm)),
      World.applyPerm INVALID_ENTITY a.entities perm⟩ : Archetype)).hasComponent c
        = a.hasComponent c := by
    intro c
    rw [Archetype.hasComponent, Archetype.hasComponent]
    show (a.columns.map (fun cv => (cv.1, World.applyPerm 0 cv.2 perm))).any
        (fun cv => cv.1 == c) = a.columns.any (fun cv => cv.1 == c)
    rw [List.any_map]
    rfl
  refine ⟨hgens, hfother, hfts, ?_⟩
  intro e he
  rcases WF_live hWF he with
    ⟨tse, ae, hts_e, hfind_e, hmem_e, hats_e, hrow_e, hent_e, hidx_e, hgen_e⟩
  by_cases hcase : tse = ts
  case neg =>
    have hne_ind : ∀ x ∈ World.applyPerm INVALID_ENTITY a.entities perm,
        x.index ≠ e.index := by
      intro x hx hxe
      rcases hmemidx x hx with ⟨i, hi, hxi⟩
      have hidxeq : (a.entities.getD i INVALID_ENTITY).index
          = (ae.entities.getD ((w.recordOf e.index).row) INVALID_ENTITY).index := by
        rw [← hxi, hent_e, hxe]
      have haae := (WF_index_unique hWF hmem hmem_e hi hrow_e hidxeq).1
      apply hcase
      rw [← hats_e, ← haae, hats]
    have hrec_pres : W'.recordOf e.index = w.recordOf e.index := by
      rw [hW', foldRR_recordOf_ne _ _ _ _ hne_ind, recordOf_updateArch]
    refine ⟨by rw [alive_congr hgens hrec_pres]; exact he, ?_⟩
    intro c
    refine get_congr hgens hrec_pres ?_ c
    rw [hts_e, Option.getD_some]
    exact hfother tse hcase
  case pos =>
    subst hcase
    rw [hfind] at hfind_e
    have hae : a = ae := Option.some.inj hfind_e
    subst hae
    obtain ⟨k, hk, hpk⟩ := exists_getD perm 0
      (hperm.mem_iff.mpr (List.mem_range.mpr hrow_e))
    have hk' : k < a.entities.length := by
      rw [← hpermlen]
      exact hk
    have hA2k : (World.applyPerm INVALID_ENTITY a.entities perm).getD k INVALID_ENTITY
        = e := by
      rw [hgetA2 k hk', hpk, hent_e]
    have hklen : k < (World.applyPerm INVALID_ENTITY a.entities perm).length := by
      rw [hlenA2]
      exact hk'
    have hrecW : W'.recordOf e.index = ⟨some tse, k⟩ := by
      have hmm := foldRR_recordOf_mem (World.applyPerm INVALID_ENTITY a.entities perm)
        0 (w.updateArch tse (fun _ =>
          (⟨a.type_set,
            a.columns.map (fun cv => (cv.1, World.applyPerm 0 cv.2 perm)),
            World.applyPerm INVALID_ENTITY a.entities perm⟩ : Archetype))) k hklen hinj2
        (by rw [hA2k, updateArch_records]; exact hidx_e)
      rw [hA2k] at hmm
      rw [hW', hmm, recordOf_updateArch, hts_e]
      show (⟨some tse, 0 + k⟩ : EntityRecord) = ⟨some tse, k⟩
      rw [Nat.zero_add]
    have hgenWe : W'.genOf e.index = w.genOf e.index := by
      rw [World.genOf, World.genOf, hgens]
    have halive : W'.alive e = true := by
      apply alive_iff.mpr
      refine ⟨?_, ?_, tse, by rw [hrecW]⟩
      · rw [hgens]
        exact (alive_iff.mp he).1
      · rw [hgenWe]
        exact hgen_e
    have hhasW : ∀ c, W'.has e c = w.has e c := by
      intro c
      rw [World.has, World.has, halive, he, hrecW, hts_e]
      show (true && (W'.archetypeGet tse).hasComponent c)
        = (true && (w.archetypeGet tse).hasComponent c)
      rw [archetypeGet_eq hfts, archetypeGet_eq hfind, hhasA2]
    refine ⟨halive, ?_⟩
    intro c
    by_cases hhasc : w.has e c = true
    · have hhasac : a.hasComponent c = true := by
        rw [World.has, hts_e] at hhasc
        simp only [Option.getD_some, archetypeGet_eq hfind, he, Bool.true_and] at hhasc
        exact hhasc
      obtain ⟨qcv, hq⟩ : ∃ qcv, a.columns.find? (fun p => p.1 == c) = some qcv :=
        Option.isSome_iff_exists.mp (find?_isSome_iff.mpr
          ((hasComponent_iff a c).mp hhasac))
      rw [World.get, World.get,
        if_neg (show ¬ ((!W'.alive e) = true) by rw [halive]; simp),
        if_neg (show ¬ ((!w.alive e) = true) by rw [he]; simp),
        if_neg (show ¬ ((!W'.has e c) = true) by rw [hhasW, hhasc]; simp),
        if_neg (show ¬ ((!w.has e c) = true) by rw [hhasc]; simp),
        hrecW, hts_e]
      show ((W'.archetypeGet tse).getValue c k)
        = (w.archetypeGet tse).getValue c ((w.recordOf e.index).row)
      rw [archetypeGet_eq hfts, archetypeGet_eq hfind, Archetype.getValue,
        Archetype.getValue]
      show ((a.columns.map (fun cv => (cv.1, World.applyPerm 0 cv.2 perm))).find?
          (fun p => p.1 == c)).map (fun cv => cv.2.getD k 0)
        = (a.columns.find? (fun p => p.1 == c)).map
            (fun cv => cv.2.getD ((w.recordOf e.index).row) 0)
      rw [find?_map_keyfix
        (fun cv : ComponentTypeID × Column => (cv.1, World.applyPerm 0 cv.2 perm))
        (fun cv => rfl) _ _, hq]
      simp only [Option.map_some']
      show some ((World.applyPerm 0 qcv.2 perm).getD k 0)
        = some (qcv.2.getD ((w.recordOf e.index).row) 0)
      rw [World.applyPerm, getD_map _ _ _ _ 0 hk, hpk]
    · have h3 : w.has e c = false := by
        revert hhasc
        cases w.has e c <;> simp
      rw [World.get, World.get,
        if_neg (show ¬ ((!W'.alive e) = true) by rw [halive]; simp),
        if_neg (show ¬ ((!w.alive e) = true) by rw [he]; simp),
        if_pos (show (!W'.has e c) = true by rw [hhasW, h3]; rfl),
        if_pos (show (!w.has e c) = true by rw [h3]; rfl)]

theorem sortStep_effects {w : World} (hWF : w.WFb = true) (ts : List ComponentTypeID)
    (cid : ComponentTypeID) (cmp : Val → Val → Bool) :
    (∀ ts2, ts2 ≠ ts →
      (w.sortStep ts cid cmp).findArchetype ts2 = w.findArchetype ts2) ∧
    (∀ e, w.alive e = true → (w.sortStep ts cid cmp).alive e = true ∧
      ∀ c, (w.sortStep ts cid cmp).get e c = w.get e c) := by
  rw [World.sortStep]
  split
  case isFalse => exact ⟨fun _ _ => rfl, fun e he => ⟨he, fun c => rfl⟩⟩
  case isTrue hcond =>
  rcases hfind : w.findArchetype ts with _ | a
  · exfalso
    rw [World.archetypeGet, hfind] at hcond
    simp [Archetype.hasComponent] at hcond
  · rw [archetypeGet_eq hfind]
    obtain ⟨hgens, hfother, hfts, halget⟩ := permuteArch_effects hWF hfind
      (sortIndices_perm cmp ((Option.map Prod.snd
        (List.find? (fun cv => cv.1 == cid) a.columns)).getD [])
        (List.range a.count)) rfl
    exact ⟨hfother, halget⟩

theorem sortStep_sorted {w : World} (hWF : w.WFb = true)
    (ts : List ComponentTypeID) (cid : ComponentTypeID) (cmp : Val → Val → Bool)
    (hasym : ∀ x y, cmp x y = true → cmp y x = false)
    (htrans : ∀ x y z, cmp x y = true → cmp y z = true → cmp x z = true)
    {a' : Archetype}
    (hfind' : (w.sortStep ts cid cmp).findArchetype ts = some a')
    (hhas : a'.hasComponent cid = true) :
    (((a'.columns.find? (fun cv => cv.1 == cid)).map Prod.snd).getD []).Pairwise
      (fun x y => cmp y x = false) := by
  rw [World.sortStep] at hfind'
  split at hfind'
  case isFalse hcond =>
    rcases findArchetype_some hfind' with ⟨hmem', hats'⟩
    rw [archetypeGet_eq hfind'] at hcond
    push_neg at hcond
    have hcount : a'.entities.length ≤ 1 := hcond hhas
    obtain ⟨qcv, hq⟩ : ∃ qcv, a'.columns.find? (fun p => p.1 == cid) = some qcv :=
      Option.isSome_iff_exists.mp (find?_isSome_iff.mpr
        ((hasComponent_iff a' cid).mp hhas))
    have hqlen : qcv.2.length = a'.entities.length :=
      (WF_arch_parts hWF hmem').2.2 qcv (find?_entry hq).1
    rw [hq, Option.map_some', Option.getD_some]
    rcases hcol : qcv.2 with _ | ⟨x, xs⟩
    · exact List.Pairwise.nil
    · have hxs : xs = [] := by
        rw [hcol] at hqlen
        simp only [List.length_cons] at hqlen
        refine List.length_eq_zero.mp ?_
        omega
      rw [hxs]
      simp
  case isTrue hcond =>
    rcases hfind : w.findArchetype ts with _ | a
    · exfalso
      rw [World.archetypeGet, hfind] at hcond
      simp [Archetype.hasComponent] at hcond
    rw [archetypeGet_eq hfind] at hfind' hcond
    obtain ⟨_, _, hfts, _⟩ := permuteArch_effects hWF hfind
      (sortIndices_perm cmp ((Option.map Prod.snd
        (List.find? (fun cv => cv.1 == cid) a.columns)).getD [])
        (List.range a.count)) rfl
    rw [hfts, Option.some.injEq] at hfind'
    obtain ⟨pcv, hp⟩ : ∃ pcv, a.columns.find? (fun p => p.1 == cid) = some pcv :=
      Option.isSome_iff_exists.mp (find?_isSome_iff.mpr
        ((hasComponent_iff a cid).mp hcond.1))
    rw [← hfind']
    show ((((a.columns.map (fun cv => (cv.1, World.applyPerm 0 cv.2
        (World.sortIndices cmp ((Option.map Prod.snd
          (List.find? (fun cv => cv.1 == cid) a.columns)).getD [])
          (List.range a.count))))).find?
        (fun cv => cv.1 == cid)).map Prod.snd).getD []).Pairwise
      (fun x y => cmp y x = false)
    rw [find?_map_keyfix
      (fun cv : ComponentTypeID × Column => (cv.1, World.applyPerm 0 cv.2
        (World.sortIndices cmp ((Option.map Prod.snd
          (List.find? (fun cv => cv.1 == cid) a.columns)).getD [])
          (List.range a.count))))
      (fun cv => rfl) _ _, hp]
    simp only [Option.map_some', Option.getD_some]
    rw [World.applyPerm]
    refine List.pairwise_map.mpr ?_
    exact pairwise_sortIndices cmp pcv.2 hasym htrans _

theorem sort_fold_effects (cid : ComponentTypeID) (cmp : Val → Val → Bool)
    (hasym : ∀ x y, cmp x y = true → cmp y x = false)
    (htrans : ∀ x y z, cmp x y = true → cmp y z = true → cmp x z = true) :
    ∀ (L : List (List ComponentTypeID)) (w : World), w.WFb = true →
    ((L.foldl (fun wa ts => wa.sortStep ts cid cmp) w).WFb = true) ∧
    (∀ e, w.alive e = true →
      (L.foldl (fun wa ts => wa.sortStep ts cid cmp) w).alive e = true ∧
      ∀ c, (L.foldl (fun wa ts => wa.sortStep ts cid cmp) w).get e c = w.get e c) ∧
    (∀ ts2, ts2 ∉ L →
      (L.foldl (fun wa ts => wa.sortStep ts cid cmp) w).findArchetype ts2
        = w.findArchetype ts2) ∧
    (∀ ts2, ts2 ∈ L → ∀ a',
      (L.foldl (fun wa ts => wa.sortStep ts cid cmp) w).findArchetype ts2 = some a' →
      a'.hasComponent cid = true →
      (((a'.columns.find? (fun cv => cv.1 == cid)).map Prod.snd).getD []).Pairwise
        (fun x y => cmp y x = false)) := by
  intro L
  induction L with
  | nil =>
    intro w hWF
    exact ⟨hWF, fun e he => ⟨he, fun c => rfl⟩, fun _ _ => rfl,
      fun ts2 h => absurd h (List.not_mem_nil _)⟩
  | cons t rest ih =>
    intro w hWF
    rw [List.foldl_cons]
    have hWF1 := WF_sortStep t cid cmp hWF
    obtain ⟨q1, q2, q3, q4⟩ := ih (w.sortStep t cid cmp) hWF1
    obtain ⟨s3, s2⟩ := sortStep_effects hWF t cid cmp
    refine ⟨q1, ?_, ?_, ?_⟩
    · intro e he
      obtain ⟨ha1, hg1⟩ := s2 e he
      obtain ⟨ha2, hg2⟩ := q2 e ha1
      exact ⟨ha2, fun c => by rw [hg2 c, hg1 c]⟩
    · intro ts2 hts2
      have h1 : ts2 ∉ rest := fun hh => hts2 (List.mem_cons_of_mem _ hh)
      have h2 : ts2 ≠ t := fun hh => hts2 (by rw [hh]; exact List.mem_cons_self _ _)
      rw [q3 ts2 h1, s3 ts2 h2]
    · intro ts2 hts2 a' hfind' hhas
      by_cases hmem2 : ts2 ∈ rest
      · exact q4 ts2 hmem2 a' hfind' hhas
      · have hts2t : ts2 = t := by
          rcases List.mem_cons.mp hts2 with h | h
          · exact h
          · exact absurd h hmem2
        subst hts2t
        rw [q3 ts2 hmem2] at hfind'
        exact sortStep_sorted hWF ts2 cid cmp hasym htrans hfind' hhas

/-! ### Serialization round-trip machinery -/

theorem mapM_option_nil {α β : Type} (f : α → Option β) :
    ([] : List α).mapM f = some [] := rfl

theorem mapM_option_cons {α β : Type} (f : α → Option β) (a : α) (l : List α) :
    (a :: l).mapM f = (f a).bind (fun b => (l.mapM f).bind (fun bs => some (b :: bs))) := by
  rw [List.mapM_cons]
  rfl

theorem nameOf_idOfName {reg : Registry} (hreg : regOKb reg = true)
    {c : ComponentTypeID} {nm : Nat} (h : nameOf reg c = some nm) :
    idOfName reg nm = some c := by
  rw [nameOf] at h
  rcases Option.map_eq_some'.mp h with ⟨pr, hfind, hsnd⟩
  have hprmem : pr ∈ reg := List.mem_of_find?_eq_some hfind
  have hprfst : pr.1 = c := by simpa using List.find?_some hfind
  have hnd : (reg.map Prod.snd).Nodup := by
    rw [regOKb, Bool.and_eq_true, allDistinct_iff, allDistinct_iff] at hreg
    exact hreg.2
  have hiso : (reg.find? (fun p => p.2 == nm)).isSome := by
    apply List.find?_isSome.mpr
    exact ⟨pr, hprmem, by simp [hsnd]⟩
  rcases Option.isSome_iff_exists.mp hiso with ⟨q, hq⟩
  have hqmem : q ∈ reg := List.mem_of_find?_eq_some hq
  have hqsnd : q.2 = nm := by simpa using List.find?_some hq
  have hqpr : q = pr := List.inj_on_of_nodup_map hnd hqmem hprmem (by rw [hqsnd, hsnd])
  rw [idOfName, hq, Option.map_some', hqpr, hprfst]

theorem mapM_nameOf_cols {reg : Registry} (hreg : regOKb reg = true) :
    ∀ (cols : List (ComponentTypeID × Column)) (nms : List Nat),
    cols.mapM (fun cv => nameOf reg cv.1) = some nms →
    nms.mapM (idOfName reg) = some (cols.map Prod.fst) := by
  intro cols
  induction cols with
  | nil =>
    intro nms h
    rw [mapM_option_nil, Option.some.injEq] at h
    rw [← h]
    rfl
  | cons cv rest ih =>
    intro nms h
    rw [mapM_option_cons] at h
    rcases hn : nameOf reg cv.1 with _ | nm
    · rw [hn] at h
      exact absurd h (by simp)
    rcases hr : rest.mapM (fun cv => nameOf reg cv.1) with _ | ms
    · rw [hn, hr] at h
      exact absurd h (by simp)
    rw [hn, hr] at h
    simp only [Option.some_bind, Option.some.injEq] at h
    rw [← h, mapM_option_cons, nameOf_idOfName hreg hn, ih ms hr]
    rfl

theorem serializeArch_some {reg : Registry} {a : Archetype} {b : ArchBlock}
    (h : serializeArch reg a = some b) :
    ∃ nms, a.columns.mapM (fun cv => nameOf reg cv.1) = some nms ∧
      b = ⟨nms, a.columns.map Prod.snd, a.entities⟩ := by
  rw [serializeArch] at h
  rcases Option.map_eq_some'.mp h with ⟨nms, hm, hb⟩
  exact ⟨nms, hm, hb.symm⟩

theorem editCol_append_not_mem (cid : ComponentTypeID) (f : Column → Column) :
    ∀ (l1 l2 : List (ComponentTypeID × Column)), cid ∉ l1.map Prod.fst →
    editCol cid f (l1 ++ l2) = l1 ++ editCol cid f l2 := by
  intro l1
  induction l1 with
  | nil =>
    intro l2 _
    rfl
  | cons cv rest ih =>
    intro l2 h
    simp only [List.map_cons, List.mem_cons, not_or] at h
    rw [List.cons_append, editCol,
      if_neg (by simp only [beq_iff_eq]; exact fun hh => h.1 hh.symm), ih l2 h.2]
    rfl

theorem editCol_cons_self (cid : ComponentTypeID) (f : Column → Column)
    {cv : ComponentTypeID × Column} (h : cv.1 = cid)
    (rest : List (ComponentTypeID × Column)) :
    editCol cid f (cv :: rest) = (cv.1, f cv.2) :: rest := by
  rw [editCol, if_pos (by simp [h])]

theorem updateArch_append_last {w : World} {l : List Archetype} {x : Archetype}
    {ts : List ComponentTypeID} (f : Archetype → Archetype)
    (hw : w.archetypes = l ++ [x]) (hnot : ts ∉ l.map (fun a => a.type_set))
    (hx : x.type_set = ts) :
    w.updateArch ts f = { w with archetypes := l ++ [f x] } := by
  have harr : (l ++ [x]).map (fun a => if a.type_set == ts then f a else a)
      = l ++ [f x] := by
    rw [List.map_append]
    congr 1
    · have hid : ∀ a ∈ l, (if a.type_set == ts then f a else a) = a := by
        intro a ha
        rw [if_neg]
        simp only [beq_iff_eq]
        exact fun hh => hnot (List.mem_map.mpr ⟨a, ha, hh⟩)
      rw [List.map_congr_left hid]
      exact List.map_id' l
    · simp [hx]
  rw [World.updateArch, hw, harr]

theorem foldSetCols (wt : World) (ts : List ComponentTypeID) (vals : List Column)
    (ncount : Nat) (hnotmem : ts ∉ wt.archetypes.map (fun x => x.type_set)) :
    ∀ (rest : List (ComponentTypeID × Column)) (off : Nat)
      (done : List (ComponentTypeID × Column)),
    ((done ++ rest).map Prod.fst).Nodup →
    (∀ j, j < rest.length →
      (vals.getD (off + j) []).take ncount = (rest.getD j (0, [])).2) →
    (enumFrom off (rest.map Prod.fst)).foldl
      (fun wa p => wa.updateArch ts (fun a =>
        { a with columns := setColData p.2 ((vals.getD p.1 []).take ncount) a.columns }))
      ({ wt with
         archetypes := wt.archetypes ++
           [(⟨ts, done ++ rest.map (fun cv => (cv.1, ([] : Column))), []⟩ : Archetype)],
         archetype_generation := wt.archetype_generation + 1 } : World)
      = ({ wt with
           archetypes := wt.archetypes ++ [(⟨ts, done ++ rest, []⟩ : Archetype)],
           archetype_generation := wt.archetype_generation + 1 } : World) := by
  intro rest
  induction rest with
  | nil =>
    intro off done _ _
    simp [enumFrom]
  | cons cv rest' ih =>
    intro off done hnd hval
    have hdone_not : cv.1 ∉ done.map Prod.fst := by
      rw [List.map_append, List.map_cons, List.nodup_append] at hnd
      intro hmem
      exact hnd.2.2 hmem (List.mem_cons_self _ _)
    have hcols : setColData cv.1 ((vals.getD off []).take ncount)
        (done ++ (cv :: rest').map (fun cv => (cv.1, ([] : Column))))
        = done ++ cv :: rest'.map (fun cv => (cv.1, ([] : Column))) := by
      rw [List.map_cons, setColData, editCol_append_not_mem _ _ _ _ hdone_not,
        @editCol_cons_self cv.1 (fun _ => (vals.getD off []).take ncount)
          (cv.1, ([] : Column)) rfl (rest'.map (fun cv => (cv.1, ([] : Column))))]
      have hv0 := hval 0 (by simp)
      rw [Nat.add_zero] at hv0
      rw [hv0]
      rfl
    have hW : ({ wt with
        archetypes := wt.archetypes ++
          [(⟨ts, done ++ (cv :: rest').map (fun cv => (cv.1, ([] : Column))), []⟩ :
            Archetype)],
        archetype_generation := wt.archetype_generation + 1 } : World).updateArch ts
        (fun a => { a with
          columns := setColData cv.1 ((vals.getD off []).take ncount) a.columns })
        = ({ wt with
             archetypes := wt.archetypes ++
               [(⟨ts, done ++ cv :: rest'.map (fun cv => (cv.1, ([] : Column))), []⟩ :
                 Archetype)],
             archetype_generation := wt.archetype_generation + 1 } : World) := by
      rw [updateArch_append_last
        (fun a => { a with
          columns := setColData cv.1 ((vals.getD off []).take ncount) a.columns })
        rfl hnotmem rfl]
      show ({ wt with
        archetypes := wt.archetypes ++
          [(⟨ts, setColData cv.1 ((vals.getD off []).take ncount)
            (done ++ (cv :: rest').map (fun cv => (cv.1, ([] : Column)))), []⟩ :
            Archetype)],
        archetype_generation := wt.archetype_generation + 1 } : World) = _
      rw [hcols]
    have hen : enumFrom off ((cv :: rest').map Prod.fst)
        = (off, cv.1) :: enumFrom (off + 1) (rest'.map Prod.fst) := by
      rw [List.map_cons, enumFrom]
    rw [hen, List.foldl_cons]
    show (enumFrom (off + 1) (rest'.map Prod.fst)).foldl
      (fun wa p => wa.updateArch ts (fun a =>
        { a with columns := setColData p.2 ((vals.getD p.1 []).take ncount) a.columns }))
      (({ wt with
          archetypes := wt.archetypes ++
            [(⟨ts, done ++ (cv :: rest').map (fun cv => (cv.1, ([] : Column))), []⟩ :
              Archetype)],
          archetype_generation := wt.archetype_generation + 1 } : World).updateArch ts
        (fun a => { a with
          columns := setColData cv.1 ((vals.getD off []).take ncount) a.columns }))
      = ({ wt with
           archetypes := wt.archetypes ++ [(⟨ts, done ++ cv :: rest', []⟩ : Archetype)],
           archetype_generation := wt.archetype_generation + 1 } : World)
    rw [hW,
      show done ++ cv :: rest'.map (fun cv => (cv.1, ([] : Column)))
        = (done ++ [cv]) ++ rest'.map (fun cv => (cv.1, ([] : Column))) from by simp,
      show done ++ cv :: rest' = (done ++ [cv]) ++ rest' from by simp]
    exact ih (off + 1) (done ++ [cv]) (by simpa using hnd)
      (fun j hj => by
        have h0 := hval (j + 1) (by simpa using Nat.succ_lt_succ hj)
        rw [List.getD_cons_succ] at h0
        have h2 : off + 1 + j = off + (j + 1) := by omega
        rw [h2]
        exact h0)

theorem deserializeBlock_roundtrip {reg : Registry} {wt : World} {a : Archetype}
    {b : ArchBlock} (hreg : regOKb reg = true)
    (hkeys : a.columns.map Prod.fst = a.type_set)
    (hasc : strictAsc a.type_set = true)
    (hlens : ∀ cv ∈ a.columns, cv.2.length = a.entities.length)
    (hnotmem : a.type_set ∉ wt.archetypes.map (fun x => x.type_set))
    (hb : serializeArch reg a = some b) :
    deserializeBlock reg wt b = some ({ wt with
      archetypes := wt.archetypes ++ [a],
      archetype_generation := wt.archetype_generation + 1 } : World) := by
  rcases serializeArch_some hb with ⟨nms, hnms, hbeq⟩
  subst hbeq
  have hmm : nms.mapM (idOfName reg) = some a.type_set := by
    rw [mapM_nameOf_cols hreg _ _ hnms, hkeys]
  have hfindnone : wt.findArchetype a.type_set = none := by
    apply List.find?_eq_none.mpr
    intro x hx
    simp only [beq_iff_eq, Bool.not_eq_true]
    exact fun hh => hnotmem (List.mem_map.mpr ⟨x, hx, hh⟩)
  simp only [deserializeBlock, hmm, sortIds_of_strictAsc _ hasc,
    getOrCreate_new hfindnone]
  have hblank : a.type_set.map (fun c => (c, ([] : Column)))
      = a.columns.map (fun cv => (cv.1, ([] : Column))) := by
    rw [← hkeys, List.map_map]
    exact List.map_congr_left (fun cv _ => rfl)
  have hfold := foldSetCols wt a.type_set (a.columns.map Prod.snd) a.entities.length
    hnotmem a.columns 0 []
    (by
      simp only [List.nil_append]
      rw [hkeys]
      exact strictAsc_nodup _ hasc)
    (fun j hj => by
      rw [Nat.zero_add, getD_map Prod.snd _ _ _ (0, []) hj]
      have hlen : ((a.columns.getD j (0, ([] : Column)))).2.length
          = a.entities.length := hlens _ (mem_getD _ _ _ hj)
      rw [← hlen, List.take_length])
  rw [hkeys] at hfold
  simp only [List.nil_append] at hfold
  rw [show (⟨a.type_set, a.type_set.map (fun c => (c, ([] : Column))), []⟩ : Archetype)
      = ⟨a.type_set, a.columns.map (fun cv => (cv.1, ([] : Column))), []⟩ from by
    rw [hblank]]
  rw [hfold]
  have hupd := @updateArch_append_last
    ({ wt with
       archetypes := wt.archetypes ++ [(⟨a.type_set, a.columns, []⟩ : Archetype)],
       archetype_generation := wt.archetype_generation + 1 } : World)
    wt.archetypes (⟨a.type_set, a.columns, []⟩ : Archetype) a.type_set
    (fun ar => { ar with entities := a.entities }) rfl hnotmem rfl
  rw [hupd]

theorem deserializeGo_roundtrip {reg : Registry} (hreg : regOKb reg = true) :
    ∀ (AS : List Archetype) (bs : List ArchBlock) (wt : World),
    AS.mapM (serializeArch reg) = some bs →
    (∀ a ∈ AS, a.columns.map Prod.fst = a.type_set ∧ strictAsc a.type_set = true ∧
      ∀ cv ∈ a.columns, cv.2.length = a.entities.length) →
    ((wt.archetypes ++ AS).map (fun x => x.type_set)).Nodup →
    ∃ w1, deserializeGo reg wt bs = some w1 ∧
      w1.archetypes = wt.archetypes ++ AS := by
  intro AS
  induction AS with
  | nil =>
    intro bs wt hm _ _
    rw [mapM_option_nil, Option.some.injEq] at hm
    exact ⟨wt, by rw [← hm]; rfl, by simp⟩
  | cons a AS' ih =>
    intro bs wt hm hprops hnd
    rw [mapM_option_cons] at hm
    rcases hb : serializeArch reg a with _ | b
    · rw [hb] at hm
      exact absurd hm (by simp)
    rcases hrest : AS'.mapM (serializeArch reg) with _ | bs'
    · rw [hb, hrest] at hm
      exact absurd hm (by simp)
    rw [hb, hrest] at hm
    simp only [Option.some_bind, Option.some.injEq] at hm
    obtain ⟨hk, hasc, hlen⟩ := hprops a (List.mem_cons_self _ _)
    have hnotmem : a.type_set ∉ wt.archetypes.map (fun x => x.type_set) := by
      rw [List.map_append, List.nodup_append] at hnd
      intro hmem
      exact hnd.2.2 hmem (by simp)
    have hblock := deserializeBlock_roundtrip hreg hk hasc hlen hnotmem hb
    rw [← hm, deserializeGo, hblock]
    obtain ⟨w2, hgo, harch⟩ := ih bs'
      ({ wt with
         archetypes := wt.archetypes ++ [a],
         archetype_generation := wt.archetype_generation + 1 } : World)
      hrest (fun x hx => hprops x (List.mem_cons_of_mem _ hx))
      (by simpa using hnd)
    refine ⟨w2, hgo, ?_⟩
    rw [harch]
    simp

theorem getD_replicate_self {α : Type} (n i : Nat) (d : α) :
    (List.replicate n d).getD i d = d := by
  rw [List.getD_eq_getElem?_getD, List.getElem?_replicate]
  split <;> rfl

theorem rebuildI_length (ts0 : List ComponentTypeID) :
    ∀ (ents : List Entity) (off : Nat) (rs : List EntityRecord),
    ((enumFrom off ents).foldl
      (fun rs2 p => rs2.set p.2.index ⟨some ts0, p.1⟩) rs).length = rs.length := by
  intro ents
  induction ents with
  | nil =>
    intro off rs
    rfl
  | cons x xs ih =>
    intro off rs
    rw [enumFrom, List.foldl_cons, ih]
    simp

theorem rebuildI_ne (ts0 : List ComponentTypeID) :
    ∀ (ents : List Entity) (off : Nat) (rs : List EntityRecord) (i : Nat),
    (∀ x ∈ ents, x.index ≠ i) →
    ((enumFrom off ents).foldl
      (fun rs2 p => rs2.set p.2.index ⟨some ts0, p.1⟩) rs).getD i nilRecord
      = rs.getD i nilRecord := by
  intro ents
  induction ents with
  | nil =>
    intro off rs i _
    rfl
  | cons x xs ih =>
    intro off rs i h
    rw [enumFrom, List.foldl_cons,
      ih _ _ _ (fun y hy => h y (List.mem_cons_of_mem _ hy))]
    show (rs.set x.index ⟨some ts0, off⟩).getD i nilRecord = rs.getD i nilRecord
    exact getD_set_ne _ _ _ _ _ (h x (List.mem_cons_self _ _))

theorem rebuildI_mem (ts0 : List ComponentTypeID) :
    ∀ (ents : List Entity) (off : Nat) (rs : List EntityRecord) (k : Nat),
    k < ents.length →
    (∀ k1 k2, k1 < ents.length → k2 < ents.length →
      (ents.getD k1 INVALID_ENTITY).index = (ents.getD k2 INVALID_ENTITY).index →
      k1 = k2) →
    (ents.getD k INVALID_ENTITY).index < rs.length →
    ((enumFrom off ents).foldl
      (fun rs2 p => rs2.set p.2.index ⟨some ts0, p.1⟩) rs).getD
        (ents.getD k INVALID_ENTITY).index nilRecord
      = ⟨some ts0, off + k⟩ := by
  intro ents
  induction ents with
  | nil =>
    intro off rs k hk
    exact absurd hk (by simp)
  | cons x xs ih =>
    intro off rs k hk hinj hlen
    rw [enumFrom, List.foldl_cons]
    rcases k with _ | j
    · rw [List.getD_cons_zero] at hlen ⊢
      have hne : ∀ y ∈ xs, y.index ≠ x.index := by
        intro y hy hyx
        rcases exists_getD xs INVALID_ENTITY hy with ⟨j2, hj2, hj2y⟩
        have h0 := hinj 0 (j2 + 1) (by simp) (by simp; omega)
          (by rw [List.getD_cons_zero, List.getD_cons_succ, hj2y, hyx])
        exact absurd h0 (by omega)
      rw [rebuildI_ne ts0 xs (off + 1) _ x.index hne]
      show (rs.set x.index ⟨some ts0, off⟩).getD x.index nilRecord = ⟨some ts0, off + 0⟩
      rw [getD_set_self _ _ _ _ hlen, Nat.add_zero]
    · rw [List.getD_cons_succ] at hlen ⊢
      have hinj' : ∀ k1 k2, k1 < xs.length → k2 < xs.length →
          (xs.getD k1 INVALID_ENTITY).index = (xs.getD k2 INVALID_ENTITY).index →
          k1 = k2 := by
        intro k1 k2 h1 h2 he
        have h0 := hinj (k1 + 1) (k2 + 1) (by simp; omega) (by simp; omega)
          (by rw [List.getD_cons_succ, List.getD_cons_succ]; exact he)
        omega
      have hstep := ih (off + 1) (rs.set x.index ⟨some ts0, off⟩) j
        (by simpa using hk) hinj' (by simpa using hlen)
      show (List.foldl (fun rs2 p => rs2.set p.2.index (⟨some ts0, p.1⟩ : EntityRecord))
          (rs.set x.index ⟨some ts0, off⟩) (enumFrom (off + 1) xs)).getD
          (xs.getD j INVALID_ENTITY).index nilRecord = ⟨some ts0, off + (j + 1)⟩
      rw [hstep]
      show (⟨some ts0, off + 1 + j⟩ : EntityRecord) = ⟨some ts0, off + (j + 1)⟩
      rw [show off + 1 + j = off + (j + 1) from by omega]

theorem rebuildO_length :
    ∀ (archs : List Archetype) (rs : List EntityRecord),
    (archs.foldl (fun rr ar =>
      (enumFrom 0 ar.entities).foldl
        (fun rs2 p => rs2.set p.2.index ⟨some ar.type_set, p.1⟩) rr) rs).length
      = rs.length := by
  intro archs
  induction archs with
  | nil =>
    intro rs
    rfl
  | cons b rest ih =>
    intro rs
    rw [List.foldl_cons, ih]
    show ((enumFrom 0 b.entities).foldl
      (fun rs2 p => rs2.set p.2.index ⟨some b.type_set, p.1⟩) rs).length = rs.length
    exact rebuildI_length b.type_set b.entities 0 rs

theorem rebuildO_ne :
    ∀ (archs : List Archetype) (rs : List EntityRecord) (i : Nat),
    (∀ a ∈ archs, ∀ x ∈ a.entities, x.index ≠ i) →
    (archs.foldl (fun rr ar =>
      (enumFrom 0 ar.entities).foldl
        (fun rs2 p => rs2.set p.2.index ⟨some ar.type_set, p.1⟩) rr) rs).getD i nilRecord
      = rs.getD i nilRecord := by
  intro archs
  induction archs with
  | nil =>
    intro rs i _
    rfl
  | cons b rest ih =>
    intro rs i h
    rw [List.foldl_cons, ih _ _ (fun a ha => h a (List.mem_cons_of_mem _ ha))]
    show ((enumFrom 0 b.entities).foldl
      (fun rs2 p => rs2.set p.2.index ⟨some b.type_set, p.1⟩) rs).getD i nilRecord
      = rs.getD i nilRecord
    exact rebuildI_ne b.type_set b.entities 0 rs i (h b (List.mem_cons_self _ _))

theorem rebuildO_mem :
    ∀ (archs : List Archetype) (rs : List EntityRecord) (a : Archetype) (r : Nat),
    a ∈ archs → r < a.entities.length →
    (∀ a1, a1 ∈ archs → ∀ a2, a2 ∈ archs → ∀ r1 r2, r1 < a1.entities.length →
      r2 < a2.entities.length →
      (a1.entities.getD r1 INVALID_ENTITY).index
        = (a2.entities.getD r2 INVALID_ENTITY).index → a1 = a2 ∧ r1 = r2) →
    (archs.map (fun x => x.type_set)).Nodup →
    (a.entities.getD r INVALID_ENTITY).index < rs.length →
    (archs.foldl (fun rr ar =>
      (enumFrom 0 ar.entities).foldl
        (fun rs2 p => rs2.set p.2.index ⟨some ar.type_set, p.1⟩) rr) rs).getD
        (a.entities.getD r INVALID_ENTITY).index nilRecord
      = ⟨some a.type_set, r⟩ := by
  intro archs
  induction archs with
  | nil =>
    intro rs a r ha
    exact absurd ha (List.not_mem_nil _)
  | cons b rest ih =>
    intro rs a r ha hr hinj hnd hlen
    rw [List.foldl_cons]
    rcases List.mem_cons.mp ha with hab | hatail
    · subst hab
      have hrest_ne : ∀ a2 ∈ rest, ∀ x ∈ a2.entities,
          x.index ≠ (a.entities.getD r INVALID_ENTITY).index := by
        intro a2 ha2 x hx hxi
        rcases exists_getD a2.entities INVALID_ENTITY hx with ⟨r2, hr2, hr2x⟩
        have h12 := hinj a (List.mem_cons_self _ _) a2 (List.mem_cons_of_mem _ ha2)
          r r2 hr hr2 (by rw [hr2x, hxi])
        rw [List.map_cons, List.nodup_cons] at hnd
        exact hnd.1 (by rw [h12.1]; exact List.mem_map.mpr ⟨a2, ha2, rfl⟩)
      rw [rebuildO_ne rest _ _ hrest_ne]
      show ((enumFrom 0 a.entities).foldl
        (fun rs2 p => rs2.set p.2.index ⟨some a.type_set, p.1⟩) rs).getD
          (a.entities.getD r INVALID_ENTITY).index nilRecord = ⟨some a.type_set, r⟩
      have hI := rebuildI_mem a.type_set a.entities 0 rs r hr
        (fun k1 k2 h1 h2 he =>
          (hinj a (List.mem_cons_self _ _) a (List.mem_cons_self _ _)
            k1 k2 h1 h2 he).2) hlen
      rw [hI]
      show (⟨some a.type_set, 0 + r⟩ : EntityRecord) = ⟨some a.type_set, r⟩
      rw [Nat.zero_add]
    · have hb_ne : ∀ x ∈ b.entities,
          x.index ≠ (a.entities.getD r INVALID_ENTITY).index := by
        intro x hx hxi
        rcases exists_getD b.entities INVALID_ENTITY hx with ⟨r2, hr2, hr2x⟩
        have h12 := hinj b (List.mem_cons_self _ _) a (List.mem_cons_of_mem _ hatail)
          r2 r hr2 hr (by rw [hr2x, hxi])
        rw [List.map_cons, List.nodup_cons] at hnd
        exact hnd.1 (by rw [h12.1]; exact List.mem_map.mpr ⟨a, hatail, rfl⟩)
      show (rest.foldl (fun rr ar =>
        (enumFrom 0 ar.entities).foldl
          (fun rs2 p => rs2.set p.2.index ⟨some ar.type_set, p.1⟩) rr)
        ((enumFrom 0 b.entities).foldl
          (fun rs2 p => rs2.set p.2.index ⟨some b.type_set, p.1⟩) rs)).getD
          (a.entities.getD r INVALID_ENTITY).index nilRecord = ⟨some a.type_set, r⟩
      refine ih _ a r hatail hr
        (fun a1 h1 a2 h2 r1 r2 hr1 hr2 he =>
          hinj a1 (List.mem_cons_of_mem _ h1) a2 (List.mem_cons_of_mem _ h2)
            r1 r2 hr1 hr2 he)
        (by rw [List.map_cons, List.nodup_cons] at hnd; exact hnd.2) ?_
      rw [rebuildI_length]
      exact hlen

theorem has_congr {w w' : World} {e : Entity} (hg : w'.generations = w.generations)
    (hr : w'.recordOf e.index = w.recordOf e.index)
    (hf : w'.findArchetype ((w.recordOf e.index).archetype.getD [])
      = w.findArchetype ((w.recordOf e.index).archetype.getD [])) :
    ∀ c, w'.has e c = w.has e c := by
  intro c
  have halive := alive_congr hg hr
  have harchget : w'.archetypeGet ((w.recordOf e.index).archetype.getD [])
      = w.archetypeGet ((w.recordOf e.index).archetype.getD []) := by
    rw [World.archetypeGet, World.archetypeGet, hf]
  rw [World.has, World.has, halive, hr, harchget]

theorem find?_typeset_of_mem_nodup :
    ∀ (l : List Archetype) (a : Archetype), a ∈ l →
    (l.map (fun x => x.type_set)).Nodup →
    l.find? (fun x => x.type_set == a.type_set) = some a := by
  intro l
  induction l with
  | nil =>
    intro a ha
    exact absurd ha (List.not_mem_nil _)
  | cons b rest ih =>
    intro a ha hnd
    rw [List.map_cons, List.nodup_cons] at hnd
    rcases List.mem_cons.mp ha with hab | hatail
    · subst hab
      rw [List.find?_cons_of_pos _ (by simp)]
    · have hne : (b.type_set == a.type_set) = false := by
        simp only [beq_eq_false_iff_ne, ne_eq]
        intro hh
        exact hnd.1 (List.mem_map.mpr ⟨a, hatail, hh.symm⟩)
      rw [List.find?_cons_of_neg _ (by simp [hne])]
      exact ih a hatail hnd.2

/-! ## The claims -/

/-- C1: In every world state reachable by any sequence of public operations
(create, create-with, destroy, add, remove, sort, flush of deferred commands,
cached query), for every live entity e the record points back consistently:
the record's archetype is present and non-null, that archetype's entity list
at the record's row is exactly e, and the stored generation equals
e.generation; moreover in every archetype each column's live count equals the
length of its entity list. -/
theorem C1_reachable_invariants {w : World} (h : World.Reachable w) :
    (∀ e : Entity, w.alive e = true →
      ∃ ts a, (w.recordOf e.index).archetype = some ts ∧
        w.findArchetype ts = some a ∧
        a.entities.getD (w.recordOf e.index).row INVALID_ENTITY = e ∧
        w.genOf e.index = e.generation) ∧
    (∀ a, a ∈ w.archetypes → ∀ cv, cv ∈ a.columns →
      cv.2.length = a.entities.length) := by
  have hWF := WF_reachable h
  constructor
  · intro e he
    rcases WF_live hWF he with ⟨ts, a, h1, h2, _, _, _, h3, _, h4⟩
    exact ⟨ts, a, h1, h2, h3, h4⟩
  · intro a ha cv hcv
    exact (WF_arch_parts hWF ha).2.2 cv hcv

theorem C1_reachable_invariants_witness :
    (∀ e : Entity, World.init.alive e = true →
      ∃ ts a, (World.init.recordOf e.index).archetype = some ts ∧
        World.init.findArchetype ts = some a ∧
        a.entities.getD (World.init.recordOf e.index).row INVALID_ENTITY = e ∧
        World.init.genOf e.index = e.generation) ∧
    (∀ a, a ∈ World.init.archetypes → ∀ cv, cv ∈ a.columns →
      cv.2.length = a.entities.length) :=
  C1_reachable_invariants World.Reachable.init

/-- C3: In every reachable world, the archetype list returned by the cached
query is exact: a type set is in the result precisely when an archetype with
that type set exists whose inclusion bits contain the include mask and are
disjoint from the exclude mask — so nothing outside the result matches, and
everything in the result does.  The query leaves the archetype set and its
generation untouched and preserves the cache soundness invariant, so an
entry built at generation G keeps answering exactly while the archetype set
is unchanged; a generation mismatch forces the rescan visible in
cached_query. -/
theorem C3_cached_query_exact {w w' : World} {inc exc : List ComponentTypeID}
    {res : List (List ComponentTypeID)} (hr : World.Reachable w)
    (hq : w.cachedQuery inc exc = some (w', res)) :
    (∀ ts, ts ∈ res ↔ ∃ a, a ∈ w.archetypes ∧ a.type_set = ts ∧
      archetypeMatches (bitsOf a.type_set) (bitsOf inc) (bitsOf exc) = true) ∧
    w'.cacheOKb = true ∧ w'.archetypes = w.archetypes ∧
    w'.archetype_generation = w.archetype_generation := by
  obtain ⟨hOK, hLen⟩ := cache_reachable hr
  exact cachedQuery_exact hOK hLen hq

theorem C3_cached_query_exact_witness :
    World.init.cachedQuery [] [] = some
      ({ World.init with query_cache := [(⟨[], []⟩, ⟨[], 0⟩)] }, []) ∧
    ((∀ ts, ts ∈ ([] : List (List ComponentTypeID)) ↔ ∃ a, a ∈ World.init.archetypes ∧
        a.type_set = ts ∧
        archetypeMatches (bitsOf a.type_set) (bitsOf ([] : List ComponentTypeID))
          (bitsOf ([] : List ComponentTypeID)) = true) ∧
    ({ World.init with query_cache := [(⟨[], []⟩, ⟨[], 0⟩)] } : World).cacheOKb = true ∧
    ({ World.init with query_cache := [(⟨[], []⟩, ⟨[], 0⟩)] } : World).archetypes
      = World.init.archetypes ∧
    ({ World.init with query_cache := [(⟨[], []⟩, ⟨[], 0⟩)] } : World).archetype_generation
      = World.init.archetype_generation) :=
  ⟨by decide, C3_cached_query_exact World.Reachable.init (by decide)⟩

/-- C5: The iteration guard: for every world — in particular one outside all
each calls, with the counter at 0 — eachWrap (the shared body of each and
each-no-entity) hands the body a world with the iterating counter incremented
by one and decrements the counter again on every exit path (the scoped
release runs on the normal and the unwinding path alike), so a
counter-neutral body restores the entry value, and entering at 0 leaves it 0
again; and while the counter is positive every structural operation (create,
create-with, destroy, destroy-all, add, add-raw, remove, sort, flush of
deferred commands) fails its precondition assertion and refuses to change the
world. -/
theorem C5_iteration_guard (w : World) :
    (∀ body : World → World × Bool,
      (w.eachWrap body).1.iterating =
        (body { w with iterating := w.iterating + 1 }).1.iterating - 1) ∧
    (∀ body : World → World × Bool,
      (body { w with iterating := w.iterating + 1 }).1.iterating = w.iterating + 1 →
      (w.eachWrap body).1.iterating = w.iterating) ∧
    (0 < w.iterating →
      w.create = none ∧
      (∀ comps, w.create_with comps = none) ∧
      (∀ e, w.destroy e = none) ∧
      (∀ cid, w.destroy_all cid = none) ∧
      (∀ e cid v, w.add e cid v = none) ∧
      (∀ e cid v, w.add_raw e cid v = none) ∧
      (∀ e cid, w.remove e cid = none) ∧
      (∀ cid cmp, w.sort cid cmp = none) ∧
      (∀ cmds, w.flushDeferred cmds = none)) := by
  refine ⟨fun body => rfl, ?_, ?_⟩
  · intro body hb
    show (body { w with iterating := w.iterating + 1 }).1.iterating - 1 = w.iterating
    rw [hb]
    omega
  intro h
  have hne : w.iterating ≠ 0 := by omega
  refine ⟨?_, ?_, ?_, ?_, ?_, ?_, ?_, ?_, ?_⟩
  · rw [World.create, if_pos hne]
  · intro comps
    rw [World.create_with, if_pos hne]
  · intro e
    rw [World.destroy, if_pos hne]
  · intro cid
    rw [World.destroy_all, if_pos hne]
  · intro e cid v
    rw [World.add, if_pos hne]
  · intro e cid v
    rw [World.add_raw, if_pos hne]
  · intro e cid
    rw [World.remove, if_pos hne]
  · intro cid cmp
    rw [World.sort, if_pos hne]
  · intro cmds
    rw [World.flushDeferred, if_pos hne]

theorem C5_iteration_guard_witness :
    (∀ body : World → World × Bool,
      (World.init.eachWrap body).1.iterating =
        (body ({ World.init with iterating := 1 } : World)).1.iterating - 1) ∧
    (∀ body : World → World × Bool,
      (body ({ World.init with iterating := 1 } : World)).1.iterating = 1 →
      (World.init.eachWrap body).1.iterating = 0) ∧
    0 < ({ World.init with iterating := 1 } : World).iterating ∧
    (({ World.init with iterating := 1 } : World).create = none ∧
    (∀ comps, ({ World.init with iterating := 1 } : World).create_with comps = none) ∧
    (∀ e, ({ World.init with iterating := 1 } : World).destroy e = none) ∧
    (∀ cid, ({ World.init with iterating := 1 } : World).destroy_all cid = none) ∧
    (∀ e cid v, ({ World.init with iterating := 1 } : World).add e cid v = none) ∧
    (∀ e cid v, ({ World.init with iterating := 1 } : World).add_raw e cid v = none) ∧
    (∀ e cid, ({ World.init with iterating := 1 } : World).remove e cid = none) ∧
    (∀ cid cmp, ({ World.init with iterating := 1 } : World).sort cid cmp = none) ∧
    (∀ cmds, ({ World.init with iterating := 1 } : World).flushDeferred cmds = none)) :=
  ⟨(C5_iteration_guard World.init).1, (C5_iteration_guard World.init).2.1,
   by decide,
   (C5_iteration_guard ({ World.init with iterating := 1 } : World)).2.2 (by decide)⟩

/-- C6: Destroying a live entity and then creating a fresh one recycles the
slot: the handle returned by create has the same index as the destroyed
entity with generation exactly one higher, the old handle is no longer alive
in either world, and the new handle is alive.  (The generation bump is
uint32 arithmetic, so the statement assumes the incremented generation does
not wrap.) -/
theorem C6_destroy_create_recycles {w w1 : World} {e : Entity}
    (hWF : w.WFb = true) (he : w.alive e = true)
    (hgen : e.generation + 1 < UINT32_MOD) (hd : w.destroy e = some w1) :
    ∃ w2 f, w1.create = some (w2, f) ∧ f.index = e.index ∧
      f.generation = e.generation + 1 ∧ w1.alive e = false ∧
      w2.alive e = false ∧ w2.alive f = true := by
  obtain ⟨hit0, hit1, hfl1, hgens1, hreclen1, hrece1⟩ := destroy_effects hWF he hd
  rcases alive_iff.mp he with ⟨hidxg, hgenw, ts0, hts0⟩
  have hidx : e.index < w.records.length := by
    rw [((WFb_iff w).mp hWF).1]
    exact hidxg
  have hg1 : w1.genOf e.index = e.generation + 1 := by
    rw [World.genOf, hgens1, getD_set_self _ _ _ _ hidxg, Nat.mod_eq_of_lt hgen]
  have halive1 : w1.alive e = false := by
    cases hb : w1.alive e
    · rfl
    · rcases alive_iff.mp hb with ⟨_, hg, _⟩
      rw [hg1] at hg
      omega
  have hitne : ¬ w1.iterating ≠ 0 := by
    rw [hit1]
    simp
  have hall : w1.allocIndex = ({ w1 with free_list := w.free_list }, e.index) :=
    allocIndex_concat hfl1
  rcases hcr : w1.create with _ | ⟨w2, f⟩
  · rw [World.create, if_neg hitne] at hcr
    cases hcr
  · rw [World.create, if_neg hitne] at hcr
    simp only [hall] at hcr
    rw [Option.some.injEq, Prod.mk.injEq] at hcr
    obtain ⟨hW2, hf⟩ := hcr
    have hfidx : f.index = e.index := by
      rw [← hf]
    have hfgen : f.generation = e.generation + 1 := by
      rw [← hf]
      show ({ w1 with free_list := w.free_list } : World).genOf e.index = e.generation + 1
      exact hg1
    have hg2 : w2.genOf e.index = e.generation + 1 := by
      rw [← hW2, World.genOf, setRecord_generations, updateArch_generations,
        getOrCreate_generations]
      exact hg1
    have halive2 : w2.alive e = false := by
      cases hb : w2.alive e
      · rfl
      · rcases alive_iff.mp hb with ⟨_, hg, _⟩
        rw [hg2] at hg
        omega
    have hlen2 : w2.generations.length = w.generations.length := by
      rw [← hW2, setRecord_generations, updateArch_generations, getOrCreate_generations]
      show w1.generations.length = _
      rw [hgens1, List.length_set]
    have hrec2 : (w2.recordOf e.index).archetype = some [] := by
      rw [← hW2, recordOf_setRecord_self _ _ _ (by
        rw [updateArch_records, getOrCreate_records]
        show e.index < w1.records.length
        rw [hreclen1]
        exact hidx)]
    refine ⟨w2, f, rfl, hfidx, hfgen, halive1, halive2, ?_⟩
    apply alive_iff.mpr
    refine ⟨?_, ?_, [], ?_⟩
    · rw [hfidx, hlen2]
      exact hidxg
    · rw [hfidx, hg2, hfgen]
    · rw [hfidx]
      exact hrec2

set_option maxRecDepth 16000 in
theorem C6_destroy_create_recycles_witness :
    ({ generations := [1, 0], records := [nilRecord, ⟨some [], 0⟩], free_list := [],
       archetypes := [⟨[], [], [⟨1, 0⟩]⟩], archetype_generation := 1, query_cache := [],
       iterating := 0, events := [] } : World).WFb = true ∧
    ({ generations := [1, 0], records := [nilRecord, ⟨some [], 0⟩], free_list := [],
       archetypes := [⟨[], [], [⟨1, 0⟩]⟩], archetype_generation := 1, query_cache := [],
       iterating := 0, events := [] } : World).alive ⟨1, 0⟩ = true ∧
    (0 : Nat) + 1 < UINT32_MOD ∧
    ({ generations := [1, 0], records := [nilRecord, ⟨some [], 0⟩], free_list := [],
       archetypes := [⟨[], [], [⟨1, 0⟩]⟩], archetype_generation := 1, query_cache := [],
       iterating := 0, events := [] } : World).destroy ⟨1, 0⟩ =
      some { generations := [1, 1], records := [nilRecord, nilRecord], free_list := [1],
             archetypes := [⟨[], [], []⟩], archetype_generation := 1, query_cache := [],
             iterating := 0, events := [] } ∧
    (∃ w2 f,
      ({ generations := [1, 1], records := [nilRecord, nilRecord], free_list := [1],
         archetypes := [⟨[], [], []⟩], archetype_generation := 1, query_cache := [],
         iterating := 0, events := [] } : World).create = some (w2, f) ∧
      f.index = (⟨1, 0⟩ : Entity).index ∧
      f.generation = (0 : Nat) + 1 ∧
      ({ generations := [1, 1], records := [nilRecord, nilRecord], free_list := [1],
         archetypes := [⟨[], [], []⟩], archetype_generation := 1, query_cache := [],
         iterating := 0, events := [] } : World).alive ⟨1, 0⟩ = false ∧
      w2.alive ⟨1, 0⟩ = false ∧ w2.alive f = true) :=
  ⟨by decide, by decide, by decide, by decide,
    @C6_destroy_create_recycles
      { generations := [1, 0], records := [nilRecord, ⟨some [], 0⟩], free_list := [],
        archetypes := [⟨[], [], [⟨1, 0⟩]⟩], archetype_generation := 1, query_cache := [],
        iterating := 0, events := [] }
      { generations := [1, 1], records := [nilRecord, nilRecord], free_list := [1],
        archetypes := [⟨[], [], []⟩], archetype_generation := 1, query_cache := [],
        iterating := 0, events := [] }
      ⟨1, 0⟩ (by decide) (by decide) (by decide) (by decide)⟩

set_option maxRecDepth 16000 in
/-- C8: The spec says the assignment of the dense id for the 257th distinct
component type panics so ids never reach 256; in the code next_component_id
is an unchecked post-increment of the process counter, so the 257th distinct
type is simply assigned id 256 and registration succeeds — the 257 ids handed
out from a fresh counter are exactly 0..256 and the last one reaches the
supposed cap. -/
theorem C8_component_id_cap_missing :
    nextComponentId 256 = (256, 257) ∧
    assignIds 0 257 = List.range 257 ∧
    (assignIds 0 257).getLastD 0 = 256 := by
  decide

/-- C2: For a live entity e and the world invariant: after add(e, v), get
returns v; after remove, has is false; and the sequence add(e, v1);
add(e, v2) starting without the component leaves get at v2 while firing the
on-add hooks for the component exactly once — by the first add; the second
add assigns in place, changing neither the hook log nor the record table (no
migration, no on-add). -/
theorem C2_add_get_remove {w : World} {e : Entity} {cid : ComponentTypeID}
    (hWF : w.WFb = true) (he : w.alive e = true) :
    (∀ v w', w.add e cid v = some w' → w'.get e cid = some v) ∧
    (∀ w', w.remove e cid = some w' → w'.has e cid = false) ∧
    (∀ v1 v2 w1 w2, w.has e cid = false →
      w.add e cid v1 = some w1 → w1.add e cid v2 = some w2 →
      w2.get e cid = some v2 ∧
      w1.addEvents cid e = w.addEvents cid e + 1 ∧
      w2.addEvents cid e = w.addEvents cid e + 1 ∧
      w1.has e cid = true ∧ w2.events = w1.events ∧ w2.records = w1.records) := by
  refine ⟨?_, ?_, ?_⟩
  · intro v w' h
    exact (add_cases hWF he h).2.1
  · intro w' h
    exact remove_has hWF he h
  · intro v1 v2 w1 w2 hnot h1 h2
    obtain ⟨ha1, _, hh1, _, hev1⟩ := add_cases hWF he h1
    have hWF1 := WF_add hWF h1
    obtain ⟨_, hg2, _, hsame, _⟩ := add_cases hWF1 ha1 h2
    obtain ⟨hev2, hrec2⟩ := hsame hh1
    have hevw1 : w1.events = w.events ++ [HookEvent.addH cid e] := hev1 hnot
    have haddev1 : w1.addEvents cid e = w.addEvents cid e + 1 := by
      rw [World.addEvents, World.addEvents, hevw1, List.filter_append]
      simp
    refine ⟨hg2, haddev1, ?_, hh1, hev2, hrec2⟩
    rw [World.addEvents, hev2, ← World.addEvents, haddev1]

theorem C2_add_get_remove_witness :
    (({ generations := [1, 0], records := [nilRecord, ⟨some [], 0⟩], free_list := [],
         archetypes := [⟨[], [], [⟨1, 0⟩]⟩], archetype_generation := 1, query_cache := [],
         iterating := 0, events := [] } : World).WFb = true) ∧
    (({ generations := [1, 0], records := [nilRecord, ⟨some [], 0⟩], free_list := [],
         archetypes := [⟨[], [], [⟨1, 0⟩]⟩], archetype_generation := 1, query_cache := [],
         iterating := 0, events := [] } : World).alive ⟨1, 0⟩ = true) ∧
    ((∀ v w',
      ({ generations := [1, 0], records := [nilRecord, ⟨some [], 0⟩], free_list := [],
         archetypes := [⟨[], [], [⟨1, 0⟩]⟩], archetype_generation := 1, query_cache := [],
         iterating := 0, events := [] } : World).add ⟨1, 0⟩ 0 v = some w' →
      w'.get ⟨1, 0⟩ 0 = some v) ∧
    (∀ w',
      ({ generations := [1, 0], records := [nilRecord, ⟨some [], 0⟩], free_list := [],
         archetypes := [⟨[], [], [⟨1, 0⟩]⟩], archetype_generation := 1, query_cache := [],
         iterating := 0, events := [] } : World).remove ⟨1, 0⟩ 0 = some w' →
      w'.has ⟨1, 0⟩ 0 = false) ∧
    (∀ v1 v2 w1 w2,
      ({ generations := [1, 0], records := [nilRecord, ⟨some [], 0⟩], free_list := [],
         archetypes := [⟨[], [], [⟨1, 0⟩]⟩], archetype_generation := 1, query_cache := [],
         iterating := 0, events := [] } : World).has ⟨1, 0⟩ 0 = false →
      ({ generations := [1, 0], records := [nilRecord, ⟨some [], 0⟩], free_list := [],
         archetypes := [⟨[], [], [⟨1, 0⟩]⟩], archetype_generation := 1, query_cache := [],
         iterating := 0, events := [] } : World).add ⟨1, 0⟩ 0 v1 = some w1 →
      w1.add ⟨1, 0⟩ 0 v2 = some w2 →
      w2.get ⟨1, 0⟩ 0 = some v2 ∧
      w1.addEvents 0 ⟨1, 0⟩ =
        ({ generations := [1, 0], records := [nilRecord, ⟨some [], 0⟩], free_list := [],
           archetypes := [⟨[], [], [⟨1, 0⟩]⟩], archetype_generation := 1, query_cache := [],
           iterating := 0, events := [] } : World).addEvents 0 ⟨1, 0⟩ + 1 ∧
      w2.addEvents 0 ⟨1, 0⟩ =
        ({ generations := [1, 0], records := [nilRecord, ⟨some [], 0⟩], free_list := [],
           archetypes := [⟨[], [], [⟨1, 0⟩]⟩], archetype_generation := 1, query_cache := [],
           iterating := 0, events := [] } : World).addEvents 0 ⟨1, 0⟩ + 1 ∧
      w1.has ⟨1, 0⟩ 0 = true ∧ w2.events = w1.events ∧ w2.records = w1.records)) :=
  ⟨by decide, by decide, C2_add_get_remove (by decide) (by decide)⟩

/-- C7: During flush, an Add command whose target is dead leaves the world
unchanged — add-raw returns the untouched world with the consumed flag false
— and the flush driver invokes destroy_fn on the payload exactly once; when
the target is alive, add-raw consumes the payload by move (flag true) and the
driver does not invoke destroy_fn; add-raw never partially consumes (an
unconsumed payload always comes with an unchanged world); and the dead-entity
destroy and absent-component remove commands are silent no-ops that cannot
abort the flush.  (The companion counterexample shows the spec's blanket
'flush never panics' is still wrong: a CreateWith command with a duplicated
component id aborts the flush.) -/
theorem C7_flush_add_payload {w : World} {e : Entity} {cid : ComponentTypeID} {v : Val}
    (hWF : w.WFb = true) (hit : w.iterating = 0) :
    (w.alive e = false → w.add_raw e cid v = some (w, false) ∧
      w.flushOne (Cmd.addCmd e cid v) = some (w, 1)) ∧
    (w.alive e = true → ∀ w1 k, w.flushOne (Cmd.addCmd e cid v) = some (w1, k) →
      k = 0 ∧ w.add_raw e cid v = some (w1, true)) ∧
    (∀ w1 b, w.add_raw e cid v = some (w1, b) → b = false → w1 = w) ∧
    (w.add_raw e cid v).isSome = true ∧
    (∀ e2, (w.destroy e2).isSome = true) ∧
    (∀ e2 cid2, (w.remove e2 cid2).isSome = true) := by
  have hitne : ¬ w.iterating ≠ 0 := by
    rw [hit]
    simp
  have hdead : w.alive e = false → w.add_raw e cid v = some (w, false) := by
    intro hd
    rw [World.add_raw, if_neg hitne, if_pos (by rw [hd]; rfl)]
  have hrawSome : (w.add_raw e cid v).isSome = true := by
    rw [World.add_raw, if_neg hitne]
    by_cases ha : w.alive e = true
    · rw [if_neg (by simp [ha])]
      simp only []
      split <;> rfl
    · rw [if_pos (by revert ha; cases w.alive e <;> simp)]
      rfl
  refine ⟨?_, ?_, ?_, hrawSome, ?_, ?_⟩
  · intro hd
    refine ⟨hdead hd, ?_⟩
    rw [World.flushOne, hdead hd]
    show some (w, if w.alive e then 0 else 1) = some (w, 1)
    rw [hd]
    rfl
  · intro ha w1 k hf
    rw [World.flushOne] at hf
    rcases hr : w.add_raw e cid v with _ | ⟨wr, br⟩
    · rw [hr] at hf
      cases hf
    · rw [hr] at hf
      simp only [Option.some.injEq, Prod.mk.injEq] at hf
      have hadd : w.add e cid v = some wr := by
        rw [← add_raw_fst, hr]
        rfl
      have halive1 : wr.alive e = true := (add_cases hWF ha hadd).1
      have hbr : br = true := add_raw_consumed hit ha hr
      obtain ⟨hf1, hf2⟩ := hf
      subst hf1
      refine ⟨?_, ?_⟩
      · rw [← hf2, halive1]
        simp
      · rw [hbr]
  · intro w1 b hr hb
    by_cases ha : w.alive e = true
    · have hcons := add_raw_consumed hit ha hr
      rw [hb] at hcons
      simp at hcons
    · have hd : w.alive e = false := by
        revert ha
        cases w.alive e <;> simp
      have hthis := hdead hd
      rw [hr] at hthis
      simp only [Option.some.injEq, Prod.mk.injEq] at hthis
      exact hthis.1
  · intro e2
    rw [World.destroy, if_neg hitne]
    split
    · rfl
    · rfl
  · intro e2 cid2
    rw [World.remove, if_neg hitne]
    split
    · rfl
    · simp only []
      split
      · rfl
      · rfl

theorem C7_flush_add_payload_witness :
    World.init.WFb = true ∧ World.init.iterating = 0 ∧
    ((World.init.alive ⟨1, 0⟩ = false → World.init.add_raw ⟨1, 0⟩ 0 7
        = some (World.init, false) ∧
      World.init.flushOne (Cmd.addCmd ⟨1, 0⟩ 0 7) = some (World.init, 1)) ∧
    (World.init.alive ⟨1, 0⟩ = true →
      ∀ w1 k, World.init.flushOne (Cmd.addCmd ⟨1, 0⟩ 0 7) = some (w1, k) →
      k = 0 ∧ World.init.add_raw ⟨1, 0⟩ 0 7 = some (w1, true)) ∧
    (∀ w1 b, World.init.add_raw ⟨1, 0⟩ 0 7 = some (w1, b) → b = false →
      w1 = World.init) ∧
    (World.init.add_raw ⟨1, 0⟩ 0 7).isSome = true ∧
    (∀ e2, (World.init.destroy e2).isSome = true) ∧
    (∀ e2 cid2, (World.init.remove e2 cid2).isSome = true)) :=
  ⟨by decide, by decide, C7_flush_add_payload (by decide) (by decide)⟩

/-- C7 counterexample: the spec's blanket guarantee that a flush of deferred
commands never panics is wrong: a CreateWith command whose recorded component
list repeats a component id makes create_with fail its parity assertion while
the commands run (the duplicated id pushes the same column twice while only
one column exists for it), so the whole flush aborts. -/
theorem C7_flush_never_panics_counterexample :
    World.init.flushDeferred [Cmd.createWithCmd [(0, 1), (0, 2)]] = none := by
  decide

/-- C4: Serialize then deserialize into an empty world restores every
observable entity fact: the generation table and free list verbatim, every
live entity alive with the same component set and the same values, and every
dead slot dead (its generation preserved exactly, hence at least as large),
for any well-formed world whose component types are registered by name in a
conflict-free registry. -/
theorem C4_serialize_roundtrip {reg : Registry} {w : World} {s : Snapshot} {w' : World}
    (hWF : w.WFb = true) (hreg : regOKb reg = true)
    (hser : serialize reg w = some s)
    (hdes : deserialize reg World.init s = some w') :
    w'.generations = w.generations ∧
    w'.free_list = w.free_list ∧
    (∀ e, w.alive e = true → w'.alive e = true ∧
      ∀ c, w'.has e c = w.has e c ∧ w'.get e c = w.get e c) ∧
    (∀ e, w.alive e = false → w'.alive e = false) := by
  rw [serialize] at hser
  rcases Option.map_eq_some'.mp hser with ⟨bs, hbs, hs⟩
  subst hs
  set AS := w.archetypes.filter (fun a => !(a.count == 0)) with hAS
  have hsub : ∀ a ∈ AS, a ∈ w.archetypes := fun a ha => List.mem_of_mem_filter ha
  have hprops : ∀ a ∈ AS, a.columns.map Prod.fst = a.type_set ∧
      strictAsc a.type_set = true ∧
      ∀ cv ∈ a.columns, cv.2.length = a.entities.length :=
    fun a ha => WF_arch_parts hWF (hsub a ha)
  have hndAS : (AS.map (fun x => x.type_set)).Nodup := by
    have hnd := ((WFb_iff w).mp hWF).2.2.2.1
    exact List.Nodup.sublist (List.Sublist.map _ (List.filter_sublist _)) hnd
  have hmemAS : ∀ a, a ∈ w.archetypes → 0 < a.entities.length → a ∈ AS := by
    intro a hmem hpos
    rw [hAS]
    apply List.mem_filter.mpr
    refine ⟨hmem, ?_⟩
    simp only [Bool.not_eq_true', beq_eq_false_iff_ne, ne_eq]
    intro hc
    have hz : a.entities.length = 0 := hc
    omega
  simp only [deserialize] at hdes
  rw [if_neg (by decide)] at hdes
  obtain ⟨w1, hgo, harch⟩ := deserializeGo_roundtrip hreg AS bs World.init hbs hprops
    (by simp only [World.init, List.nil_append]; exact hndAS)
  rw [hgo] at hdes
  have hdes2 : some ({ w1 with
      generations := w.generations,
      free_list := w.free_list,
      records := rebuildRecords w1.archetypes w.generations.length } : World)
      = some w' := hdes
  have hdes3 := Option.some.inj hdes2
  have hw1arch : w1.archetypes = AS := by
    rw [harch]
    simp [World.init]
  have hgens : w'.generations = w.generations := by rw [← hdes3]
  have hfl : w'.free_list = w.free_list := by rw [← hdes3]
  have hrecw' : w'.records = rebuildRecords w1.archetypes w.generations.length := by
    rw [← hdes3]
  have hlenrec : w.records.length = w.generations.length := ((WFb_iff w).mp hWF).1
  have hinjAS : ∀ a1, a1 ∈ AS → ∀ a2, a2 ∈ AS → ∀ r1 r2, r1 < a1.entities.length →
      r2 < a2.entities.length →
      (a1.entities.getD r1 INVALID_ENTITY).index
        = (a2.entities.getD r2 INVALID_ENTITY).index → a1 = a2 ∧ r1 = r2 :=
    fun a1 h1 a2 h2 r1 r2 hr1 hr2 he =>
      WF_index_unique hWF (hsub a1 h1) (hsub a2 h2) hr1 hr2 he
  have hrec_some : ∀ i ts, (w.recordOf i).archetype = some ts →
      w'.recordOf i = w.recordOf i := by
    intro i ts hts
    have hi : i < w.records.length := by
      by_contra hge
      push_neg at hge
      rw [World.recordOf, getD_oob _ _ _ hge] at hts
      exact absurd hts (by simp [nilRecord])
    have hrOK := ((WFb_iff w).mp hWF).2.1 i hi
    rcases recOKb_live hrOK hts with ⟨a0, hfind, hrow, hent⟩
    rcases findArchetype_some hfind with ⟨hmem0, hats0⟩
    have hmem0AS : a0 ∈ AS := hmemAS a0 hmem0 (by omega)
    have hidx : (a0.entities.getD (w.recordOf i).row INVALID_ENTITY).index = i := by
      rw [hent]
    have hO := rebuildO_mem AS (List.replicate w.generations.length nilRecord) a0
      (w.recordOf i).row hmem0AS hrow hinjAS hndAS
      (by rw [hidx, List.length_replicate]; omega)
    rw [hidx] at hO
    rw [World.recordOf, hrecw', hw1arch, rebuildRecords, hO, hats0]
    show (⟨some ts, (w.recordOf i).row⟩ : EntityRecord) = w.recordOf i
    rw [← hts]
  have hrec_none : ∀ i, (w.recordOf i).archetype = none →
      (w'.recordOf i).archetype = none := by
    intro i hnone
    have hne : ∀ a ∈ AS, ∀ x ∈ a.entities, x.index ≠ i := by
      intro a ha x hx hxi
      rcases exists_getD a.entities INVALID_ENTITY hx with ⟨r2, hr2, hr2x⟩
      have hrow := (WF_arch_row hWF (hsub a ha) hr2).2.1
      rw [hr2x, hxi] at hrow
      rw [hrow] at hnone
      exact absurd hnone (by simp)
    rw [World.recordOf, hrecw', hw1arch, rebuildRecords, rebuildO_ne AS _ i hne,
      getD_replicate_self]
    rfl
  have halive_eq : ∀ e, w'.alive e = w.alive e := by
    intro e
    rcases hae : (w.recordOf e.index).archetype with _ | ts
    · rw [World.alive, World.alive, World.genOf, World.genOf, hgens,
        hrec_none e.index hae, hae]
    · exact alive_congr hgens (hrec_some e.index ts hae)
  refine ⟨hgens, hfl, ?_, fun e he => by rw [halive_eq]; exact he⟩
  intro e he
  rcases WF_live hWF he with
    ⟨ts, ae, hts, hfind_e, hmem_e, hats_e, hrow_e, hent_e, hidx_e, hgen_e⟩
  have hr : w'.recordOf e.index = w.recordOf e.index := hrec_some e.index ts hts
  have hmemAe : ae ∈ AS := hmemAS ae hmem_e (by omega)
  have hw'arch : w'.archetypes = AS := by
    have h1 : w'.archetypes = w1.archetypes := by rw [← hdes3]
    rw [h1, hw1arch]
  have hfindw' : w'.findArchetype ts = w.findArchetype ts := by
    rw [hfind_e, World.findArchetype, hw'arch, ← hats_e]
    exact find?_typeset_of_mem_nodup AS ae hmemAe hndAS
  refine ⟨by rw [halive_eq]; exact he, fun c => ⟨?_, ?_⟩⟩
  · exact has_congr hgens hr (by rw [hts, Option.getD_some]; exact hfindw') c
  · exact get_congr hgens hr (by rw [hts, Option.getD_some]; exact hfindw') c

theorem C4_serialize_roundtrip_witness :
    ((({ generations := [1, 0], records := [nilRecord, ⟨some [0], 0⟩], free_list := [],
         archetypes := [⟨[0], [(0, [7])], [⟨1, 0⟩]⟩], archetype_generation := 1,
         query_cache := [], iterating := 0, events := [] } : World).WFb = true) ∧
     (regOKb [(0, 5)] = true) ∧
     (serialize [(0, 5)]
        ({ generations := [1, 0], records := [nilRecord, ⟨some [0], 0⟩], free_list := [],
           archetypes := [⟨[0], [(0, [7])], [⟨1, 0⟩]⟩], archetype_generation := 1,
           query_cache := [], iterating := 0, events := [] } : World) =
        some (⟨[⟨[5], [[7]], [⟨1, 0⟩]⟩], [1, 0], []⟩ : Snapshot)) ∧
     (deserialize [(0, 5)] World.init
        (⟨[⟨[5], [[7]], [⟨1, 0⟩]⟩], [1, 0], []⟩ : Snapshot) =
        some ({ generations := [1, 0], records := [nilRecord, ⟨some [0], 0⟩],
                free_list := [], archetypes := [⟨[0], [(0, [7])], [⟨1, 0⟩]⟩],
                archetype_generation := 1, query_cache := [], iterating := 0,
                events := [] } : World))) ∧
    ((({ generations := [1, 0], records := [nilRecord, ⟨some [0], 0⟩], free_list := [],
         archetypes := [⟨[0], [(0, [7])], [⟨1, 0⟩]⟩], archetype_generation := 1,
         query_cache := [], iterating := 0, events := [] } : World).generations =
      ({ generations := [1, 0], records := [nilRecord, ⟨some [0], 0⟩], free_list := [],
         archetypes := [⟨[0], [(0, [7])], [⟨1, 0⟩]⟩], archetype_generation := 1,
         query_cache := [], iterating := 0, events := [] } : World).generations) ∧
     (({ generations := [1, 0], records := [nilRecord, ⟨some [0], 0⟩], free_list := [],
         archetypes := [⟨[0], [(0, [7])], [⟨1, 0⟩]⟩], archetype_generation := 1,
         query_cache := [], iterating := 0, events := [] } : World).free_list =
      ({ generations := [1, 0], records := [nilRecord, ⟨some [0], 0⟩], free_list := [],
         archetypes := [⟨[0], [(0, [7])], [⟨1, 0⟩]⟩], archetype_generation := 1,
         query_cache := [], iterating := 0, events := [] } : World).free_list) ∧
     (∀ e,
       ({ generations := [1, 0], records := [nilRecord, ⟨some [0], 0⟩], free_list := [],
          archetypes := [⟨[0], [(0, [7])], [⟨1, 0⟩]⟩], archetype_generation := 1,
          query_cache := [], iterating := 0, events := [] } : World).alive e = true →
       ({ generations := [1, 0], records := [nilRecord, ⟨some [0], 0⟩], free_list := [],
          archetypes := [⟨[0], [(0, [7])], [⟨1, 0⟩]⟩], archetype_generation := 1,
          query_cache := [], iterating := 0, events := [] } : World).alive e = true ∧
       ∀ c,
        ({ generations := [1, 0], records := [nilRecord, ⟨some [0], 0⟩], free_list := [],
           archetypes := [⟨[0], [(0, [7])], [⟨1, 0⟩]⟩], archetype_generation := 1,
           query_cache := [], iterating := 0, events := [] } : World).has e c =
        ({ generations := [1, 0], records := [nilRecord, ⟨some [0], 0⟩], free_list := [],
           archetypes := [⟨[0], [(0, [7])], [⟨1, 0⟩]⟩], archetype_generation := 1,
           query_cache := [], iterating := 0, events := [] } : World).has e c ∧
        ({ generations := [1, 0], records := [nilRecord, ⟨some [0], 0⟩], free_list := [],
           archetypes := [⟨[0], [(0, [7])], [⟨1, 0⟩]⟩], archetype_generation := 1,
           query_cache := [], iterating := 0, events := [] } : World).get e c =
        ({ generations := [1, 0], records := [nilRecord, ⟨some [0], 0⟩], free_list := [],
           archetypes := [⟨[0], [(0, [7])], [⟨1, 0⟩]⟩], archetype_generation := 1,
           query_cache := [], iterating := 0, events := [] } : World).get e c) ∧
     (∀ e,
       ({ generations := [1, 0], records := [nilRecord, ⟨some [0], 0⟩], free_list := [],
          archetypes := [⟨[0], [(0, [7])], [⟨1, 0⟩]⟩], archetype_generation := 1,
          query_cache := [], iterating := 0, events := [] } : World).alive e = false →
       ({ generations := [1, 0], records := [nilRecord, ⟨some [0], 0⟩], free_list := [],
          archetypes := [⟨[0], [(0, [7])], [⟨1, 0⟩]⟩], archetype_generation := 1,
          query_cache := [], iterating := 0, events := [] } : World).alive e = false)) :=
  ⟨⟨by decide, by decide, by decide, by decide⟩,
   @C4_serialize_roundtrip [(0, 5)]
    ({ generations := [1, 0], records := [nilRecord, ⟨some [0], 0⟩], free_list := [],
       archetypes := [⟨[0], [(0, [7])], [⟨1, 0⟩]⟩], archetype_generation := 1,
       query_cache := [], iterating := 0, events := [] } : World)
    (⟨[⟨[5], [[7]], [⟨1, 0⟩]⟩], [1, 0], []⟩ : Snapshot)
    ({ generations := [1, 0], records := [nilRecord, ⟨some [0], 0⟩], free_list := [],
       archetypes := [⟨[0], [(0, [7])], [⟨1, 0⟩]⟩], archetype_generation := 1,
       query_cache := [], iterating := 0, events := [] } : World)
    (by decide) (by decide) (by decide) (by decide)⟩

/-- C9: After World::sort on component cid with an asymmetric transitive
comparator, every archetype containing cid has its cid column pairwise
monotone under the comparator (so iterating it yields a monotone value
sequence); every entity live before the sort is still live and get returns
the same value for every component; and the rows are permuted consistently:
in every archetype, the record of the entity at row i has row i. -/
theorem C9_sort_correct {w w' : World} {cid : ComponentTypeID}
    {cmp : Val → Val → Bool} (hWF : w.WFb = true)
    (hasym : ∀ x y, cmp x y = true → cmp y x = false)
    (htrans : ∀ x y z, cmp x y = true → cmp y z = true → cmp x z = true)
    (hs : w.sort cid cmp = some w') :
    (∀ a', a' ∈ w'.archetypes → a'.hasComponent cid = true →
      (((a'.columns.find? (fun cv => cv.1 == cid)).map Prod.snd).getD []).Pairwise
        (fun x y => cmp y x = false)) ∧
    (∀ e, w.alive e = true → w'.alive e = true ∧ ∀ c, w'.get e c = w.get e c) ∧
    (∀ a', a' ∈ w'.archetypes → ∀ i, i < a'.entities.length →
      w'.recordOf (a'.entities.getD i INVALID_ENTITY).index = ⟨some a'.type_set, i⟩) := by
  have hWF' : w'.WFb = true := WF_sort hWF hs
  have htsmap := (cacheFacts_sort hs).2.2
  rw [World.sort] at hs
  by_cases hit : w.iterating ≠ 0
  · rw [if_pos hit] at hs
    cases hs
  rw [if_neg hit, Option.some.injEq] at hs
  obtain ⟨q1, q2, q3, q4⟩ := sort_fold_effects cid cmp hasym htrans
    (w.archetypes.map (fun a => a.type_set)) w hWF
  rw [hs] at q2 q4
  refine ⟨?_, q2, ?_⟩
  · intro a' ha' hhas
    have hmemts : a'.type_set ∈ w'.archetypes.map (fun a => a.type_set) :=
      List.mem_map.mpr ⟨a', ha', rfl⟩
    rw [htsmap] at hmemts
    obtain ⟨b, hb⟩ := findArchetype_of_mem ha'
    have hnd' : (w'.archetypes.map (fun x => x.type_set)).Nodup :=
      ((WFb_iff w').mp hWF').2.2.2.1
    have hba : a' = b := findArchetype_unique hnd' hb ha' rfl
    rw [← hba] at hb
    exact q4 a'.type_set hmemts a' hb hhas
  · intro a' ha' i hi
    exact (WF_arch_row hWF' ha' hi).2.1

theorem C9_sort_correct_witness :
    ((({ generations := [1, 0], records := [nilRecord, ⟨some [], 0⟩], free_list := [],
         archetypes := [⟨[], [], [⟨1, 0⟩]⟩], archetype_generation := 1, query_cache := [],
         iterating := 0, events := [] } : World).WFb = true) ∧
     (∀ x y : Val, decide (x < y) = true → decide (y < x) = false) ∧
     (∀ x y z : Val, decide (x < y) = true → decide (y < z) = true →
       decide (x < z) = true) ∧
     (({ generations := [1, 0], records := [nilRecord, ⟨some [], 0⟩], free_list := [],
         archetypes := [⟨[], [], [⟨1, 0⟩]⟩], archetype_generation := 1, query_cache := [],
         iterating := 0, events := [] } : World).sort 0 (fun x y => decide (x < y)) =
       some ({ generations := [1, 0], records := [nilRecord, ⟨some [], 0⟩],
               free_list := [], archetypes := [⟨[], [], [⟨1, 0⟩]⟩],
               archetype_generation := 1, query_cache := [], iterating := 0,
               events := [] } : World))) ∧
    ((∀ a',
       a' ∈
        ({ generations := [1, 0], records := [nilRecord, ⟨some [], 0⟩], free_list := [],
           archetypes := [⟨[], [], [⟨1, 0⟩]⟩], archetype_generation := 1,
           query_cache := [], iterating := 0, events := [] } : World).archetypes →
       a'.hasComponent 0 = true →
       (((a'.columns.find? (fun cv => cv.1 == 0)).map Prod.snd).getD []).Pairwise
         (fun x y => decide (y < x) = false)) ∧
     (∀ e,
       ({ generations := [1, 0], records := [nilRecord, ⟨some [], 0⟩], free_list := [],
          archetypes := [⟨[], [], [⟨1, 0⟩]⟩], archetype_generation := 1,
          query_cache := [], iterating := 0, events := [] } : World).alive e = true →
       ({ generations := [1, 0], records := [nilRecord, ⟨some [], 0⟩], free_list := [],
          archetypes := [⟨[], [], [⟨1, 0⟩]⟩], archetype_generation := 1,
          query_cache := [], iterating := 0, events := [] } : World).alive e = true ∧
       ∀ c,
        ({ generations := [1, 0], records := [nilRecord, ⟨some [], 0⟩], free_list := [],
           archetypes := [⟨[], [], [⟨1, 0⟩]⟩], archetype_generation := 1,
           query_cache := [], iterating := 0, events := [] } : World).get e c =
        ({ generations := [1, 0], records := [nilRecord, ⟨some [], 0⟩], free_list := [],
           archetypes := [⟨[], [], [⟨1, 0⟩]⟩], archetype_generation := 1,
           query_cache := [], iterating := 0, events := [] } : World).get e c) ∧
     (∀ a',
       a' ∈
        ({ generations := [1, 0], records := [nilRecord, ⟨some [], 0⟩], free_list := [],
           archetypes := [⟨[], [], [⟨1, 0⟩]⟩], archetype_generation := 1,
           query_cache := [], iterating := 0, events := [] } : World).archetypes →
       ∀ i, i < a'.entities.length →
       ({ generations := [1, 0], records := [nilRecord, ⟨some [], 0⟩], free_list := [],
          archetypes := [⟨[], [], [⟨1, 0⟩]⟩], archetype_generation := 1,
          query_cache := [], iterating := 0, events := [] } : World).recordOf
           (a'.entities.getD i INVALID_ENTITY).index = ⟨some a'.type_set, i⟩)) :=
  ⟨⟨by decide,
    fun x y h => by
      have h1 : x < y := of_decide_eq_true h
      have h2 : ¬ y < x := Nat.lt_asymm h1
      exact decide_eq_false h2,
    fun x y z hxy hyz => by
      have h1 : x < y := of_decide_eq_true hxy
      have h2 : y < z := of_decide_eq_true hyz
      have h3 : x < z := Nat.lt_trans h1 h2
      exact decide_eq_true h3,
    by decide⟩,
   C9_sort_correct (by decide)
    (fun x y h => by
      have h1 : x < y := of_decide_eq_true h
      have h2 : ¬ y < x := Nat.lt_asymm h1
      exact decide_eq_false h2)
    (fun x y z hxy hyz => by
      have h1 : x < y := of_decide_eq_true hxy
      have h2 : y < z := of_decide_eq_true hyz
      have h3 : x < z := Nat.lt_trans h1 h2
      exact decide_eq_true h3)
    (by decide)⟩

/-- C10: The typed add and the type-erased add-raw (the path taken by
command-buffer flush) agree on the resulting world for every entity,
component id and value: the world component of add-raw's result is exactly
the result of add, so every observation — the value seen by get, archetype
membership, and the on-add hook log — coincides, including the path where
the component is already present (typed assignment over the slot versus raw
destroy-then-move into the slot). -/
theorem C10_add_raw_refines_add (w : World) (e : Entity) (cid : ComponentTypeID)
    (v : Val) : (w.add_raw e cid v).map Prod.fst = w.add e cid v :=
  add_raw_fst w e cid v

end ECS
